import Mathlib

/-!
# snull: a pair of cross-wired simulated network interfaces

Shallow embedding of `linux-driver/snull/snull.c`.

* Linked lists threaded through `snull_packet.next` (the free list `ppool`
  and the receive list `rx_queue`) are Lean lists, head first.
* A `struct net_device *` is an index into `snull_devs[2]`.
* Statistics counters are unbounded naturals.
* Dereferencing a NULL pointer and writing past `data[ETH_DATA_LEN]` have no
  defined result in C: operations return `Except Fault _` and such paths
  yield an error.
* The kernel calls `netif_rx` and `dev_kfree_skb` are recorded in two
  per-device logs, so that deliveries and frees can be counted.
* The outcome of `dev_alloc_skb` / `printk_ratelimit` inside `snull_rx` is
  an input (`AllocOutcome`) of every operation that may reach `snull_rx`.
* The kernel helper `ip_fast_csum` is called with a header length that is
  not checked against the frame.  The memory behind the frame, which it then
  reads, and its result for a header length below 5, which depends on the
  architecture, are inputs as well (`csum_env`), carried by the socket
  buffer.
-/

namespace Snull

/-! ## Constants -/

/-- Status word flag: a packet is waiting on the receive list. -/
def SNULL_RX_INTR : Nat := 1

/-- Status word flag: a transmission is over. -/
def SNULL_TX_INTR : Nat := 2

/-- Default timeout period, in jiffies. -/
def SNULL_TIMEOUT : Nat := 5

/-- Module variable `timeout`. -/
def timeout : Nat := SNULL_TIMEOUT

/-- Module variable `pool_size`. -/
def pool_size : Nat := 8

/-- Octets in one ethernet address (`linux/if_ether.h`). -/
def ETH_ALEN : Nat := 6

/-- Octets in an ethernet header (`linux/if_ether.h`). -/
def ETH_HLEN : Nat := 14

/-- Minimum octets in a frame without FCS (`linux/if_ether.h`). -/
def ETH_ZLEN : Nat := 60

/-- Maximum octets in a frame payload (`linux/if_ether.h`). -/
def ETH_DATA_LEN : Nat := 1500

/-- Value of `sizeof(struct ethhdr)`. -/
def sizeof_ethhdr : Nat := 14

/-- Value of `sizeof(struct iphdr)`. -/
def sizeof_iphdr : Nat := 20

/-! ## Data model -/

/-- Index of a device in `snull_devs[2]`. -/
inductive DevIdx where
  | sn0
  | sn1
deriving DecidableEq, Repr

/-- The twin device: `snull_devs[dev == snull_devs[0] ? 1 : 0]`. -/
def DevIdx.twin : DevIdx → DevIdx
  | .sn0 => .sn1
  | .sn1 => .sn0

/-- Executions without a defined result. -/
inductive Fault where
  | null_deref
  | buffer_overrun
deriving DecidableEq, Repr

/-- What `dev_alloc_skb` (and, on failure, `printk_ratelimit`) answer inside
`snull_rx`. -/
inductive AllocOutcome where
  | ok
  | fail_logged
  | fail_silent
deriving DecidableEq, Repr

/-- In-flight packet `struct snull_packet`.  `id` stands for the address
of the structure; `next` is the position in the list holding the packet. -/
structure snull_packet where
  id : Nat
  dev : DevIdx
  datalen : Nat
  data : List Nat
deriving DecidableEq, Repr

/-- The fields of `struct net_device_stats` the driver touches. -/
structure net_device_stats where
  rx_packets : Nat
  tx_packets : Nat
  rx_bytes : Nat
  tx_bytes : Nat
  rx_dropped : Nat
  tx_errors : Nat
deriving DecidableEq, Repr

/-- What the kernel helper `ip_fast_csum` depends on besides the bytes of
the frame it is called on.  `behind k` is byte `k` of the memory that follows
the buffer `snull_tx` hands to `snull_hw_tx` (the tail room behind
`skb->data`, or the stack behind `shortpkt`): the helper reads it when the
header length it is given reaches past the frame.  `low iph ihl` is what the
routine of the architecture (`asm/checksum.h`) returns for a header length
below 5, which its contract excludes and for which the routines differ. -/
structure csum_env where
  behind : Nat → Nat
  low : List Nat → Nat → Nat

/-- Socket buffer handed to `snull_tx`: `addr` stands for the pointer,
`data` for the `len` bytes at `skb->data`, and `env` for what
`ip_fast_csum` depends on outside the frame when `snull_hw_tx` calls it
for this buffer. -/
structure sk_buff where
  addr : Nat
  data : List Nat
  env : csum_env

/-- Field `len` of a linear socket buffer. -/
def sk_buff.len (skb : sk_buff) : Nat := skb.data.length

/-- Private part of a device, `struct snull_priv` (the spinlock is not
modelled: operations run one at a time).  `skb` holds the pointer of the
remembered socket buffer, `tx_packetdata` the bytes its pointer refers to. -/
structure snull_priv where
  stats : net_device_stats
  status : Nat
  ppool : List snull_packet
  rx_queue : List snull_packet
  rx_int_enabled : Int
  tx_packetlen : Nat
  tx_packetdata : List Nat
  skb : Option Nat
deriving DecidableEq, Repr

/-- The parts of `struct net_device` the driver reads or writes, with its
private area.  `queue_stopped` is the bit tested by `netif_queue_stopped`.
`netif_rx_log` lists the frames passed to `netif_rx` for this device, oldest
first; `kfree_skb_log` lists the arguments of `dev_kfree_skb`, oldest
first. -/
structure net_device where
  dev_addr : List Nat
  addr_len : Nat
  hard_header_len : Nat
  watchdog_timeo : Nat
  queue_stopped : Bool
  priv : snull_priv
  netif_rx_log : List (List Nat)
  kfree_skb_log : List (Option Nat)
deriving DecidableEq, Repr

/-- The two devices `snull_devs[0]` and `snull_devs[1]`. -/
structure Devs where
  sn0 : net_device
  sn1 : net_device
deriving DecidableEq, Repr

/-- Read `*snull_devs[i]`. -/
def Devs.get (s : Devs) : DevIdx → net_device
  | .sn0 => s.sn0
  | .sn1 => s.sn1

/-- Write `*snull_devs[i]`. -/
def Devs.set (s : Devs) (i : DevIdx) (d : net_device) : Devs :=
  match i with
  | .sn0 => { s with sn0 := d }
  | .sn1 => { s with sn1 := d }

/-- Update the private area of device `i`. -/
def Devs.setPriv (s : Devs) (i : DevIdx) (p : snull_priv) : Devs :=
  s.set i { s.get i with priv := p }

/-- Kernel helper `netif_stop_queue`. -/
def netif_stop_queue (s : Devs) (i : DevIdx) : Devs :=
  s.set i { s.get i with queue_stopped := true }

/-- Kernel helper `netif_start_queue`. -/
def netif_start_queue (s : Devs) (i : DevIdx) : Devs :=
  s.set i { s.get i with queue_stopped := false }

/-- Kernel helper `netif_wake_queue`: clears the stopped bit (the
rescheduling of the transmit path is the kernel's business). -/
def netif_wake_queue (s : Devs) (i : DevIdx) : Devs :=
  s.set i { s.get i with queue_stopped := false }

/-- Kernel helper `netif_queue_stopped`. -/
def netif_queue_stopped (s : Devs) (i : DevIdx) : Bool :=
  (s.get i).queue_stopped

/-! ## Packet pool -/

/-- Loop of `snull_setup_pool`: `k` further iterations, the next packet
getting address `next_id`. -/
def setup_pool_loop (dev : DevIdx) : Nat → Nat → List snull_packet → List snull_packet
  | 0, _, ppool => ppool
  | k + 1, next_id, ppool =>
    setup_pool_loop dev k (next_id + 1)
      ({ id := next_id, dev := dev, datalen := 0,
         data := List.replicate ETH_DATA_LEN 0 } :: ppool)

/-- Set up a device's packet pool (`snull_setup_pool`) with `n` packets;
every `kmalloc` succeeds and returns the addresses `base`, `base + 1`, ...
The fields `datalen` and `data`, which `kmalloc` leaves unspecified and no
path reads before writing them, start as zeros. -/
def snull_setup_pool (n base : Nat) (s : Devs) (dev : DevIdx) : Devs :=
  s.setPriv dev { (s.get dev).priv with ppool := setup_pool_loop dev n base [] }

/-- Buffer/pool management: `snull_get_tx_buffer`.  On an empty pool the
source reads `pkt->next` through a NULL `pkt`. -/
def snull_get_tx_buffer (s : Devs) (dev : DevIdx) : Except Fault (snull_packet × Devs) :=
  match (s.get dev).priv.ppool with
  | [] => .error .null_deref
  | pkt :: next =>
    let s1 := s.setPriv dev { (s.get dev).priv with ppool := next }
    let s2 := if next = [] then netif_stop_queue s1 dev else s1
    .ok (pkt, s2)

/-- Give a packet back to the pool of the device it belongs to
(`snull_release_buffer`).  `pkt->next == NULL` after the push says the pool
was empty before it. -/
def snull_release_buffer (s : Devs) (pkt : snull_packet) : Devs :=
  let old := (s.get pkt.dev).priv.ppool
  let s1 := s.setPriv pkt.dev { (s.get pkt.dev).priv with ppool := pkt :: old }
  if netif_queue_stopped s1 pkt.dev && old = [] then netif_wake_queue s1 pkt.dev else s1

/-- Put a packet on the receive list of `dev` (`snull_enqueue_buf`): the
packet becomes the new head. -/
def snull_enqueue_buf (s : Devs) (dev : DevIdx) (pkt : snull_packet) : Devs :=
  s.setPriv dev { (s.get dev).priv with rx_queue := pkt :: (s.get dev).priv.rx_queue }

/-- Take the head of the receive list of `dev`, if any
(`snull_dequeue_buf`). -/
def snull_dequeue_buf (s : Devs) (dev : DevIdx) : Option snull_packet × Devs :=
  match (s.get dev).priv.rx_queue with
  | [] => (none, s)
  | pkt :: next => (some pkt, s.setPriv dev { (s.get dev).priv with rx_queue := next })

/-- Enable and disable receive interrupts (`snull_rx_ints`). -/
def snull_rx_ints (s : Devs) (dev : DevIdx) (enable : Int) : Devs :=
  s.setPriv dev { (s.get dev).priv with rx_int_enabled := enable }

/-! ## Open and close -/

/-- The bytes of the string literal `"\0SNUL0"`. -/
def addr_SNUL0 : List Nat := [0, 83, 78, 85, 76, 48]

/-- Open (`snull_open`): returns 0. -/
def snull_open (s : Devs) (dev : DevIdx) : Int × Devs :=
  let a := addr_SNUL0.take ETH_ALEN
  let a := if dev = DevIdx.sn1 then a.set (ETH_ALEN - 1) ((a.getD (ETH_ALEN - 1) 0 + 1) % 256) else a
  let s1 := s.set dev { s.get dev with dev_addr := a }
  (0, netif_start_queue s1 dev)

/-- Close (`snull_release`): returns 0. -/
def snull_release (s : Devs) (dev : DevIdx) : Int × Devs :=
  (0, netif_stop_queue s dev)

/-! ## Receive path and the interrupt handler -/

/-- Receive a packet (`snull_rx`): build a socket buffer around the first
`datalen` bytes of the packet and pass it to `netif_rx`.  When the
allocation fails and `printk_ratelimit` answers yes the packet is counted as
dropped; when it fails and `printk_ratelimit` answers no the source goes on
to `skb_reserve` with a NULL buffer. -/
def snull_rx (o : AllocOutcome) (s : Devs) (dev : DevIdx) (pkt : snull_packet) :
    Except Fault Devs :=
  let d := s.get dev
  match o with
  | .fail_logged =>
    .ok (s.setPriv dev { d.priv with
          stats := { d.priv.stats with rx_dropped := d.priv.stats.rx_dropped + 1 } })
  | .fail_silent => .error .null_deref
  | .ok =>
    .ok (s.set dev { d with
          priv := { d.priv with
            stats := { d.priv.stats with
              rx_packets := d.priv.stats.rx_packets + 1
              rx_bytes := d.priv.stats.rx_bytes + pkt.datalen } }
          netif_rx_log := d.netif_rx_log ++ [pkt.data.take pkt.datalen] })

/-- Receive branch of `snull_regular_interrupt`, taken when the status word
has `SNULL_RX_INTR`: unlink the head of the receive list, if any, and hand
it to `snull_rx`.  Returns the packet to release later. -/
def interrupt_rx (o : AllocOutcome) (s : Devs) (dev : DevIdx) :
    Except Fault (Option snull_packet × Devs) :=
  match (s.get dev).priv.rx_queue with
  | [] => .ok (none, s)
  | pkt :: next =>
    match snull_rx o (s.setPriv dev { (s.get dev).priv with rx_queue := next }) dev pkt with
    | .error e => .error e
    | .ok s1 => .ok (some pkt, s1)

/-- Transmit-done branch of `snull_regular_interrupt`, taken when the status
word has `SNULL_TX_INTR`: count the packet and free the remembered socket
buffer. -/
def interrupt_tx (s : Devs) (dev : DevIdx) : Devs :=
  let d := s.get dev
  s.set dev { d with
    priv := { d.priv with
      stats := { d.priv.stats with
        tx_packets := d.priv.stats.tx_packets + 1
        tx_bytes := d.priv.stats.tx_bytes + d.priv.tx_packetlen } }
    kfree_skb_log := d.kfree_skb_log ++ [d.priv.skb] }

/-- The typical interrupt entry point (`snull_regular_interrupt`); `dev_id`
is `none` for a NULL device pointer. -/
def snull_regular_interrupt (o : AllocOutcome) (s : Devs) (dev_id : Option DevIdx) :
    Except Fault Devs :=
  match dev_id with
  | none => .ok s
  | some dev =>
    let statusword := (s.get dev).priv.status
    let s1 := s.setPriv dev { (s.get dev).priv with status := 0 }
    let r := if statusword &&& SNULL_RX_INTR ≠ 0 then interrupt_rx o s1 dev else .ok (none, s1)
    match r with
    | .error e => .error e
    | .ok (pkt, s2) =>
      let s3 := if statusword &&& SNULL_TX_INTR ≠ 0 then interrupt_tx s2 dev else s2
      match pkt with
      | some p => .ok (snull_release_buffer s3 p)
      | none => .ok s3

/-- The handler installed in the pointer `snull_interrupt` by
`snull_init_module`. -/
def snull_interrupt (o : AllocOutcome) (s : Devs) (dev_id : Option DevIdx) :
    Except Fault Devs :=
  snull_regular_interrupt o s dev_id

/-- Deal with a transmit timeout (`snull_tx_timeout`). -/
def snull_tx_timeout (o : AllocOutcome) (s : Devs) (dev : DevIdx) : Except Fault Devs :=
  let s1 := s.setPriv dev { (s.get dev).priv with status := SNULL_TX_INTR }
  match snull_interrupt o s1 (some dev) with
  | .error e => .error e
  | .ok s2 =>
    let d := s2.get dev
    let s3 := s2.setPriv dev { d.priv with
                stats := { d.priv.stats with tx_errors := d.priv.stats.tx_errors + 1 } }
    .ok (netif_wake_queue s3 dev)

/-! ## Transmission -/

/-- Flip the lowest bit of byte `k` of a buffer. -/
def flip_low_bit (buf : List Nat) (k : Nat) : List Nat :=
  buf.set k (Nat.xor (buf.getD k 0) 1)

/-- Sum of the big-endian 16-bit words of a byte list. -/
def csum_words : List Nat → Nat
  | [] => 0
  | [b] => b * 256
  | b0 :: b1 :: rest => b0 * 256 + b1 + csum_words rest

/-- Fold a 32-bit sum into 16 bits with end-around carry. -/
def csum_fold (x : Nat) : Nat :=
  let y := x % 65536 + x / 65536
  y % 65536 + y / 65536

/-- Kernel helper `ip_fast_csum` (`asm/checksum.h`), called on the bytes
`iph` of the frame from the IP header on.  For `ihl` of at least 5 every
routine returns the one's-complement checksum of the `ihl` 32-bit words
starting at `iph`, read from the frame and, past its end, from the memory
behind it; for `ihl` below 5 the result is that of the routine of the
architecture.  The result is given as the value whose high byte goes first
in memory. -/
def ip_fast_csum (env : csum_env) (iph : List Nat) (ihl : Nat) : Nat :=
  if ihl < 5 then env.low iph ihl
  else
    65535 - csum_fold (csum_words ((List.range (4 * ihl)).map
      (fun k => iph.getD k (env.behind (k - iph.length)))))

/-- The routine of `lib/checksum.c` for a header length below 5: the
complement of the one's-complement sum of the `4 * ihl` bytes. -/
def generic_low (iph : List Nat) (ihl : Nat) : Nat :=
  65535 - csum_fold (csum_words (iph.take (4 * ihl)))

/-- The routine of x86 for a header length below 5: it loads the first
32-bit word and returns at once, so that the result is the first two bytes
of the header. -/
def x86_low (iph : List Nat) (_ihl : Nat) : Nat :=
  iph.getD 0 0 * 256 + iph.getD 1 0

/-- A frame followed by zero bytes, on an architecture with the routine of
`lib/checksum.c`. -/
def generic_env : csum_env := { behind := fun _ => 0, low := generic_low }

/-- A frame followed by zero bytes, on x86. -/
def x86_env : csum_env := { behind := fun _ => 0, low := x86_low }

/-- The in-place changes `snull_hw_tx` makes to the buffer before looping it
back: flip the third octet of the IP source and destination addresses, zero
the IP checksum and rebuild it.  The IP header starts at byte
`sizeof_ethhdr`; `saddr` is at offset 12, `daddr` at 16, `check` at 10 and
`ihl` is the low nibble of its first byte. -/
def hw_tx_rewrite (env : csum_env) (buf : List Nat) : List Nat :=
  let b1 := flip_low_bit buf (sizeof_ethhdr + 12 + 2)
  let b2 := flip_low_bit b1 (sizeof_ethhdr + 16 + 2)
  let b3 := (b2.set (sizeof_ethhdr + 10) 0).set (sizeof_ethhdr + 11) 0
  let ihl := b3.getD sizeof_ethhdr 0 % 16
  let c := ip_fast_csum env (b3.drop sizeof_ethhdr) ihl
  (b3.set (sizeof_ethhdr + 10) (c / 256)).set (sizeof_ethhdr + 11) (c % 256)

/-- Effect of `memcpy(dst, src, len)` on the destination array. -/
def memcpy (dst src : List Nat) (len : Nat) : List Nat :=
  src.take len ++ dst.drop len

/-- Transmit a packet, low level interface (`snull_hw_tx`).  The packet
buffer comes from the pool of the transmitting device `dev` and is put on
the receive list of the twin device.  Copying more than `ETH_DATA_LEN` bytes
writes past the `data` array.  `o_rx` is the allocation outcome met by the
interrupt raised on the twin, `o_tx` the one met by the interrupt raised on
`dev` itself; `env` is what `ip_fast_csum` finds outside the frame. -/
def snull_hw_tx (env : csum_env) (o_rx o_tx : AllocOutcome) (buf : List Nat) (len : Nat)
    (dev : DevIdx) (s : Devs) : Except Fault Devs :=
  if len < sizeof_ethhdr + sizeof_iphdr then .ok s
  else
    let buf := hw_tx_rewrite env buf
    let dest := dev.twin
    match snull_get_tx_buffer s dev with
    | .error e => .error e
    | .ok (tx_buffer, s1) =>
      if len > ETH_DATA_LEN then .error .buffer_overrun
      else
        let tx_buffer := { tx_buffer with datalen := len, data := memcpy tx_buffer.data buf len }
        let s2 := snull_enqueue_buf s1 dest tx_buffer
        let r :=
          if (s2.get dest).priv.rx_int_enabled ≠ 0 then
            snull_interrupt o_rx
              (s2.setPriv dest { (s2.get dest).priv with
                status := (s2.get dest).priv.status ||| SNULL_RX_INTR })
              (some dest)
          else .ok s2
        match r with
        | .error e => .error e
        | .ok s3 =>
          let s4 := s3.setPriv dev { (s3.get dev).priv with
                      tx_packetlen := len
                      tx_packetdata := buf
                      status := (s3.get dev).priv.status ||| SNULL_TX_INTR }
          snull_interrupt o_tx s4 (some dev)

/-- The buffer and length `snull_tx` hands to `snull_hw_tx`: packets shorter
than `ETH_ZLEN` are copied into the zeroed array `shortpkt`. -/
def snull_tx_frame (skb : sk_buff) : List Nat × Nat :=
  if skb.len < ETH_ZLEN then
    (memcpy (List.replicate ETH_ZLEN 0) skb.data skb.len, ETH_ZLEN)
  else (skb.data, skb.len)

/-- Transmit a packet, called by the kernel (`snull_tx`): returns 0.  The
time stamp `dev->trans_start`, which only a log line reads, is left out. -/
def snull_tx (o_rx o_tx : AllocOutcome) (skb : sk_buff) (dev : DevIdx) (s : Devs) :
    Except Fault (Int × Devs) :=
  let f := snull_tx_frame skb
  let s1 := s.setPriv dev { (s.get dev).priv with skb := some skb.addr }
  match snull_hw_tx skb.env o_rx o_tx f.1 f.2 dev s1 with
  | .error e => .error e
  | .ok s2 => .ok (0, s2)

/-! ## Initialisation -/

/-- A device as `alloc_netdev` leaves it: all zero. -/
def zeroed_device : net_device :=
  { dev_addr := List.replicate ETH_ALEN 0
    addr_len := 0
    hard_header_len := 0
    watchdog_timeo := 0
    queue_stopped := false
    priv :=
      { stats := { rx_packets := 0, tx_packets := 0, rx_bytes := 0, tx_bytes := 0,
                   rx_dropped := 0, tx_errors := 0 }
        status := 0
        ppool := []
        rx_queue := []
        rx_int_enabled := 0
        tx_packetlen := 0
        tx_packetdata := []
        skb := none }
    netif_rx_log := []
    kfree_skb_log := [] }

/-- The init function (`snull_init`), with a pool of `n` packets whose
addresses start at `base`.  Of `ether_setup` only the address and header
lengths are kept. -/
def snull_init (n base : Nat) (s : Devs) (dev : DevIdx) : Devs :=
  let d := s.get dev
  let s1 := s.set dev { d with
              addr_len := ETH_ALEN
              hard_header_len := ETH_HLEN
              watchdog_timeo := timeout
              priv := zeroed_device.priv }
  let s2 := snull_rx_ints s1 dev 1
  snull_setup_pool n base s2 dev

/-- Module initialisation (`snull_init_module`) with `pool_size = n`: both
devices are allocated and initialised, in this order, and both
registrations succeed. -/
def snull_init_module (n : Nat) : Devs :=
  let s0 : Devs := { sn0 := zeroed_device, sn1 := zeroed_device }
  let s1 := snull_init n 0 s0 DevIdx.sn0
  snull_init n n s1 DevIdx.sn1

/-! ## Operations and reachable states -/

/-- The operations the kernel may invoke on the pair of devices. -/
inductive Op where
  | dev_open (dev : DevIdx)
  | dev_close (dev : DevIdx)
  | rx_ints (dev : DevIdx) (enable : Int)
  | tx (o_rx o_tx : AllocOutcome) (skb : sk_buff) (dev : DevIdx)
  | interrupt (o : AllocOutcome) (dev : DevIdx)
  | tx_timeout (o : AllocOutcome) (dev : DevIdx)

/-- Run one operation. -/
def step (s : Devs) : Op → Except Fault Devs
  | .dev_open dev => .ok (snull_open s dev).2
  | .dev_close dev => .ok (snull_release s dev).2
  | .rx_ints dev enable => .ok (snull_rx_ints s dev enable)
  | .tx o_rx o_tx skb dev =>
    match snull_tx o_rx o_tx skb dev s with
    | .error e => .error e
    | .ok r => .ok r.2
  | .interrupt o dev => snull_interrupt o s (some dev)
  | .tx_timeout o dev => snull_tx_timeout o s dev

/-- States reached from module initialisation with `pool_size = n` by
operations that return. -/
inductive Reachable (n : Nat) : Devs → Prop where
  | init : Reachable n (snull_init_module n)
  | step (s s' : Devs) (op : Op) : Reachable n s → step s op = .ok s' → Reachable n s'

/-- Run a list of operations, stopping at the first fault. -/
def run (s : Devs) : List Op → Except Fault Devs
  | [] => .ok s
  | op :: ops =>
    match step s op with
    | .error e => .error e
    | .ok s1 => run s1 ops


/-! ## Derived notions used in the statements -/

/-- Number of packets on the two free lists and the two receive lists. -/
def buffers (s : Devs) : Nat :=
  s.sn0.priv.ppool.length + s.sn1.priv.ppool.length
    + s.sn0.priv.rx_queue.length + s.sn1.priv.rx_queue.length

/-- The frame `snull_hw_tx` copies to the twin for a socket buffer. -/
def wire_frame (skb : sk_buff) : List Nat :=
  hw_tx_rewrite skb.env (snull_tx_frame skb).1

/-- The state after a list of operations; a faulting list leaves the state
where it started. -/
def run_state (s : Devs) (ops : List Op) : Devs :=
  match run s ops with
  | .ok s1 => s1
  | .error _ => s

/-- Between operations every status word is clear and every packet on a
free list belongs to the device owning the list. -/
def Inv (s : Devs) : Prop :=
  ∀ i, (s.get i).priv.status = 0 ∧ ∀ p ∈ (s.get i).priv.ppool, p.dev = i

/-- The queue of every device is stopped exactly when its free list is
empty. -/
def BlockedIff (s : Devs) : Prop :=
  ∀ i, (s.get i).queue_stopped = true ↔ (s.get i).priv.ppool = []

/-- A property of the device table that depends only on the free lists and
the stopped bits, and that taking and giving back a packet maintain. -/
structure PoolInvariant (P : Devs → Prop) : Prop where
  set : ∀ s dev d, d.priv.ppool = (s.get dev).priv.ppool →
    d.queue_stopped = (s.get dev).queue_stopped → P s → P (s.set dev d)
  get : ∀ s dev p s1, snull_get_tx_buffer s dev = .ok (p, s1) → P s → P s1
  release : ∀ s p, P s → P (snull_release_buffer s p)

/-- The operations of the packet pool and of the data path, without open,
close and transmit timeout. -/
inductive PoolOp where
  | acquire (dev : DevIdx)
  | release (pkt : snull_packet)
  | rx_ints (dev : DevIdx) (enable : Int)
  | tx (o_rx o_tx : AllocOutcome) (skb : sk_buff) (dev : DevIdx)
  | interrupt (o : AllocOutcome) (dev : DevIdx)

/-- Run one pool or data path operation. -/
def pool_step (s : Devs) : PoolOp → Except Fault Devs
  | .acquire dev =>
    match snull_get_tx_buffer s dev with
    | .error e => .error e
    | .ok r => .ok r.2
  | .release pkt => .ok (snull_release_buffer s pkt)
  | .rx_ints dev enable => step s (.rx_ints dev enable)
  | .tx o_rx o_tx skb dev => step s (.tx o_rx o_tx skb dev)
  | .interrupt o dev => step s (.interrupt o dev)

/-- Run a list of pool and data path operations, stopping at the first
fault. -/
def run_pool (s : Devs) : List PoolOp → Except Fault Devs
  | [] => .ok s
  | op :: ops =>
    match pool_step s op with
    | .error e => .error e
    | .ok s1 => run_pool s1 ops


/-! ## Sample inputs -/

/-- A socket buffer with pointer `a` carrying `n` bytes of value 7. -/
def sample_skb (a n : Nat) : sk_buff :=
  { addr := a, data := List.replicate n 7, env := generic_env }

/-- A packet of device `sn0` with address `a`, holding a 60 byte frame whose
first byte is `b`. -/
def sample_packet (a b : Nat) : snull_packet :=
  { id := a, dev := DevIdx.sn0, datalen := ETH_ZLEN,
    data := memcpy (List.replicate ETH_DATA_LEN 0) [b] 1 }

/-- Both devices opened, then one transmission of 64 bytes on `sn0`. -/
def sample_ops : List Op :=
  [Op.dev_open DevIdx.sn0, Op.dev_open DevIdx.sn1,
   Op.tx AllocOutcome.ok AllocOutcome.ok (sample_skb 100 64) DevIdx.sn0]

/-- Receive interrupts of the twin of `dev` switched off, then `k`
transmissions of 64 bytes on `dev`. -/
def fill_ops (dev : DevIdx) (k : Nat) : List Op :=
  Op.rx_ints dev.twin 0 ::
    (List.range k).map
      (fun j => Op.tx AllocOutcome.ok AllocOutcome.ok (sample_skb (100 + j) 64) dev)

/-- Two packets taken from the pool of `sn0`, one transmission on `sn0` and
one packet given back. -/
def sample_pool_ops : List PoolOp :=
  [PoolOp.acquire DevIdx.sn0, PoolOp.acquire DevIdx.sn0,
   PoolOp.tx AllocOutcome.ok AllocOutcome.ok (sample_skb 100 64) DevIdx.sn0,
   PoolOp.release (sample_packet 7 0)]

/-- The state after a list of pool and data path operations; a faulting
list leaves the state where it started. -/
def pool_state (s : Devs) (ops : List PoolOp) : Devs :=
  match run_pool s ops with
  | .ok s1 => s1
  | .error _ => s

/-! ## Notions used by the later statements -/

/-- Position of a device in `snull_devs[2]`. -/
def DevIdx.index : DevIdx → Nat
  | .sn0 => 0
  | .sn1 => 1

/-- Every counter of `b` is at least the counter of `a`. -/
def stats_le (a b : net_device_stats) : Prop :=
  a.rx_packets ≤ b.rx_packets ∧ a.tx_packets ≤ b.tx_packets ∧
  a.rx_bytes ≤ b.rx_bytes ∧ a.tx_bytes ≤ b.tx_bytes ∧
  a.rx_dropped ≤ b.rx_dropped ∧ a.tx_errors ≤ b.tx_errors

/-- The statistics of both devices in `t` are at least those in `s`. -/
def StatsLe (s t : Devs) : Prop :=
  ∀ i, stats_le (s.get i).priv.stats (t.get i).priv.stats

/-- The packets on the two free lists and the two receive lists. -/
def all_packets (s : Devs) : List snull_packet :=
  s.sn0.priv.ppool ++ s.sn1.priv.ppool ++ s.sn0.priv.rx_queue ++ s.sn1.priv.rx_queue

/-- The addresses of the packets on a list, as a multiset. -/
def ids_of (l : List snull_packet) : Multiset Nat :=
  Multiset.ofList (l.map snull_packet.id)

/-- The addresses of the packets on the four lists, as a multiset. -/
def packet_ids (s : Devs) : Multiset Nat :=
  ids_of s.sn0.priv.ppool + ids_of s.sn1.priv.ppool
    + ids_of s.sn0.priv.rx_queue + ids_of s.sn1.priv.rx_queue

/-- One run of the interrupt handler on `dev` with the status word holding
`v`. -/
def fire (o : AllocOutcome) (s : Devs) (dev : DevIdx) (v : Nat) : Except Fault Devs :=
  snull_regular_interrupt o (s.setPriv dev { (s.get dev).priv with status := v }) (some dev)

/-- The first `hlen` bytes after the ethernet header of a frame: the header
of the network layer. -/
def ip_header (frame : List Nat) (hlen : Nat) : List Nat :=
  (frame.drop sizeof_ethhdr).take hlen

/-- The test a receiver applies to an IPv4 header (RFC 791, RFC 1071): the
one's-complement sum of all 16-bit words of the header, checksum field
included, is `0xffff`. -/
def header_checksum_ok (hdr : List Nat) : Prop :=
  csum_fold (csum_words hdr) = 65535

instance header_checksum_ok_decidable (hdr : List Nat) : Decidable (header_checksum_ok hdr) :=
  inferInstanceAs (Decidable (csum_fold (csum_words hdr) = 65535))

/-- The buffer of `snull_hw_tx` at the moment the checksum is computed: both
address octets flipped and the checksum field zeroed. -/
def hw_tx_zeroed (buf : List Nat) : List Nat :=
  (((flip_low_bit (flip_low_bit buf (sizeof_ethhdr + 12 + 2)) (sizeof_ethhdr + 16 + 2)).set
    (sizeof_ethhdr + 10) 0).set (sizeof_ethhdr + 11) 0)

/-- A 60 byte frame with an IPv4 header of 20 bytes (first byte `0x45`)
from 192.168.0.1 to 192.168.1.2. -/
def sample_ipv4_frame : List Nat :=
  List.replicate 14 0 ++
    [69, 0, 0, 46, 0, 0, 0, 0, 64, 6, 0, 0, 192, 168, 0, 1, 192, 168, 1, 2] ++
    List.replicate 26 0

/-- A 60 byte frame whose network layer starts with `0x60`, as an IPv6
packet does: the low nibble of that byte, read as an IPv4 header length,
is 0. -/
def sample_ipv6_frame : List Nat :=
  List.replicate 12 0 ++ [134, 221, 96] ++ List.replicate 45 0

/-! ## Pending transmits -/

/-- Kernel helper `memcpy` into the middle of a buffer: copy `len` bytes of
`src` to `dst + off`. -/
def memcpy_at (dst : List Nat) (off : Nat) (src : List Nat) (len : Nat) : List Nat :=
  dst.take off ++ memcpy (dst.drop off) src len

/-- Fill up an ethernet header (`snull_header`): returns
`dev->hard_header_len` and the socket buffer with the header in front.
`skb_push` makes `ETH_HLEN` bytes of headroom part of the data; they start
as zeros here.  In `struct ethhdr` (`linux/if_ether.h`) `h_dest` is at
offset 0, `h_source` at `ETH_ALEN` and `h_proto` at `2 * ETH_ALEN`;
`htons` puts the high byte of the `unsigned short` first.  A NULL `daddr`
or `saddr` is `none`. -/
def snull_header (skb : sk_buff) (dev : net_device) (type : Nat)
    (daddr saddr : Option (List Nat)) (_len : Nat) : Int × sk_buff :=
  let eth := List.replicate ETH_HLEN 0 ++ skb.data
  let eth := (eth.set (2 * ETH_ALEN) (type / 256 % 256)).set (2 * ETH_ALEN + 1) (type % 256)
  let eth := memcpy_at eth ETH_ALEN (saddr.getD dev.dev_addr) dev.addr_len
  let eth := memcpy_at eth 0 (daddr.getD dev.dev_addr) dev.addr_len
  let eth := eth.set (ETH_ALEN - 1) (Nat.xor (eth.getD (ETH_ALEN - 1) 0) 1)
  (dev.hard_header_len, { skb with data := eth })

/-- The device carries the address `snull_open` assigns to it: opening it
again would not change `dev_addr`. -/
def Opened (s : Devs) (dev : DevIdx) : Prop :=
  (s.get dev).dev_addr = ((snull_open s dev).2.get dev).dev_addr

instance Opened_decidable (s : Devs) (dev : DevIdx) : Decidable (Opened s dev) :=
  inferInstanceAs (Decidable ((s.get dev).dev_addr = ((snull_open s dev).2.get dev).dev_addr))

/-- Both devices opened after module initialisation with a pool of 8. -/
def both_open_state : Devs :=
  run_state (snull_init_module 8) [Op.dev_open DevIdx.sn0, Op.dev_open DevIdx.sn1]

/-- The link-layer fields of a device: hardware address, its length and the
length of the link header. -/
def link (d : net_device) : List Nat × Nat × Nat :=
  (d.dev_addr, d.addr_len, d.hard_header_len)

/-- The link-layer fields of both devices are the same in `s` and `t`. -/
def LinkEq (s t : Devs) : Prop :=
  ∀ i, link (t.get i) = link (s.get i)

end Snull

/-!
# scull: a character device backed by a list of quantum sets

Shallow embedding of `linux-driver/scull/scull.c`.

* The linked list of `struct scull_qset` is a Lean list, head first; a
  pointer to a list item is its index.  The array `qs->data` is `none` while
  NULL and a list of slots otherwise; a slot is `none` while NULL and the
  bytes of the quantum otherwise.
* `int` is 32 bits wide, `long`, `size_t` and `loff_t` are 64 bits wide
  (LP64).  A value stored in an `int` is reduced to 32 bits (`to_int`), also
  where the C standard leaves the overflow undefined: the kernel is built
  with wrapping arithmetic.
* File positions and counts are as the VFS passes them: the position is not
  negative and position plus count stays below `2^63`, so that the arithmetic
  on `loff_t`, `size_t` and `dev->size` is the arithmetic of naturals.
* A division by zero and an access outside an allocated block have no
  defined result: such paths yield an error (`Fault`).
* `kmalloc` is an input of every operation: `avail` is the number of
  allocations that succeed before the first one that fails, and `junk` is
  the content of a fresh quantum, which `kmalloc` does not initialise.
* The user buffer is the list of bytes that can be accessed at the user
  pointer: `copy_from_user` and `copy_to_user` fail when `count` exceeds its
  length.
-/

namespace Scull

/-! ## Constants and machine integers -/

/-- Default quantum size `SCULL_QUANTUM`. -/
def SCULL_QUANTUM : Int := 4000

/-- Default length of the quantum array `SCULL_QSET`. -/
def SCULL_QSET : Int := 1000

/-- Error number `ENOMEM` (`asm-generic/errno-base.h`). -/
def ENOMEM : Int := 12

/-- Error number `EFAULT` (`asm-generic/errno-base.h`). -/
def EFAULT : Int := 14

/-- The value an `int` holds after `x` is stored in it. -/
def to_int (x : Int) : Int := (x + 2147483648) % 4294967296 - 2147483648

/-- The value of `x` converted to `size_t`. -/
def to_ulong (x : Int) : Nat := (x % 18446744073709551616).toNat

/-! ## Data model -/

/-- Executions without a defined result. -/
inductive Fault where
  | div_by_zero
  | bad_access
deriving DecidableEq, Repr

/-- Results of operations can be compared. -/
instance except_decidable_eq {α : Type} [DecidableEq α] : DecidableEq (Except Fault α)
  | .ok a, .ok b =>
    if h : a = b then isTrue (by rw [h]) else isFalse (fun e => h (Except.ok.inj e))
  | .error a, .error b =>
    if h : a = b then isTrue (by rw [h]) else isFalse (fun e => h (Except.error.inj e))
  | .ok _, .error _ => isFalse (fun e => nomatch e)
  | .error _, .ok _ => isFalse (fun e => nomatch e)

/-- Quantum set `struct scull_qset`; `next` is the position in the list. -/
structure scull_qset where
  data : Option (List (Option (List Nat)))
deriving DecidableEq, Repr

/-- Device `struct scull_dev`, without its `cdev`. -/
structure scull_dev where
  data : List scull_qset
  quantum : Int
  qset : Int
  size : Nat
deriving DecidableEq, Repr

/-- A device as `scull_init_module` leaves it, the module variables
`scull_quantum` and `scull_qset` having the given values. -/
def scull_init_dev (scull_quantum scull_qset : Int) : scull_dev :=
  { data := [], quantum := scull_quantum, qset := scull_qset, size := 0 }

/-! ## Following the list -/

/-- The loop `while (n--)` of `scull_follow` with `k` iterations to go: `qs`
is item `i` of the list `l`, and `avail` further allocations succeed.  A
missing next item is allocated, zeroed and appended. -/
def follow_loop : Nat → Nat → Nat → List scull_qset → Option Nat × List scull_qset × Nat
  | 0, i, avail, l => (some i, l, avail)
  | k + 1, i, avail, l =>
    if i + 1 < l.length then follow_loop k (i + 1) avail l
    else
      match avail with
      | 0 => (none, l, 0)
      | a + 1 => follow_loop k (i + 1) a (l ++ [{ data := none }])

/-- Follow the list (`scull_follow`): returns the pointer to item `n`, or
NULL when an allocation fails, with the device and the allocations left.
The loop runs until the 32-bit counter is zero, `n mod 2^32` times. -/
def scull_follow (avail : Nat) (dev : scull_dev) (n : Int) : Option Nat × scull_dev × Nat :=
  match dev.data, avail with
  | [], 0 => (none, dev, 0)
  | [], a + 1 =>
    let r := follow_loop (n % 4294967296).toNat 0 a [{ data := none }]
    (r.1, { dev with data := r.2.1 }, r.2.2)
  | q :: l, a =>
    let r := follow_loop (n % 4294967296).toNat 0 a (q :: l)
    (r.1, { dev with data := r.2.1 }, r.2.2)

/-! ## Read and write -/

/-- The lines shared by `scull_read` and `scull_write` that find the list
item, the index in the quantum array and the offset in the quantum:
`item`, `s_pos` and `q_pos`.  `itemsize`, `item` and `rest` are `int`s; the
divisions are those of C, which truncate. -/
def scull_locate (dev : scull_dev) (f_pos : Nat) : Except Fault (Int × Int × Int) :=
  let quantum := dev.quantum
  let qset := dev.qset
  let itemsize := to_int (quantum * qset)
  if itemsize = 0 then .error .div_by_zero
  else
    let item := to_int (Int.tdiv f_pos itemsize)
    let rest := to_int (Int.tmod f_pos itemsize)
    if quantum = 0 then .error .div_by_zero
    else .ok (item, Int.tdiv rest quantum, Int.tmod rest quantum)

/-- The lines of `scull_write` that allocate the quantum array when
`dptr->data` is NULL: `kmalloc(qset * sizeof(char *))` and `memset`.  A
negative `qset` converts to a size no allocation satisfies. -/
def kmalloc_qset (avail : Nat) (qset : Int) (dptr : scull_qset) :
    Option (List (Option (List Nat)) × Nat) :=
  match dptr.data with
  | some arr => some (arr, avail)
  | none =>
    if qset < 0 then none
    else
      match avail with
      | 0 => none
      | a + 1 => some (List.replicate qset.toNat none, a)

/-- The lines of `scull_write` that allocate the quantum when
`dptr->data[s_pos]` is NULL: `kmalloc(quantum)`, whose block holds the first
`quantum` bytes of `junk`. -/
def kmalloc_quantum (avail : Nat) (junk : List Nat) (quantum : Int) (slot : Option (List Nat)) :
    Option (List Nat × Nat) :=
  match slot with
  | some q => some (q, avail)
  | none =>
    if quantum < 0 then none
    else
      match avail with
      | 0 => none
      | a + 1 => some ((List.range quantum.toNat).map (fun k => junk.getD k 0), a)

/-- Write (`scull_write`) `count` bytes from the user buffer `buf` at
position `f_pos`: returns the return value, the new position and the
device.  When `copy_from_user` cannot read all `count` bytes it sets the
rest of the destination to zero. -/
def scull_write (avail : Nat) (junk : List Nat) (dev : scull_dev) (buf : List Nat) (count : Nat)
    (f_pos : Nat) : Except Fault (Int × Nat × scull_dev) :=
  match scull_locate dev f_pos with
  | .error e => .error e
  | .ok (item, s_pos, q_pos) =>
    match scull_follow avail dev item with
    | (none, dev1, _) => .ok (-ENOMEM, f_pos, dev1)
    | (some i, dev1, a1) =>
      match dev1.data[i]? with
      | none => .error .bad_access
      | some dptr =>
        match kmalloc_qset a1 dev.qset dptr with
        | none => .ok (-ENOMEM, f_pos, dev1)
        | some (arr, a2) =>
          if s_pos < 0 ∨ (arr.length : Int) ≤ s_pos then .error .bad_access
          else
            match kmalloc_quantum a2 junk dev.quantum (arr.getD s_pos.toNat none) with
            | none =>
              .ok (-ENOMEM, f_pos, { dev1 with data := dev1.data.set i { data := some arr } })
            | some (q, _) =>
              let room := to_ulong (dev.quantum - q_pos)
              let count := if count > room then room else count
              if 0 < count ∧ (q_pos < 0 ∨ (q.length : Int) < q_pos + count) then
                .error .bad_access
              else
                let src := buf.take count ++ List.replicate (count - buf.length) 0
                let q1 := q.take q_pos.toNat ++ src ++ q.drop (q_pos.toNat + count)
                let data1 := dev1.data.set i { data := some (arr.set s_pos.toNat (some q1)) }
                if buf.length < count then .ok (-EFAULT, f_pos, { dev1 with data := data1 })
                else
                  .ok (count, f_pos + count,
                    { dev1 with
                      data := data1
                      size := if dev.size < f_pos + count then f_pos + count else dev.size })

/-- Read (`scull_read`) `count` bytes at position `f_pos` into the user
buffer `ubuf`: returns the return value, the new position, the user buffer
and the device (which `scull_follow` may have extended). -/
def scull_read (avail : Nat) (dev : scull_dev) (ubuf : List Nat) (count : Nat) (f_pos : Nat) :
    Except Fault (Int × Nat × List Nat × scull_dev) :=
  if f_pos ≥ dev.size then .ok (0, f_pos, ubuf, dev)
  else
    let count := if f_pos + count > dev.size then dev.size - f_pos else count
    match scull_locate dev f_pos with
    | .error e => .error e
    | .ok (item, s_pos, q_pos) =>
      match scull_follow avail dev item with
      | (none, dev1, _) => .ok (0, f_pos, ubuf, dev1)
      | (some i, dev1, _) =>
        match dev1.data[i]? with
        | none => .error .bad_access
        | some dptr =>
          match dptr.data with
          | none => .ok (0, f_pos, ubuf, dev1)
          | some arr =>
            if s_pos < 0 ∨ (arr.length : Int) ≤ s_pos then .error .bad_access
            else
              match arr.getD s_pos.toNat none with
              | none => .ok (0, f_pos, ubuf, dev1)
              | some q =>
                let room := to_ulong (dev.quantum - q_pos)
                let count := if count > room then room else count
                if 0 < count ∧ (q_pos < 0 ∨ (q.length : Int) < q_pos + count) then
                  .error .bad_access
                else
                  let src := (q.drop q_pos.toNat).take count
                  let ubuf1 := src.take ubuf.length ++ ubuf.drop count
                  if ubuf.length < count then .ok (-EFAULT, f_pos, ubuf1, dev1)
                  else .ok (count, f_pos + count, ubuf1, dev1)

/-! ## Stored bytes and well-formed devices -/

/-- Byte `k` of quantum `s` of list item `i`, when that quantum is
allocated and has such a byte. -/
def stored (dev : scull_dev) (i s k : Nat) : Option Nat :=
  (dev.data[i]?).bind fun qs =>
    qs.data.bind fun arr =>
      (arr[s]?).bind fun slot =>
        slot.bind fun q => q[k]?

/-- Every quantum array has `qset` slots and every quantum has `quantum`
bytes, as `scull_write` allocates them. -/
def WellFormed (dev : scull_dev) : Prop :=
  ∀ qs ∈ dev.data, ∀ arr, qs.data = some arr →
    (arr.length : Int) = dev.qset ∧ ∀ q, some q ∈ arr → (q.length : Int) = dev.quantum

/-! ## Sample inputs -/

/-- The device a write leaves behind; the device it started from when the
write has no defined result. -/
def write_state (dev : scull_dev) (r : Except Fault (Int × Nat × scull_dev)) : scull_dev :=
  match r with
  | .ok (_, _, d) => d
  | .error _ => dev

/-- A device with the default quantum and quantum-set sizes, right after
module initialisation. -/
def sample_dev : scull_dev := scull_init_dev SCULL_QUANTUM SCULL_QSET

/-- Six bytes of user data. -/
def sample_buf : List Nat := [1, 2, 3, 4, 5, 6]

/-- The sample device after the byte 5 was written at position 0. -/
def dev_with_byte : scull_dev := write_state sample_dev (scull_write 3 [] sample_dev [5] 1 0)

/-- The first position whose item index, `2^32`, does not fit in an `int`
and wraps to 0 on the sample device: `2^32 * 4000 * 1000`. -/
def far_position : Nat := 17179869184000000


end Scull

namespace Snull

/-! ## Basic facts about the device table -/

@[simp]
theorem twin_twin (i : DevIdx) : i.twin.twin = i := by cases i <;> rfl
@[simp]
theorem twin_ne (i : DevIdx) : i.twin ≠ i := by cases i <;> decide
@[simp]
theorem ne_twin (i : DevIdx) : i ≠ i.twin := by cases i <;> decide
theorem eq_or_twin (i j : DevIdx) : j = i ∨ j = i.twin := by
  cases i <;> cases j <;> simp [DevIdx.twin]
theorem get_set (s : Devs) (i j : DevIdx) (d : net_device) :
    (s.set i d).get j = if j = i then d else s.get j := by
  cases i <;> cases j <;> simp [Devs.set, Devs.get]
theorem get_setPriv (s : Devs) (i j : DevIdx) (p : snull_priv) :
    (s.setPriv i p).get j = if j = i then { s.get i with priv := p } else s.get j := by
  simp [Devs.setPriv, get_set]
theorem devs_ext (s t : Devs) (i : DevIdx) (h1 : s.get i = t.get i)
    (h2 : s.get i.twin = t.get i.twin) : s = t := by
  cases s; cases t; cases i <;> simp_all [Devs.get, DevIdx.twin]


/-! ### Effect of the primitives on each device -/

theorem get_tx_buffer_ok (s : Devs) (A : DevIdx) (p : snull_packet) (rest : List snull_packet)
    (h : (s.get A).priv.ppool = p :: rest) :
    ∃ s1, snull_get_tx_buffer s A = .ok (p, s1)
      ∧ s1.get A = { s.get A with
          queue_stopped := if rest = [] then true else (s.get A).queue_stopped
          priv := { (s.get A).priv with ppool := rest } }
      ∧ s1.get A.twin = s.get A.twin := by
  unfold snull_get_tx_buffer
  rw [h]
  refine ⟨_, rfl, ?_, ?_⟩
  · by_cases hr : rest = [] <;> simp [hr, netif_stop_queue, get_set, get_setPriv]
  · by_cases hr : rest = [] <;> simp [hr, netif_stop_queue, get_set, get_setPriv]

theorem release_get (s : Devs) (p : snull_packet) (j : DevIdx) :
    (snull_release_buffer s p).get j =
      if j = p.dev then
        { s.get p.dev with
          queue_stopped :=
            if (s.get p.dev).priv.ppool = [] then false else (s.get p.dev).queue_stopped
          priv := { (s.get p.dev).priv with ppool := p :: (s.get p.dev).priv.ppool } }
      else s.get j := by
  simp only [snull_release_buffer]
  by_cases h : (s.get p.dev).priv.ppool = [] <;>
    cases hq : (s.get p.dev).queue_stopped <;>
    by_cases hj : j = p.dev <;>
    simp [h, hq, hj, netif_queue_stopped, netif_wake_queue, get_set, get_setPriv]

theorem interrupt_idle (o : AllocOutcome) (s : Devs) (dev : DevIdx)
    (h : (s.get dev).priv.status = 0) :
    snull_regular_interrupt o s (some dev) = .ok s := by
  simp only [snull_regular_interrupt, h]
  simp
  apply devs_ext _ _ dev
  · simp [← h, get_setPriv]
  · simp [get_setPriv]

theorem interrupt_tx_only (o : AllocOutcome) (s : Devs) (dev : DevIdx)
    (h : (s.get dev).priv.status = SNULL_TX_INTR) :
    ∃ s1, snull_regular_interrupt o s (some dev) = .ok s1
      ∧ s1.get dev = { s.get dev with
          priv := { (s.get dev).priv with
            status := 0
            stats := { (s.get dev).priv.stats with
              tx_packets := (s.get dev).priv.stats.tx_packets + 1
              tx_bytes := (s.get dev).priv.stats.tx_bytes + (s.get dev).priv.tx_packetlen } }
          kfree_skb_log := (s.get dev).kfree_skb_log ++ [(s.get dev).priv.skb] }
      ∧ s1.get dev.twin = s.get dev.twin := by
  simp only [snull_regular_interrupt, h]
  simp [SNULL_TX_INTR, SNULL_RX_INTR, interrupt_tx, get_set, get_setPriv]

theorem interrupt_rx_only (o : AllocOutcome) (s : Devs) (dev : DevIdx) (p : snull_packet)
    (next : List snull_packet) (ho : o ≠ .fail_silent)
    (h : (s.get dev).priv.status = SNULL_RX_INTR)
    (hq : (s.get dev).priv.rx_queue = p :: next) (hown : p.dev = dev.twin) :
    ∃ s1, snull_regular_interrupt o s (some dev) = .ok s1
      ∧ s1.get dev = { s.get dev with
          priv := { (s.get dev).priv with
            status := 0
            rx_queue := next
            stats := { (s.get dev).priv.stats with
              rx_packets := (s.get dev).priv.stats.rx_packets + (if o = .ok then 1 else 0)
              rx_bytes := (s.get dev).priv.stats.rx_bytes + (if o = .ok then p.datalen else 0)
              rx_dropped := (s.get dev).priv.stats.rx_dropped + (if o = .ok then 0 else 1) } }
          netif_rx_log := (s.get dev).netif_rx_log ++
            (if o = .ok then [p.data.take p.datalen] else []) }
      ∧ s1.get dev.twin = { s.get dev.twin with
          queue_stopped :=
            if (s.get dev.twin).priv.ppool = [] then false else (s.get dev.twin).queue_stopped
          priv := { (s.get dev.twin).priv with ppool := p :: (s.get dev.twin).priv.ppool } } := by
  cases o with
  | fail_silent => exact absurd rfl ho
  | ok =>
    simp only [snull_regular_interrupt, h]
    simp [SNULL_TX_INTR, SNULL_RX_INTR, interrupt_rx, hq, snull_rx, release_get, get_set,
      get_setPriv, hown]
  | fail_logged =>
    simp only [snull_regular_interrupt, h]
    simp [SNULL_TX_INTR, SNULL_RX_INTR, interrupt_rx, hq, snull_rx, release_get, get_set,
      get_setPriv, hown]

theorem enqueue_get (s : Devs) (dev j : DevIdx) (pkt : snull_packet) :
    (snull_enqueue_buf s dev pkt).get j =
      if j = dev then
        { s.get dev with priv := { (s.get dev).priv with
            rx_queue := pkt :: (s.get dev).priv.rx_queue } }
      else s.get j := by
  simp [snull_enqueue_buf, get_setPriv]

theorem tx_frame_len_ge (skb : sk_buff) : ETH_ZLEN ≤ (snull_tx_frame skb).2 := by
  unfold snull_tx_frame
  split
  · exact Nat.le_refl _
  · simp only; omega

theorem snull_tx_enabled (o_rx o_tx : AllocOutcome) (skb : sk_buff) (A : DevIdx) (s : Devs)
    (p : snull_packet) (rest : List snull_packet) (ho : o_rx ≠ .fail_silent)
    (hpool : (s.get A).priv.ppool = p :: rest) (hown : p.dev = A)
    (hsA : (s.get A).priv.status = 0) (hsB : (s.get A.twin).priv.status = 0)
    (hen : (s.get A.twin).priv.rx_int_enabled ≠ 0)
    (hlen : (snull_tx_frame skb).2 ≤ ETH_DATA_LEN) :
    ∃ s', snull_tx o_rx o_tx skb A s = .ok (0, s')
      ∧ s'.get A = { s.get A with
          queue_stopped := if rest = [] then false else (s.get A).queue_stopped
          priv := { (s.get A).priv with
            skb := some skb.addr
            ppool := { p with datalen := (snull_tx_frame skb).2,
                              data := memcpy p.data (wire_frame skb) (snull_tx_frame skb).2 } :: rest
            tx_packetlen := (snull_tx_frame skb).2
            tx_packetdata := wire_frame skb
            status := 0
            stats := { (s.get A).priv.stats with
              tx_packets := (s.get A).priv.stats.tx_packets + 1
              tx_bytes := (s.get A).priv.stats.tx_bytes + (snull_tx_frame skb).2 } }
          kfree_skb_log := (s.get A).kfree_skb_log ++ [some skb.addr] }
      ∧ s'.get A.twin = { s.get A.twin with
          priv := { (s.get A.twin).priv with
            status := 0
            stats := { (s.get A.twin).priv.stats with
              rx_packets := (s.get A.twin).priv.stats.rx_packets + (if o_rx = .ok then 1 else 0)
              rx_bytes := (s.get A.twin).priv.stats.rx_bytes +
                (if o_rx = .ok then (snull_tx_frame skb).2 else 0)
              rx_dropped := (s.get A.twin).priv.stats.rx_dropped +
                (if o_rx = .ok then 0 else 1) } }
          netif_rx_log := (s.get A.twin).netif_rx_log ++
            (if o_rx = .ok then
              [(memcpy p.data (wire_frame skb) (snull_tx_frame skb).2).take (snull_tx_frame skb).2]
             else []) } := by
  have hge := tx_frame_len_ge skb
  have h34 : ¬ (snull_tx_frame skb).2 < sizeof_ethhdr + sizeof_iphdr := by
    simp only [ETH_ZLEN, sizeof_ethhdr, sizeof_iphdr] at *; omega
  have hle : ¬ (snull_tx_frame skb).2 > ETH_DATA_LEN := by omega
  simp only [snull_tx, snull_hw_tx, if_neg h34, snull_interrupt]
  obtain ⟨s1, e1, g1A, g1B⟩ := get_tx_buffer_ok
    (s.setPriv A { (s.get A).priv with skb := some skb.addr }) A p rest
    (by simp [get_setPriv, hpool])
  rw [e1]
  simp only [if_neg hle]
  simp only [get_setPriv, if_true, if_false, twin_ne] at g1A g1B
  set p' : snull_packet := ⟨p.id, p.dev, (snull_tx_frame skb).2,
    memcpy p.data (hw_tx_rewrite skb.env (snull_tx_frame skb).1) (snull_tx_frame skb).2⟩ with hp'
  have hen2 : ((snull_enqueue_buf s1 A.twin p').get A.twin).priv.rx_int_enabled ≠ 0 := by
    simp [enqueue_get, g1B, hen]
  rw [if_pos hen2]
  obtain ⟨s3, e3, g3B, g3A⟩ := interrupt_rx_only o_rx
    ((snull_enqueue_buf s1 A.twin p').setPriv A.twin
      { ((snull_enqueue_buf s1 A.twin p').get A.twin).priv with
        status := ((snull_enqueue_buf s1 A.twin p').get A.twin).priv.status ||| SNULL_RX_INTR })
    A.twin p' (s.get A.twin).priv.rx_queue ho
    (by simp [get_setPriv, enqueue_get, g1B, hsB, SNULL_RX_INTR])
    (by simp [get_setPriv, enqueue_get, g1B]) (by simp [hp', hown])
  rw [e3]
  simp only [get_setPriv, enqueue_get, if_true, if_false, twin_ne, ne_twin, twin_twin, g1A, g1B]
    at g3A g3B
  simp only
  obtain ⟨s4, e4, g4A, g4B⟩ := interrupt_tx_only o_tx
    (s3.setPriv A { (s3.get A).priv with
        tx_packetlen := (snull_tx_frame skb).2
        tx_packetdata := hw_tx_rewrite skb.env (snull_tx_frame skb).1
        status := (s3.get A).priv.status ||| SNULL_TX_INTR }) A
    (by simp [get_setPriv, g3A, hsA, SNULL_TX_INTR])
  rw [e4]
  refine ⟨s4, rfl, ?_, ?_⟩
  · rw [g4A]
    by_cases hr : rest = [] <;> simp [get_setPriv, g3A, wire_frame, hp', hr]
  · rw [g4B]
    simp [get_setPriv, g3B, hsB, hp', wire_frame]

theorem snull_tx_disabled (o_rx o_tx : AllocOutcome) (skb : sk_buff) (A : DevIdx) (s : Devs)
    (p : snull_packet) (rest : List snull_packet)
    (hpool : (s.get A).priv.ppool = p :: rest)
    (hsA : (s.get A).priv.status = 0)
    (hen : (s.get A.twin).priv.rx_int_enabled = 0)
    (hlen : (snull_tx_frame skb).2 ≤ ETH_DATA_LEN) :
    ∃ s', snull_tx o_rx o_tx skb A s = .ok (0, s')
      ∧ s'.get A = { s.get A with
          queue_stopped := if rest = [] then true else (s.get A).queue_stopped
          priv := { (s.get A).priv with
            skb := some skb.addr
            ppool := rest
            tx_packetlen := (snull_tx_frame skb).2
            tx_packetdata := wire_frame skb
            status := 0
            stats := { (s.get A).priv.stats with
              tx_packets := (s.get A).priv.stats.tx_packets + 1
              tx_bytes := (s.get A).priv.stats.tx_bytes + (snull_tx_frame skb).2 } }
          kfree_skb_log := (s.get A).kfree_skb_log ++ [some skb.addr] }
      ∧ s'.get A.twin = { s.get A.twin with
          priv := { (s.get A.twin).priv with
            rx_queue := { p with datalen := (snull_tx_frame skb).2,
                                 data := memcpy p.data (wire_frame skb) (snull_tx_frame skb).2 }
                          :: (s.get A.twin).priv.rx_queue } } := by
  have hge := tx_frame_len_ge skb
  have h34 : ¬ (snull_tx_frame skb).2 < sizeof_ethhdr + sizeof_iphdr := by
    simp only [ETH_ZLEN, sizeof_ethhdr, sizeof_iphdr] at *; omega
  have hle : ¬ (snull_tx_frame skb).2 > ETH_DATA_LEN := by omega
  simp only [snull_tx, snull_hw_tx, if_neg h34, snull_interrupt]
  obtain ⟨s1, e1, g1A, g1B⟩ := get_tx_buffer_ok
    (s.setPriv A { (s.get A).priv with skb := some skb.addr }) A p rest
    (by simp [get_setPriv, hpool])
  rw [e1]
  simp only [if_neg hle]
  simp only [get_setPriv, if_true, if_false, twin_ne] at g1A g1B
  set p' : snull_packet := ⟨p.id, p.dev, (snull_tx_frame skb).2,
    memcpy p.data (hw_tx_rewrite skb.env (snull_tx_frame skb).1) (snull_tx_frame skb).2⟩ with hp'
  have hen2 : ¬ ((snull_enqueue_buf s1 A.twin p').get A.twin).priv.rx_int_enabled ≠ 0 := by
    simp [enqueue_get, g1B, hen]
  rw [if_neg hen2]
  simp only
  obtain ⟨s4, e4, g4A, g4B⟩ := interrupt_tx_only o_tx
    ((snull_enqueue_buf s1 A.twin p').setPriv A
      { ((snull_enqueue_buf s1 A.twin p').get A).priv with
        tx_packetlen := (snull_tx_frame skb).2
        tx_packetdata := hw_tx_rewrite skb.env (snull_tx_frame skb).1
        status := ((snull_enqueue_buf s1 A.twin p').get A).priv.status ||| SNULL_TX_INTR }) A
    (by simp [get_setPriv, enqueue_get, g1A, hsA, SNULL_TX_INTR])
  rw [e4]
  refine ⟨s4, rfl, ?_, ?_⟩
  · rw [g4A]
    simp [get_setPriv, enqueue_get, g1A, wire_frame, hp']
  · rw [g4B]
    simp [get_setPriv, enqueue_get, g1B, hp', wire_frame]

theorem snull_tx_null_deref (o_rx o_tx : AllocOutcome) (skb : sk_buff) (A : DevIdx) (s : Devs)
    (hpool : (s.get A).priv.ppool = []) :
    snull_tx o_rx o_tx skb A s = .error .null_deref := by
  have hge := tx_frame_len_ge skb
  have h34 : ¬ (snull_tx_frame skb).2 < sizeof_ethhdr + sizeof_iphdr := by
    simp only [ETH_ZLEN, sizeof_ethhdr, sizeof_iphdr] at *; omega
  simp [snull_tx, snull_hw_tx, if_neg h34, snull_get_tx_buffer, get_setPriv, hpool]

theorem snull_tx_overrun (o_rx o_tx : AllocOutcome) (skb : sk_buff) (A : DevIdx) (s : Devs)
    (p : snull_packet) (rest : List snull_packet)
    (hpool : (s.get A).priv.ppool = p :: rest)
    (hlen : ETH_DATA_LEN < (snull_tx_frame skb).2) :
    snull_tx o_rx o_tx skb A s = .error .buffer_overrun := by
  have hge := tx_frame_len_ge skb
  have h34 : ¬ (snull_tx_frame skb).2 < sizeof_ethhdr + sizeof_iphdr := by
    simp only [ETH_ZLEN, sizeof_ethhdr, sizeof_iphdr] at *; omega
  simp [snull_tx, snull_hw_tx, if_neg h34, snull_get_tx_buffer, get_setPriv, hpool, hlen]

theorem snull_tx_fail_silent (o_tx : AllocOutcome) (skb : sk_buff) (A : DevIdx) (s : Devs)
    (p : snull_packet) (rest : List snull_packet)
    (hpool : (s.get A).priv.ppool = p :: rest)
    (hsB : (s.get A.twin).priv.status = 0)
    (hen : (s.get A.twin).priv.rx_int_enabled ≠ 0)
    (hlen : (snull_tx_frame skb).2 ≤ ETH_DATA_LEN) :
    snull_tx .fail_silent o_tx skb A s = .error .null_deref := by
  have hge := tx_frame_len_ge skb
  have h34 : ¬ (snull_tx_frame skb).2 < sizeof_ethhdr + sizeof_iphdr := by
    simp only [ETH_ZLEN, sizeof_ethhdr, sizeof_iphdr] at *; omega
  have hle : ¬ (snull_tx_frame skb).2 > ETH_DATA_LEN := by omega
  simp only [snull_tx, snull_hw_tx, if_neg h34, snull_interrupt]
  obtain ⟨s1, e1, g1A, g1B⟩ := get_tx_buffer_ok
    (s.setPriv A { (s.get A).priv with skb := some skb.addr }) A p rest
    (by simp [get_setPriv, hpool])
  rw [e1]
  simp only [if_neg hle]
  simp only [get_setPriv, if_true, if_false, twin_ne] at g1A g1B
  simp [snull_regular_interrupt, enqueue_get, get_setPriv, g1B, hen, hsB, SNULL_RX_INTR,
    interrupt_rx, snull_rx]


/-! ## Conservation of packets -/


theorem buffers_release (s : Devs) (p : snull_packet) :
    buffers (snull_release_buffer s p) = buffers s + 1 := by
  cases hp : p.dev <;>
    simp [snull_release_buffer, hp, buffers, Devs.setPriv, Devs.set, Devs.get,
      netif_queue_stopped, netif_wake_queue] <;>
    split <;> simp <;> omega

theorem buffers_get (s s1 : Devs) (dev : DevIdx) (p : snull_packet)
    (h : snull_get_tx_buffer s dev = .ok (p, s1)) : buffers s1 + 1 = buffers s := by
  unfold snull_get_tx_buffer at h
  split at h
  · simp at h
  · rename_i pkt next hq
    simp at h
    obtain ⟨-, rfl⟩ := h
    cases dev <;> simp [Devs.get] at hq <;>
      simp [buffers, Devs.setPriv, Devs.set, Devs.get, netif_stop_queue, hq] <;>
      split <;> simp <;> omega

theorem buffers_enqueue (s : Devs) (dev : DevIdx) (p : snull_packet) :
    buffers (snull_enqueue_buf s dev p) = buffers s + 1 := by
  cases dev <;> simp [snull_enqueue_buf, buffers, Devs.setPriv, Devs.set, Devs.get] <;> omega

theorem buffers_setPriv (s : Devs) (dev : DevIdx) (p : snull_priv)
    (h1 : p.ppool = (s.get dev).priv.ppool) (h2 : p.rx_queue = (s.get dev).priv.rx_queue) :
    buffers (s.setPriv dev p) = buffers s := by
  cases dev <;> simp [Devs.get] at h1 h2 <;>
    simp [buffers, Devs.setPriv, Devs.set, Devs.get, h1, h2]

theorem buffers_set (s : Devs) (dev : DevIdx) (d : net_device)
    (h1 : d.priv.ppool = (s.get dev).priv.ppool)
    (h2 : d.priv.rx_queue = (s.get dev).priv.rx_queue) :
    buffers (s.set dev d) = buffers s := by
  cases dev <;> simp [Devs.get] at h1 h2 <;>
    simp [buffers, Devs.set, h1, h2]

theorem buffers_rx (o : AllocOutcome) (s s1 : Devs) (dev : DevIdx) (p : snull_packet)
    (h : snull_rx o s dev p = .ok s1) : buffers s1 = buffers s := by
  cases o <;> simp [snull_rx] at h <;> subst h
  · exact buffers_set _ _ _ rfl rfl
  · exact buffers_setPriv _ _ _ rfl rfl

theorem buffers_interrupt_rx (o : AllocOutcome) (s s1 : Devs) (dev : DevIdx)
    (r : Option snull_packet) (h : interrupt_rx o s dev = .ok (r, s1)) :
    buffers s1 + (if r.isSome then 1 else 0) = buffers s := by
  unfold interrupt_rx at h
  split at h
  · simp at h; obtain ⟨rfl, rfl⟩ := h; simp
  · rename_i pkt next hq
    split at h
    · simp at h
    · rename_i s2 hrx
      simp at h
      obtain ⟨rfl, rfl⟩ := h
      rw [buffers_rx _ _ _ _ _ hrx]
      cases dev <;> simp [Devs.get] at hq <;>
        simp [buffers, Devs.setPriv, Devs.set, Devs.get, hq] <;> omega

theorem buffers_interrupt_tx (s : Devs) (dev : DevIdx) :
    buffers (interrupt_tx s dev) = buffers s :=
  buffers_set _ _ _ rfl rfl

theorem buffers_interrupt (o : AllocOutcome) (s s1 : Devs) (dev_id : Option DevIdx)
    (h : snull_regular_interrupt o s dev_id = .ok s1) : buffers s1 = buffers s := by
  unfold snull_regular_interrupt at h
  cases dev_id with
  | none => simp at h; rw [h]
  | some dev =>
    simp only at h
    split at h
    · simp at h
    · rename_i pkt s2 hr
      have h0 : buffers (s.setPriv dev { (s.get dev).priv with status := 0 }) = buffers s :=
        buffers_setPriv _ _ _ rfl rfl
      have h2 : buffers s2 + (if pkt.isSome then 1 else 0) = buffers s := by
        split at hr
        · rw [← h0]; exact buffers_interrupt_rx _ _ _ _ _ hr
        · simp at hr; obtain ⟨rfl, rfl⟩ := hr; simpa using h0
      have h3 : ∀ s3, s3 = (if (s.get dev).priv.status &&& SNULL_TX_INTR ≠ 0
          then interrupt_tx s2 dev else s2) → buffers s3 = buffers s2 := by
        intro s3 e; subst e; split
        · exact buffers_interrupt_tx _ _
        · rfl
      cases pkt with
      | none => cases h; simp at h2; rw [h3 _ rfl, h2]
      | some p => cases h; simp at h2; rw [buffers_release, h3 _ rfl, h2]

theorem buffers_hw_tx (env : csum_env) (o_rx o_tx : AllocOutcome) (buf : List Nat) (len : Nat) (dev : DevIdx)
    (s s1 : Devs) (h : snull_hw_tx env o_rx o_tx buf len dev s = .ok s1) :
    buffers s1 = buffers s := by
  unfold snull_hw_tx at h
  split at h
  · cases h; rfl
  · simp only at h
    split at h
    · cases h
    · rename_i tx_buffer s2 hg
      have hg2 := buffers_get _ _ _ _ hg
      split at h
      · cases h
      · split at h
        · cases h
        · rename_i s3 hr
          have h3 : buffers s3 = buffers s := by
            split at hr
            · rw [buffers_interrupt _ _ _ _ hr, buffers_setPriv, buffers_enqueue]
              · omega
              · rfl
              · rfl
            · cases hr; rw [buffers_enqueue]; omega
          rw [buffers_interrupt _ _ _ _ h, buffers_setPriv, h3] <;> rfl

theorem buffers_step (s s1 : Devs) (op : Op) (h : step s op = .ok s1) :
    buffers s1 = buffers s := by
  cases op with
  | dev_open dev =>
    simp only [step, snull_open, netif_start_queue, Except.ok.injEq] at h
    subst h
    rw [buffers_set, buffers_set] <;> simp
  | dev_close dev =>
    simp only [step, snull_release, netif_stop_queue, Except.ok.injEq] at h
    subst h
    rw [buffers_set] <;> rfl
  | rx_ints dev enable =>
    simp only [step, snull_rx_ints, Except.ok.injEq] at h
    subst h
    rw [buffers_setPriv] <;> rfl
  | tx o_rx o_tx skb dev =>
    simp only [step, snull_tx] at h
    split at h
    · cases h
    · rename_i r hr
      cases h
      split at hr
      · cases hr
      · rename_i s2 h2
        cases hr
        rw [buffers_hw_tx _ _ _ _ _ _ _ _ h2, buffers_setPriv] <;> rfl
  | interrupt o dev => exact buffers_interrupt o s s1 (some dev) h
  | tx_timeout o dev =>
    simp only [step, snull_tx_timeout] at h
    split at h
    · cases h
    · rename_i s2 h2
      cases h
      unfold snull_interrupt at h2
      have h3 := buffers_interrupt _ _ _ _ h2
      rw [buffers_setPriv] at h3
      · rw [← h3]
        unfold netif_wake_queue
        rw [buffers_set, buffers_setPriv] <;> simp
      · rfl
      · rfl

theorem setup_pool_loop_length (dev : DevIdx) (k b : Nat) (l : List snull_packet) :
    (setup_pool_loop dev k b l).length = k + l.length := by
  induction k generalizing b l with
  | zero => simp [setup_pool_loop]
  | succ k ih => simp [setup_pool_loop, ih]; omega

theorem buffers_init (n : Nat) : buffers (snull_init_module n) = 2 * n := by
  simp [buffers, snull_init_module, snull_init, snull_setup_pool, snull_rx_ints, Devs.setPriv,
    Devs.set, Devs.get, setup_pool_loop_length, zeroed_device]
  omega



/-! ## The invariant of reachable states -/

theorem inv_of_pair (s : Devs) (A : DevIdx)
    (hA : (s.get A).priv.status = 0 ∧ ∀ p ∈ (s.get A).priv.ppool, p.dev = A)
    (hB : (s.get A.twin).priv.status = 0 ∧ ∀ p ∈ (s.get A.twin).priv.ppool, p.dev = A.twin) :
    Inv s := by
  intro i
  rcases eq_or_twin A i with rfl | rfl
  · exact hA
  · exact hB

theorem setup_pool_loop_dev (dev : DevIdx) (k b : Nat) (l : List snull_packet)
    (hl : ∀ p ∈ l, p.dev = dev) : ∀ p ∈ setup_pool_loop dev k b l, p.dev = dev := by
  induction k generalizing b l with
  | zero => simpa [setup_pool_loop] using hl
  | succ k ih =>
    simp only [setup_pool_loop]
    apply ih
    intro p hp
    rcases List.mem_cons.1 hp with rfl | hp
    · rfl
    · exact hl p hp

theorem inv_init (n : Nat) : Inv (snull_init_module n) := by
  apply inv_of_pair _ .sn0
  · constructor
    · rfl
    · exact setup_pool_loop_dev _ _ _ _ (by simp)
  · constructor
    · rfl
    · exact setup_pool_loop_dev _ _ _ _ (by simp)

theorem inv_step (s s1 : Devs) (op : Op) (hs : Inv s) (h : step s op = .ok s1) : Inv s1 := by
  cases op with
  | dev_open dev =>
    simp only [step, snull_open, netif_start_queue, Except.ok.injEq] at h
    subst h
    intro i
    by_cases hi : i = dev <;> simp [get_set, hi]
    · exact hi ▸ hs i
    · exact hs i
  | dev_close dev =>
    simp only [step, snull_release, netif_stop_queue, Except.ok.injEq] at h
    subst h
    intro i
    by_cases hi : i = dev <;> simp [get_set, hi]
    · exact hi ▸ hs i
    · exact hs i
  | rx_ints dev enable =>
    simp only [step, snull_rx_ints, Except.ok.injEq] at h
    subst h
    intro i
    by_cases hi : i = dev <;> simp [get_setPriv, hi]
    · exact hi ▸ hs i
    · exact hs i
  | interrupt o dev =>
    simp only [step, snull_interrupt, interrupt_idle o s dev (hs dev).1, Except.ok.injEq] at h
    exact h ▸ hs
  | tx_timeout o dev =>
    simp only [step, snull_tx_timeout, snull_interrupt] at h
    obtain ⟨s2, e2, g2A, g2B⟩ := interrupt_tx_only o
      (s.setPriv dev { (s.get dev).priv with status := SNULL_TX_INTR }) dev
      (by simp [get_setPriv])
    rw [e2] at h
    simp only [Except.ok.injEq] at h
    subst h
    apply inv_of_pair _ dev
    · simp [netif_wake_queue, get_set, get_setPriv, g2A]
      exact (hs dev).2
    · simp [netif_wake_queue, get_set, get_setPriv, g2B]
      exact hs dev.twin
  | tx o_rx o_tx skb dev =>
    simp only [step] at h
    cases hpool : (s.get dev).priv.ppool with
    | nil => rw [snull_tx_null_deref _ _ _ _ _ hpool] at h; cases h
    | cons p rest =>
      have hown : p.dev = dev := (hs dev).2 p (by simp [hpool])
      have hrest : ∀ q ∈ rest, q.dev = dev := fun q hq => (hs dev).2 q (by simp [hpool, hq])
      by_cases hlen : (snull_tx_frame skb).2 ≤ ETH_DATA_LEN
      · by_cases hen : (s.get dev.twin).priv.rx_int_enabled = 0
        · obtain ⟨s2, e2, g2A, g2B⟩ := snull_tx_disabled o_rx o_tx skb dev s p rest hpool
            (hs dev).1 hen hlen
          rw [e2] at h
          simp only [Except.ok.injEq] at h
          subst h
          apply inv_of_pair _ dev
          · simpa [g2A] using hrest
          · simpa [g2B] using hs dev.twin
        · by_cases ho : o_rx = .fail_silent
          · subst ho
            rw [snull_tx_fail_silent _ _ _ _ _ _ hpool (hs dev.twin).1 hen hlen] at h
            cases h
          · obtain ⟨s2, e2, g2A, g2B⟩ := snull_tx_enabled o_rx o_tx skb dev s p rest ho hpool
              hown (hs dev).1 (hs dev.twin).1 hen hlen
            rw [e2] at h
            simp only [Except.ok.injEq] at h
            subst h
            apply inv_of_pair _ dev
            · simpa [g2A, hown] using hrest
            · simpa [g2B] using (hs dev.twin).2
      · rw [snull_tx_overrun _ _ _ _ _ _ _ hpool (by omega)] at h
        cases h

theorem inv_of_reachable (n : Nat) (s : Devs) (h : Reachable n s) : Inv s := by
  induction h with
  | init => exact inv_init n
  | step s s1 op _ hs ih => exact inv_step _ _ _ ih hs

theorem reachable_run (n : Nat) (ops : List Op) (s s1 : Devs) (h : Reachable n s)
    (hr : run s ops = .ok s1) : Reachable n s1 := by
  induction ops generalizing s with
  | nil => simp only [run, Except.ok.injEq] at hr; exact hr ▸ h
  | cons op ops ih =>
    simp only [run] at hr
    split at hr
    · cases hr
    · rename_i s2 h2
      exact ih s2 (Reachable.step s s2 op h h2) hr

theorem reachable_run_state (n : Nat) (ops : List Op) (s : Devs) (h : Reachable n s) :
    Reachable n (run_state s ops) := by
  unfold run_state
  split
  · rename_i s1 h1; exact reachable_run n ops s s1 h h1
  · exact h


/-! ## Properties of the free lists kept by the data path -/

theorem PoolInvariant.setPriv {P : Devs → Prop} (hP : PoolInvariant P) (s : Devs)
    (dev : DevIdx) (p : snull_priv) (h : p.ppool = (s.get dev).priv.ppool) (hs : P s) :
    P (s.setPriv dev p) :=
  hP.set s dev _ h rfl hs

theorem PoolInvariant.rx {P : Devs → Prop} (hP : PoolInvariant P) (o : AllocOutcome)
    (s s1 : Devs) (dev : DevIdx) (p : snull_packet) (h : snull_rx o s dev p = .ok s1)
    (hs : P s) : P s1 := by
  cases o <;> simp only [snull_rx, Except.ok.injEq] at h
  · subst h; exact hP.set _ _ _ rfl rfl hs
  · subst h; exact hP.setPriv _ _ _ rfl hs
  · cases h

theorem PoolInvariant.interrupt {P : Devs → Prop} (hP : PoolInvariant P) (o : AllocOutcome)
    (s s1 : Devs) (dev_id : Option DevIdx)
    (h : snull_regular_interrupt o s dev_id = .ok s1) (hs : P s) : P s1 := by
  unfold snull_regular_interrupt at h
  cases dev_id with
  | none => cases h; exact hs
  | some dev =>
    simp only at h
    have h0 : P (s.setPriv dev { (s.get dev).priv with status := 0 }) :=
      hP.setPriv _ _ _ rfl hs
    split at h
    · cases h
    · rename_i pkt s2 hr
      have h2 : P s2 := by
        split at hr
        · unfold interrupt_rx at hr
          split at hr
          · cases hr; exact h0
          · split at hr
            · cases hr
            · rename_i s3 h3
              cases hr
              exact hP.rx _ _ _ _ _ h3 (hP.setPriv _ _ _ (by simp [get_setPriv]) h0)
        · cases hr; exact h0
      have h3 : P (if (s.get dev).priv.status &&& SNULL_TX_INTR ≠ 0
          then interrupt_tx s2 dev else s2) := by
        split
        · exact hP.set _ _ _ rfl rfl h2
        · exact h2
      cases pkt with
      | none => cases h; exact h3
      | some p => cases h; exact hP.release _ _ h3

theorem PoolInvariant.hw_tx {P : Devs → Prop} (hP : PoolInvariant P) (env : csum_env)
    (o_rx o_tx : AllocOutcome) (buf : List Nat) (len : Nat) (dev : DevIdx) (s s1 : Devs)
    (h : snull_hw_tx env o_rx o_tx buf len dev s = .ok s1) (hs : P s) : P s1 := by
  unfold snull_hw_tx at h
  split at h
  · cases h; exact hs
  · simp only at h
    split at h
    · cases h
    · rename_i tx_buffer s2 hg
      have h2 : P s2 := hP.get _ _ _ _ hg hs
      split at h
      · cases h
      · split at h
        · cases h
        · rename_i s3 hr
          have h3 : P s3 := by
            split at hr
            · exact hP.interrupt _ _ _ _ hr
                (hP.setPriv _ _ _ rfl (hP.setPriv _ _ _ (by simp) h2))
            · cases hr; exact hP.setPriv _ _ _ (by simp) h2
          exact hP.interrupt _ _ _ _ h (hP.setPriv _ _ _ rfl h3)

theorem PoolInvariant.pool_step {P : Devs → Prop} (hP : PoolInvariant P) (s s1 : Devs)
    (op : PoolOp) (h : pool_step s op = .ok s1) (hs : P s) : P s1 := by
  cases op with
  | acquire dev =>
    simp only [Snull.pool_step] at h
    split at h
    · cases h
    · rename_i r hr; cases h; exact hP.get _ _ _ _ hr hs
  | release pkt => cases h; exact hP.release _ _ hs
  | rx_ints dev enable => cases h; exact hP.setPriv _ _ _ rfl hs
  | tx o_rx o_tx skb dev =>
    simp only [Snull.pool_step, step, snull_tx] at h
    split at h
    · cases h
    · rename_i r hr
      cases h
      split at hr
      · cases hr
      · rename_i s2 h2
        cases hr
        exact hP.hw_tx _ _ _ _ _ _ _ _ h2 (hP.setPriv _ _ _ rfl hs)
  | interrupt o dev => exact hP.interrupt o s s1 (some dev) h hs

theorem PoolInvariant.run_pool {P : Devs → Prop} (hP : PoolInvariant P) (ops : List PoolOp)
    (s s1 : Devs) (h : run_pool s ops = .ok s1) (hs : P s) : P s1 := by
  induction ops generalizing s with
  | nil => cases h; exact hs
  | cons op ops ih =>
    simp only [Snull.run_pool] at h
    split at h
    · cases h
    · rename_i s2 h2
      exact ih s2 h (hP.pool_step _ _ _ h2 hs)

theorem blockedIff_poolInvariant : PoolInvariant BlockedIff where
  set := by
    intro s dev d h1 h2 hs i
    by_cases hi : i = dev
    · subst hi; simpa [get_set, h1, h2] using hs i
    · simpa [get_set, hi] using hs i
  get := by
    intro s dev p s1 h hs i
    cases hpool : (s.get dev).priv.ppool with
    | nil => simp [snull_get_tx_buffer, hpool] at h
    | cons q rest =>
      obtain ⟨s2, e2, gA, gB⟩ := get_tx_buffer_ok s dev q rest hpool
      rw [e2] at h
      cases h
      rcases eq_or_twin dev i with rfl | rfl
      · rw [gA]
        have := hs i
        by_cases hr : rest = [] <;> simp_all
      · rw [gB]; exact hs _
  release := by
    intro s p hs i
    rw [release_get]
    by_cases hi : i = p.dev
    · subst hi
      have := hs p.dev
      by_cases hr : (s.get p.dev).priv.ppool = [] <;> simp_all
    · simpa [hi] using hs i


/-! ## Frames -/

theorem hw_tx_rewrite_length (env : csum_env) (buf : List Nat) : (hw_tx_rewrite env buf).length = buf.length := by
  simp [hw_tx_rewrite, flip_low_bit]

theorem tx_frame_length (skb : sk_buff) :
    (snull_tx_frame skb).1.length = (snull_tx_frame skb).2 := by
  unfold snull_tx_frame
  split
  · rename_i h
    simp only [sk_buff.len] at h
    simp [memcpy, sk_buff.len]
    omega
  · rfl

theorem wire_frame_length (skb : sk_buff) :
    (wire_frame skb).length = (snull_tx_frame skb).2 := by
  rw [wire_frame, hw_tx_rewrite_length, tx_frame_length]

theorem take_memcpy (dst src : List Nat) (len : Nat) (h : src.length = len) :
    (memcpy dst src len).take len = src := by
  subst h
  simp [memcpy]

theorem tx_frame_len_le (skb : sk_buff) (h : skb.len ≤ ETH_DATA_LEN) :
    (snull_tx_frame skb).2 ≤ ETH_DATA_LEN := by
  unfold snull_tx_frame
  split
  · simp [ETH_ZLEN, ETH_DATA_LEN]
  · exact h

theorem sample_skb_len (a n : Nat) : (sample_skb a n).len = n := by
  simp [sample_skb, sk_buff.len]

/-! ## Claims -/

/-- C1 (conservation).  In every state reachable from module initialisation
with `n` packets in each pool, by any sequence of open, close, setting the
receive interrupts, transmit, interrupt and transmit timeout that returns,
the packets on the two free lists and the two receive lists number `2 * n`.
No packet is in flight between operations: every operation that unlinks a
packet links it to another list before it returns. -/
theorem conservation (n : Nat) (s : Devs) (h : Reachable n s) :
    (s.get DevIdx.sn0).priv.ppool.length + (s.get DevIdx.sn1).priv.ppool.length
      + (s.get DevIdx.sn0).priv.rx_queue.length
      + (s.get DevIdx.sn1).priv.rx_queue.length = 2 * n := by
  induction h with
  | init => exact buffers_init n
  | step s s1 op _ hs ih => exact (buffers_step _ _ _ hs).trans ih

/-- Witness for C1: the state after opening both devices and one
transmission. -/
theorem conservation_witness :
    Reachable 8 (run_state (snull_init_module 8) sample_ops) ∧
    ((run_state (snull_init_module 8) sample_ops).get DevIdx.sn0).priv.ppool.length
      + ((run_state (snull_init_module 8) sample_ops).get DevIdx.sn1).priv.ppool.length
      + ((run_state (snull_init_module 8) sample_ops).get DevIdx.sn0).priv.rx_queue.length
      + ((run_state (snull_init_module 8) sample_ops).get DevIdx.sn1).priv.rx_queue.length
      = 2 * 8 :=
  ⟨reachable_run_state 8 sample_ops _ Reachable.init,
   conservation 8 _ (reachable_run_state 8 sample_ops _ Reachable.init)⟩

theorem dequeue_after_enqueue (s : Devs) (dev : DevIdx) (pkt : snull_packet) :
    (snull_dequeue_buf (snull_enqueue_buf s dev pkt) dev).1 = some pkt ∧
    ((snull_dequeue_buf (snull_enqueue_buf s dev pkt) dev).2.get dev).priv.rx_queue
      = (s.get dev).priv.rx_queue := by
  simp [snull_dequeue_buf, snull_enqueue_buf, get_setPriv]

/-- C2 (receive list order).  The receive list is last-in first-out: after
`snull_enqueue_buf` of a first and then a second packet on the empty receive
list of `sn1`, `snull_dequeue_buf` returns the second packet, then the
first, then nothing. -/
theorem rx_queue_returns_newest_first :
    (snull_dequeue_buf
      (snull_enqueue_buf (snull_enqueue_buf (snull_init_module 8) DevIdx.sn1
        (sample_packet 1 11)) DevIdx.sn1 (sample_packet 2 22)) DevIdx.sn1).1
      = some (sample_packet 2 22) ∧
    (snull_dequeue_buf (snull_dequeue_buf
      (snull_enqueue_buf (snull_enqueue_buf (snull_init_module 8) DevIdx.sn1
        (sample_packet 1 11)) DevIdx.sn1 (sample_packet 2 22)) DevIdx.sn1).2 DevIdx.sn1).1
      = some (sample_packet 1 11) ∧
    (snull_dequeue_buf (snull_dequeue_buf (snull_dequeue_buf
      (snull_enqueue_buf (snull_enqueue_buf (snull_init_module 8) DevIdx.sn1
        (sample_packet 1 11)) DevIdx.sn1 (sample_packet 2 22)) DevIdx.sn1).2 DevIdx.sn1).2
        DevIdx.sn1).1 = none ∧
    sample_packet 2 22 ≠ sample_packet 1 11 := by
  refine ⟨rfl, rfl, rfl, ?_⟩
  simp [sample_packet]

theorem tx_sequence_aux (A : DevIdx) (l : List (AllocOutcome × sk_buff)) :
    ∀ s, Inv s → (s.get A).priv.ppool ≠ [] → (s.get A.twin).priv.rx_int_enabled ≠ 0 →
      (∀ x ∈ l, x.2.len ≤ ETH_DATA_LEN) →
      ∃ s', run s (l.map (fun x => Op.tx AllocOutcome.ok x.1 x.2 A)) = .ok s' ∧
        (s'.get A.twin).netif_rx_log =
          (s.get A.twin).netif_rx_log ++ l.map (fun x => wire_frame x.2) := by
  induction l with
  | nil => intro s _ _ _ _; exact ⟨s, rfl, by simp⟩
  | cons x l ih =>
    intro s hs hpool hen hfit
    cases hp : (s.get A).priv.ppool with
    | nil => exact absurd hp hpool
    | cons p rest =>
      have hown : p.dev = A := (hs A).2 p (by simp [hp])
      obtain ⟨s2, e2, g2A, g2B⟩ := snull_tx_enabled .ok x.1 x.2 A s p rest (by decide) hp hown
        (hs A).1 (hs A.twin).1 hen (tx_frame_len_le _ (hfit x (by simp)))
      have hstep : step s (Op.tx AllocOutcome.ok x.1 x.2 A) = .ok s2 := by
        simp only [step, e2]
      obtain ⟨s3, e3, g3⟩ := ih s2 (inv_step _ _ _ hs hstep) (by simp [g2A]) (by simpa [g2B] using hen)
        (fun y hy => hfit y (by simp [hy]))
      refine ⟨s3, ?_, ?_⟩
      · simp only [List.map_cons, run, hstep, e3]
      · rw [g3, g2B]
        simp [take_memcpy _ _ _ (wire_frame_length x.2)]

/-- C3 (order of deliveries), as amended.  From every reachable state in
which the free list of `A` is not empty and the receive interrupts of the
twin are enabled, transmitting a sequence of socket buffers on `A`, each of
at most `ETH_DATA_LEN` bytes and each with a successful socket buffer
allocation in `snull_rx` on the twin, returns, and the twin's `netif_rx` log
grows by exactly the rewritten frames of the buffers, in the order of
submission. -/
theorem tx_sequence_delivered_in_order (n : Nat) (s : Devs) (hr : Reachable n s) (A : DevIdx)
    (l : List (AllocOutcome × sk_buff))
    (hpool : (s.get A).priv.ppool ≠ [])
    (hen : (s.get A.twin).priv.rx_int_enabled ≠ 0)
    (hfit : ∀ x ∈ l, x.2.len ≤ ETH_DATA_LEN) :
    ∃ s', run s (l.map (fun x => Op.tx AllocOutcome.ok x.1 x.2 A)) = .ok s' ∧
      (s'.get A.twin).netif_rx_log =
        (s.get A.twin).netif_rx_log ++ l.map (fun x => wire_frame x.2) :=
  tx_sequence_aux A l s (inv_of_reachable n s hr) hpool hen hfit

/-- Witness for C3: two transmissions (64 and 10 bytes) on `sn0` after both
devices were opened. -/
theorem tx_sequence_delivered_in_order_witness :
    Reachable 8 (run_state (snull_init_module 8) [Op.dev_open DevIdx.sn0, Op.dev_open DevIdx.sn1]) ∧
    ∃ s', run (run_state (snull_init_module 8) [Op.dev_open DevIdx.sn0, Op.dev_open DevIdx.sn1])
        ([(AllocOutcome.ok, sample_skb 100 64), (AllocOutcome.ok, sample_skb 101 10)].map
          (fun x => Op.tx AllocOutcome.ok x.1 x.2 DevIdx.sn0)) = .ok s' ∧
      (s'.get DevIdx.sn0.twin).netif_rx_log =
        ((run_state (snull_init_module 8)
            [Op.dev_open DevIdx.sn0, Op.dev_open DevIdx.sn1]).get DevIdx.sn0.twin).netif_rx_log
          ++ [(AllocOutcome.ok, sample_skb 100 64), (AllocOutcome.ok, sample_skb 101 10)].map
              (fun x => wire_frame x.2) :=
  ⟨reachable_run_state 8 _ _ Reachable.init,
   tx_sequence_delivered_in_order 8 _ (reachable_run_state 8 _ _ Reachable.init) DevIdx.sn0
    [(AllocOutcome.ok, sample_skb 100 64), (AllocOutcome.ok, sample_skb 101 10)]
    (by decide) (by decide) (by decide)⟩

/-- C3, counterexample to the claim as stated: both devices open, the pool
of `sn0` full, receive interrupts of `sn1` enabled; one packet is
transmitted on `sn0` while the socket buffer allocation in `snull_rx` fails.
The transmission returns, nothing is delivered to `sn1`, and the packet is
counted as dropped. -/
theorem tx_sequence_loses_packet_on_alloc_failure :
    run (snull_init_module 8)
      [Op.dev_open DevIdx.sn0, Op.dev_open DevIdx.sn1,
       Op.tx AllocOutcome.fail_logged AllocOutcome.ok (sample_skb 100 64) DevIdx.sn0]
      = .ok (run_state (snull_init_module 8)
      [Op.dev_open DevIdx.sn0, Op.dev_open DevIdx.sn1,
       Op.tx AllocOutcome.fail_logged AllocOutcome.ok (sample_skb 100 64) DevIdx.sn0]) ∧
    ((snull_init_module 8).get DevIdx.sn1).priv.rx_int_enabled ≠ 0 ∧
    ((run_state (snull_init_module 8)
      [Op.dev_open DevIdx.sn0, Op.dev_open DevIdx.sn1,
       Op.tx AllocOutcome.fail_logged AllocOutcome.ok (sample_skb 100 64) DevIdx.sn0]).get
        DevIdx.sn1).netif_rx_log = [] ∧
    ((run_state (snull_init_module 8)
      [Op.dev_open DevIdx.sn0, Op.dev_open DevIdx.sn1,
       Op.tx AllocOutcome.fail_logged AllocOutcome.ok (sample_skb 100 64) DevIdx.sn0]).get
        DevIdx.sn1).priv.stats.rx_dropped = 1 := by
  refine ⟨rfl, by decide, by decide, by decide⟩

theorem tx_timeout_effect (o : AllocOutcome) (s : Devs) (dev : DevIdx) :
    ∃ s', snull_tx_timeout o s dev = .ok s' ∧
      s'.get dev = { s.get dev with
        queue_stopped := false
        priv := { (s.get dev).priv with
          status := 0
          stats := { (s.get dev).priv.stats with
            tx_packets := (s.get dev).priv.stats.tx_packets + 1
            tx_bytes := (s.get dev).priv.stats.tx_bytes + (s.get dev).priv.tx_packetlen
            tx_errors := (s.get dev).priv.stats.tx_errors + 1 } }
        kfree_skb_log := (s.get dev).kfree_skb_log ++ [(s.get dev).priv.skb] } ∧
      s'.get dev.twin = s.get dev.twin := by
  obtain ⟨s2, e2, g2A, g2B⟩ := interrupt_tx_only o
    (s.setPriv dev { (s.get dev).priv with status := SNULL_TX_INTR }) dev
    (by simp [get_setPriv])
  simp only [snull_tx_timeout, snull_interrupt, e2]
  refine ⟨_, rfl, ?_, ?_⟩
  · simp [netif_wake_queue, get_set, get_setPriv, g2A]
  · simp [netif_wake_queue, get_set, get_setPriv, g2B]

theorem blockedIff_init (n : Nat) (hn : 0 < n) : BlockedIff (snull_init_module n) := by
  have hlen := setup_pool_loop_length
  intro i
  cases i
  · have h : ((snull_init_module n).get DevIdx.sn0).priv.ppool.length = n + 0 :=
      setup_pool_loop_length _ _ _ _
    have hq : ((snull_init_module n).get DevIdx.sn0).queue_stopped = false := rfl
    rw [hq]
    constructor
    · intro h'; cases h'
    · intro h'; rw [h'] at h; simp at h; omega
  · have h : ((snull_init_module n).get DevIdx.sn1).priv.ppool.length = n + 0 :=
      setup_pool_loop_length _ _ _ _
    have hq : ((snull_init_module n).get DevIdx.sn1).queue_stopped = false := rfl
    rw [hq]
    constructor
    · intro h'; cases h'
    · intro h'; rw [h'] at h; simp at h; omega

/-- C4 (stopped queue and empty free list), as amended.  Pool acquire, pool
release, setting the receive interrupts, transmit and interrupt keep the
equivalence "queue stopped iff free list empty" of both devices: it holds
after any sequence of them that returns, started in a state where it holds.
Close sets the stopped bit and open and transmit timeout clear it whatever
the free list holds. -/
theorem stopped_iff_pool_empty_on_data_path (s s' : Devs) (ops : List PoolOp)
    (hs : BlockedIff s) (hr : run_pool s ops = .ok s') :
    BlockedIff s' ∧
    (∀ t dev, ((snull_release t dev).2.get dev).queue_stopped = true ∧
      ((snull_release t dev).2.get dev).priv.ppool = (t.get dev).priv.ppool) ∧
    (∀ t dev, ((snull_open t dev).2.get dev).queue_stopped = false ∧
      ((snull_open t dev).2.get dev).priv.ppool = (t.get dev).priv.ppool) ∧
    (∀ o t dev, ∃ t', snull_tx_timeout o t dev = .ok t' ∧
      (t'.get dev).queue_stopped = false ∧
      (t'.get dev).priv.ppool = (t.get dev).priv.ppool) := by
  refine ⟨blockedIff_poolInvariant.run_pool ops s s' hr hs, ?_, ?_, ?_⟩
  · intro t dev; simp [snull_release, netif_stop_queue, get_set]
  · intro t dev; simp [snull_open, netif_start_queue, get_set]
  · intro o t dev
    obtain ⟨t', e, gA, _⟩ := tx_timeout_effect o t dev
    exact ⟨t', e, by simp [gA], by simp [gA]⟩

/-- Witness for C4: from module initialisation, two packets are taken from
the pool of `sn0`, one is transmitted and one packet is given back. -/
theorem stopped_iff_pool_empty_on_data_path_witness :
    BlockedIff (snull_init_module 8) ∧
    run_pool (snull_init_module 8) sample_pool_ops =
      .ok (pool_state (snull_init_module 8) sample_pool_ops) ∧
    BlockedIff (pool_state (snull_init_module 8) sample_pool_ops) :=
  ⟨blockedIff_init 8 (by decide), rfl,
   (stopped_iff_pool_empty_on_data_path (snull_init_module 8)
      (pool_state (snull_init_module 8) sample_pool_ops) sample_pool_ops
      (blockedIff_init 8 (by decide)) rfl).1⟩

/-- C4, counterexample to the claim as stated: after module initialisation,
open and then close of `sn0`, the queue of `sn0` is stopped while its free
list holds all its packets. -/
theorem stopped_with_full_pool_after_close :
    ¬ (((run_state (snull_init_module 8)
          [Op.dev_open DevIdx.sn0, Op.dev_close DevIdx.sn0]).get DevIdx.sn0).queue_stopped = true
        ↔ ((run_state (snull_init_module 8)
          [Op.dev_open DevIdx.sn0, Op.dev_close DevIdx.sn0]).get DevIdx.sn0).priv.ppool = []) := by
  decide

/-- C5 (backpressure on the sender), as amended.  The driver signals
backpressure through the stopped bit of the queue, not through a result of
transmit: the transmission that takes the last packet of the sender's free
list (status word clear, receive interrupts of the twin disabled so that the
packet stays on the twin's receive list, frame within `ETH_DATA_LEN`) is
accepted with result 0 and leaves the sender with an empty free list and a
stopped queue.  `snull_tx` has no other result than 0: any call either
returns 0 or does not return. -/
theorem last_buffer_stops_queue (o_rx o_tx : AllocOutcome) (skb : sk_buff) (A : DevIdx)
    (s : Devs) (p : snull_packet)
    (hpool : (s.get A).priv.ppool = [p])
    (hsA : (s.get A).priv.status = 0)
    (hen : (s.get A.twin).priv.rx_int_enabled = 0)
    (hfit : skb.len ≤ ETH_DATA_LEN) :
    (∃ s', snull_tx o_rx o_tx skb A s = .ok (0, s') ∧
      (s'.get A).priv.ppool = [] ∧ (s'.get A).queue_stopped = true) ∧
    (∀ (o1 o2 : AllocOutcome) (any : sk_buff) (dev : DevIdx) (t : Devs),
      match snull_tx o1 o2 any dev t with
      | .ok (r, _) => r = 0
      | .error _ => True) := by
  constructor
  · obtain ⟨s', e, gA, _⟩ := snull_tx_disabled o_rx o_tx skb A s p [] hpool hsA hen
      (tx_frame_len_le _ hfit)
    exact ⟨s', e, by simp [gA], by simp [gA]⟩
  · intro o1 o2 any dev t
    simp only [snull_tx]
    split <;> rename_i h
    · split at h
      · cases h
      · cases h; rfl
    · trivial

/-- Witness for C5: seven transmissions on `sn0` with the receive interrupts
of `sn1` off leave one packet on the free list of `sn0`; the eighth
transmission takes it. -/
theorem last_buffer_stops_queue_witness :
    ((run_state (snull_init_module 8) (fill_ops DevIdx.sn0 7)).get DevIdx.sn0).priv.ppool
      = [{ id := 0, dev := DevIdx.sn0, datalen := 0, data := List.replicate ETH_DATA_LEN 0 }] ∧
    ((run_state (snull_init_module 8) (fill_ops DevIdx.sn0 7)).get DevIdx.sn0).priv.status = 0 ∧
    ((run_state (snull_init_module 8) (fill_ops DevIdx.sn0 7)).get
      DevIdx.sn0.twin).priv.rx_int_enabled = 0 ∧
    ∃ s', snull_tx AllocOutcome.ok AllocOutcome.ok (sample_skb 107 64) DevIdx.sn0
        (run_state (snull_init_module 8) (fill_ops DevIdx.sn0 7)) = .ok (0, s') ∧
      (s'.get DevIdx.sn0).priv.ppool = [] ∧ (s'.get DevIdx.sn0).queue_stopped = true :=
  ⟨rfl, rfl, rfl,
    (last_buffer_stops_queue AllocOutcome.ok AllocOutcome.ok (sample_skb 107 64) DevIdx.sn0
      (run_state (snull_init_module 8) (fill_ops DevIdx.sn0 7))
      { id := 0, dev := DevIdx.sn0, datalen := 0, data := List.replicate ETH_DATA_LEN 0 }
      rfl rfl rfl (by rw [sample_skb_len]; decide)).1⟩

/-- C5, counterexample to the claim as stated: after eight transmissions on
`sn0` with the receive interrupts of `sn1` off the free list of `sn0` is
empty, and a further transmission on `sn0` does not return any result: it
stops at the NULL dereference in `snull_get_tx_buffer`. -/
theorem tx_on_empty_pool_does_not_return :
    run (snull_init_module 8) (fill_ops DevIdx.sn0 8)
      = .ok (run_state (snull_init_module 8) (fill_ops DevIdx.sn0 8)) ∧
    ((run_state (snull_init_module 8) (fill_ops DevIdx.sn0 8)).get DevIdx.sn0).priv.ppool = [] ∧
    snull_tx AllocOutcome.ok AllocOutcome.ok (sample_skb 200 64) DevIdx.sn0
      (run_state (snull_init_module 8) (fill_ops DevIdx.sn0 8)) = .error Fault.null_deref :=
  ⟨rfl, by decide, snull_tx_null_deref _ _ _ _ _ (by decide)⟩

/-- C7 (return of the transmit buffer), as amended.  The packet buffer taken
from the sender's free list goes to the twin's receive list and is given
back to the sender's free list by the receive interrupt of the twin, not by
the transmit-done interrupt of the sender.  For every transmission on `A`
that returns from a reachable state: when the receive interrupts of the twin
are enabled the free list of `A` has as many packets as before and the
twin's receive list is as before; when they are disabled the free list of
`A` has one packet fewer and the twin's receive list one more. -/
theorem tx_buffer_returns_on_twin_receive (n : Nat) (s : Devs) (hr : Reachable n s)
    (o_rx o_tx : AllocOutcome) (skb : sk_buff) (A : DevIdx) (r : Int) (s' : Devs)
    (h : snull_tx o_rx o_tx skb A s = .ok (r, s')) :
    if (s.get A.twin).priv.rx_int_enabled ≠ 0 then
      (s'.get A).priv.ppool.length = (s.get A).priv.ppool.length ∧
      (s'.get A.twin).priv.rx_queue = (s.get A.twin).priv.rx_queue
    else
      (s'.get A).priv.ppool.length + 1 = (s.get A).priv.ppool.length ∧
      (s'.get A.twin).priv.rx_queue.length = (s.get A.twin).priv.rx_queue.length + 1 := by
  have hs := inv_of_reachable n s hr
  cases hp : (s.get A).priv.ppool with
  | nil => rw [snull_tx_null_deref _ _ _ _ _ hp] at h; cases h
  | cons p rest =>
    have hown : p.dev = A := (hs A).2 p (by simp [hp])
    by_cases hlen : (snull_tx_frame skb).2 ≤ ETH_DATA_LEN
    · by_cases hen : (s.get A.twin).priv.rx_int_enabled = 0
      · obtain ⟨s2, e2, gA, gB⟩ := snull_tx_disabled o_rx o_tx skb A s p rest hp (hs A).1 hen hlen
        rw [e2] at h
        cases h
        rw [if_neg (by simpa using hen)]
        exact ⟨by simp [gA], by simp [gB]⟩
      · by_cases ho : o_rx = .fail_silent
        · subst ho
          rw [snull_tx_fail_silent _ _ _ _ _ _ hp (hs A.twin).1 hen hlen] at h
          cases h
        · obtain ⟨s2, e2, gA, gB⟩ := snull_tx_enabled o_rx o_tx skb A s p rest ho hp hown
            (hs A).1 (hs A.twin).1 hen hlen
          rw [e2] at h
          cases h
          rw [if_pos hen]
          exact ⟨by simp [gA], by simp [gB]⟩
    · rw [snull_tx_overrun _ _ _ _ _ _ _ hp (by omega)] at h
      cases h

/-- Witness for C7: one transmission on `sn0` right after module
initialisation (receive interrupts of `sn1` enabled). -/
theorem tx_buffer_returns_on_twin_receive_witness :
    snull_tx AllocOutcome.ok AllocOutcome.ok (sample_skb 100 64) DevIdx.sn0 (snull_init_module 8)
      = .ok (0, run_state (snull_init_module 8)
          [Op.tx AllocOutcome.ok AllocOutcome.ok (sample_skb 100 64) DevIdx.sn0]) ∧
    (if ((snull_init_module 8).get DevIdx.sn0.twin).priv.rx_int_enabled ≠ 0 then
      ((run_state (snull_init_module 8)
          [Op.tx AllocOutcome.ok AllocOutcome.ok (sample_skb 100 64) DevIdx.sn0]).get
            DevIdx.sn0).priv.ppool.length = ((snull_init_module 8).get DevIdx.sn0).priv.ppool.length ∧
      ((run_state (snull_init_module 8)
          [Op.tx AllocOutcome.ok AllocOutcome.ok (sample_skb 100 64) DevIdx.sn0]).get
            DevIdx.sn0.twin).priv.rx_queue = ((snull_init_module 8).get DevIdx.sn0.twin).priv.rx_queue
    else
      ((run_state (snull_init_module 8)
          [Op.tx AllocOutcome.ok AllocOutcome.ok (sample_skb 100 64) DevIdx.sn0]).get
            DevIdx.sn0).priv.ppool.length + 1 = ((snull_init_module 8).get DevIdx.sn0).priv.ppool.length ∧
      ((run_state (snull_init_module 8)
          [Op.tx AllocOutcome.ok AllocOutcome.ok (sample_skb 100 64) DevIdx.sn0]).get
            DevIdx.sn0.twin).priv.rx_queue.length
        = ((snull_init_module 8).get DevIdx.sn0.twin).priv.rx_queue.length + 1) :=
  ⟨rfl, tx_buffer_returns_on_twin_receive 8 (snull_init_module 8) Reachable.init AllocOutcome.ok
    AllocOutcome.ok (sample_skb 100 64) DevIdx.sn0 0 _ rfl⟩

/-- C7, counterexample to the claim as stated: with the receive interrupts
of `sn1` disabled, a transmission on `sn0` returns (its transmit-done
interrupt included) and leaves 7 of the 8 packets on the free list of
`sn0`. -/
theorem tx_buffer_not_back_after_tx_done :
    run (snull_init_module 8) (fill_ops DevIdx.sn0 1)
      = .ok (run_state (snull_init_module 8) (fill_ops DevIdx.sn0 1)) ∧
    ((snull_init_module 8).get DevIdx.sn0).priv.ppool.length = 8 ∧
    ((run_state (snull_init_module 8) (fill_ops DevIdx.sn0 1)).get DevIdx.sn0).priv.ppool.length
      = 7 ∧
    ((run_state (snull_init_module 8) (fill_ops DevIdx.sn0 1)).get
      DevIdx.sn0).priv.stats.tx_packets = 1 := by
  refine ⟨rfl, by decide, by decide, by decide⟩

/-- C9 (zero padding).  `snull_tx` hands `snull_hw_tx` the buffer and length
`snull_tx_frame skb`.  For a socket buffer shorter than `ETH_ZLEN = 60` the
length is 60, the buffer has 60 bytes, its first `len` bytes are the payload
and the remaining `60 - len` bytes are zero; otherwise buffer and length are
those of the socket buffer. -/
theorem tx_frame_zero_padded (skb : sk_buff) :
    ETH_ZLEN = 60 ∧
    (∀ o_rx o_tx dev s, snull_tx o_rx o_tx skb dev s =
      match snull_hw_tx skb.env o_rx o_tx (snull_tx_frame skb).1 (snull_tx_frame skb).2 dev
          (s.setPriv dev { (s.get dev).priv with skb := some skb.addr }) with
      | .error e => .error e
      | .ok s2 => .ok (0, s2)) ∧
    (if skb.len < ETH_ZLEN then
      (snull_tx_frame skb).2 = ETH_ZLEN ∧
      (snull_tx_frame skb).1.length = ETH_ZLEN ∧
      (snull_tx_frame skb).1.take skb.len = skb.data ∧
      (snull_tx_frame skb).1.drop skb.len = List.replicate (ETH_ZLEN - skb.len) 0
     else snull_tx_frame skb = (skb.data, skb.len)) := by
  refine ⟨rfl, fun _ _ _ _ => rfl, ?_⟩
  split
  · rename_i h
    have hl := tx_frame_length skb
    simp only [snull_tx_frame, if_pos h] at hl ⊢
    refine ⟨trivial, hl, ?_, ?_⟩
    · simp [memcpy, sk_buff.len]
    · simp only [sk_buff.len] at h
      simp [memcpy, sk_buff.len]
  · rename_i h
    simp [snull_tx_frame, h]

theorem stats_le_refl (a : net_device_stats) : stats_le a a :=
  ⟨Nat.le_refl _, Nat.le_refl _, Nat.le_refl _, Nat.le_refl _, Nat.le_refl _, Nat.le_refl _⟩

theorem statsLe_refl (s : Devs) : StatsLe s s := fun _ => stats_le_refl _

theorem statsLe_trans {s t u : Devs} (h1 : StatsLe s t) (h2 : StatsLe t u) : StatsLe s u := by
  intro i
  obtain ⟨a1, a2, a3, a4, a5, a6⟩ := h1 i
  obtain ⟨b1, b2, b3, b4, b5, b6⟩ := h2 i
  exact ⟨a1.trans b1, a2.trans b2, a3.trans b3, a4.trans b4, a5.trans b5, a6.trans b6⟩

theorem statsLe_set (s : Devs) (dev : DevIdx) (d : net_device)
    (h : stats_le (s.get dev).priv.stats d.priv.stats) : StatsLe s (s.set dev d) := by
  intro i
  by_cases hi : i = dev
  · subst hi; simpa [get_set] using h
  · simpa [get_set, hi] using stats_le_refl _

theorem statsLe_setPriv (s : Devs) (dev : DevIdx) (p : snull_priv)
    (h : stats_le (s.get dev).priv.stats p.stats) : StatsLe s (s.setPriv dev p) :=
  statsLe_set s dev _ h

theorem statsLe_release (s : Devs) (p : snull_packet) : StatsLe s (snull_release_buffer s p) := by
  intro i
  rw [release_get]
  by_cases hi : i = p.dev
  · subst hi; simpa using stats_le_refl _
  · simpa [hi] using stats_le_refl _

theorem statsLe_get (s s1 : Devs) (dev : DevIdx) (p : snull_packet)
    (h : snull_get_tx_buffer s dev = .ok (p, s1)) : StatsLe s s1 := by
  cases hpool : (s.get dev).priv.ppool with
  | nil => simp [snull_get_tx_buffer, hpool] at h
  | cons q rest =>
    obtain ⟨s2, e2, gA, gB⟩ := get_tx_buffer_ok s dev q rest hpool
    rw [e2] at h
    cases h
    intro i
    rcases eq_or_twin dev i with rfl | rfl
    · rw [gA]; exact stats_le_refl _
    · rw [gB]; exact stats_le_refl _

theorem statsLe_rx (o : AllocOutcome) (s s1 : Devs) (dev : DevIdx) (p : snull_packet)
    (h : snull_rx o s dev p = .ok s1) : StatsLe s s1 := by
  cases o <;> simp only [snull_rx, Except.ok.injEq] at h
  · subst h
    apply statsLe_set
    simp [stats_le]
  · subst h
    apply statsLe_setPriv
    simp [stats_le]
  · cases h

theorem statsLe_interrupt (o : AllocOutcome) (s s1 : Devs) (dev_id : Option DevIdx)
    (h : snull_regular_interrupt o s dev_id = .ok s1) : StatsLe s s1 := by
  unfold snull_regular_interrupt at h
  cases dev_id with
  | none => cases h; exact statsLe_refl _
  | some dev =>
    simp only at h
    have h0 : StatsLe s (s.setPriv dev { (s.get dev).priv with status := 0 }) :=
      statsLe_setPriv _ _ _ (by exact stats_le_refl _)
    split at h
    · cases h
    · rename_i pkt s2 hr
      have h2 : StatsLe s s2 := by
        split at hr
        · unfold interrupt_rx at hr
          split at hr
          · cases hr; exact h0
          · split at hr
            · cases hr
            · rename_i s3 h3
              cases hr
              exact statsLe_trans h0 (statsLe_trans
                (statsLe_setPriv _ _ _ (by simpa [get_setPriv] using stats_le_refl _))
                (statsLe_rx _ _ _ _ _ h3))
        · cases hr; exact h0
      have h3 : StatsLe s2 (if (s.get dev).priv.status &&& SNULL_TX_INTR ≠ 0
          then interrupt_tx s2 dev else s2) := by
        split
        · apply statsLe_set; simp [stats_le]
        · exact statsLe_refl _
      cases pkt with
      | none => cases h; exact statsLe_trans h2 h3
      | some p => cases h; exact statsLe_trans h2 (statsLe_trans h3 (statsLe_release _ _))

theorem statsLe_hw_tx (env : csum_env) (o_rx o_tx : AllocOutcome) (buf : List Nat) (len : Nat) (dev : DevIdx)
    (s s1 : Devs) (h : snull_hw_tx env o_rx o_tx buf len dev s = .ok s1) : StatsLe s s1 := by
  unfold snull_hw_tx at h
  split at h
  · cases h; exact statsLe_refl _
  · simp only at h
    split at h
    · cases h
    · rename_i tx_buffer s2 hg
      have h2 : StatsLe s s2 := statsLe_get _ _ _ _ hg
      split at h
      · cases h
      · split at h
        · cases h
        · rename_i s3 hr
          have hq : StatsLe s2 (snull_enqueue_buf s2 dev.twin
              { tx_buffer with datalen := len, data := memcpy tx_buffer.data (hw_tx_rewrite env buf) len }) :=
            statsLe_setPriv _ _ _ (by exact stats_le_refl _)
          have h3 : StatsLe s2 s3 := by
            split at hr
            · refine statsLe_trans hq (statsLe_trans (statsLe_setPriv _ _ _ ?_)
                (statsLe_interrupt _ _ _ _ hr))
              exact stats_le_refl _
            · cases hr; exact hq
          refine statsLe_trans h2 (statsLe_trans h3
            (statsLe_trans (statsLe_setPriv _ _ _ ?_) (statsLe_interrupt _ _ _ _ h)))
          exact stats_le_refl _

theorem statsLe_step (s s1 : Devs) (op : Op) (h : step s op = .ok s1) : StatsLe s s1 := by
  cases op with
  | dev_open dev =>
    simp only [step, snull_open, netif_start_queue, Except.ok.injEq] at h
    subst h
    exact statsLe_trans (statsLe_set _ _ _ (by exact stats_le_refl _))
      (statsLe_set _ _ _ (by exact stats_le_refl _))
  | dev_close dev =>
    simp only [step, snull_release, netif_stop_queue, Except.ok.injEq] at h
    subst h
    exact statsLe_set _ _ _ (by exact stats_le_refl _)
  | rx_ints dev enable =>
    simp only [step, snull_rx_ints, Except.ok.injEq] at h
    subst h
    exact statsLe_setPriv _ _ _ (by exact stats_le_refl _)
  | tx o_rx o_tx skb dev =>
    simp only [step, snull_tx] at h
    split at h
    · cases h
    · rename_i r hr
      cases h
      split at hr
      · cases hr
      · rename_i s2 h2
        cases hr
        refine statsLe_trans (statsLe_setPriv _ _ _ ?_) (statsLe_hw_tx _ _ _ _ _ _ _ _ h2)
        exact stats_le_refl _
  | interrupt o dev => exact statsLe_interrupt o s s1 (some dev) h
  | tx_timeout o dev =>
    simp only [step, snull_tx_timeout] at h
    split at h
    · cases h
    · rename_i s2 h2
      cases h
      unfold snull_interrupt at h2
      refine statsLe_trans (statsLe_setPriv _ _ _ ?_)
        (statsLe_trans (statsLe_interrupt _ _ _ _ h2) ?_)
      · exact stats_le_refl _
      unfold netif_wake_queue
      refine statsLe_trans (statsLe_setPriv _ _ _ ?_) (statsLe_set _ _ _ (by exact stats_le_refl _))
      simp [stats_le]


/-! ## Every packet is on one list -/

theorem ids_of_cons (p : snull_packet) (l : List snull_packet) :
    ids_of (p :: l) = {p.id} + ids_of l := by
  simp [ids_of, ← Multiset.cons_coe, Multiset.singleton_add]

theorem ids_release (s : Devs) (p : snull_packet) :
    packet_ids (snull_release_buffer s p) = p.id ::ₘ packet_ids s := by
  cases hp : p.dev <;>
    simp only [snull_release_buffer, hp, packet_ids, Devs.setPriv, Devs.set, Devs.get,
      netif_queue_stopped, netif_wake_queue] <;>
    split <;> simp only [ids_of_cons, ← Multiset.singleton_add] <;> abel

theorem ids_get (s s1 : Devs) (dev : DevIdx) (p : snull_packet)
    (h : snull_get_tx_buffer s dev = .ok (p, s1)) : packet_ids s = p.id ::ₘ packet_ids s1 := by
  unfold snull_get_tx_buffer at h
  split at h
  · simp at h
  · rename_i pkt next hq
    simp at h
    obtain ⟨rfl, rfl⟩ := h
    cases dev <;> simp [Devs.get] at hq <;>
      simp only [packet_ids, Devs.setPriv, Devs.set, Devs.get, netif_stop_queue, hq] <;>
      split <;> simp only [ids_of_cons, ← Multiset.singleton_add] <;> abel

theorem ids_enqueue (s : Devs) (dev : DevIdx) (p : snull_packet) :
    packet_ids (snull_enqueue_buf s dev p) = p.id ::ₘ packet_ids s := by
  cases dev <;>
    simp only [snull_enqueue_buf, packet_ids, Devs.setPriv, Devs.set, Devs.get,
      ids_of_cons, ← Multiset.singleton_add] <;> abel

theorem ids_set (s : Devs) (dev : DevIdx) (d : net_device)
    (h1 : d.priv.ppool = (s.get dev).priv.ppool)
    (h2 : d.priv.rx_queue = (s.get dev).priv.rx_queue) :
    packet_ids (s.set dev d) = packet_ids s := by
  cases dev <;> simp [Devs.get] at h1 h2 <;>
    simp [packet_ids, Devs.set, h1, h2]

theorem ids_setPriv (s : Devs) (dev : DevIdx) (p : snull_priv)
    (h1 : p.ppool = (s.get dev).priv.ppool) (h2 : p.rx_queue = (s.get dev).priv.rx_queue) :
    packet_ids (s.setPriv dev p) = packet_ids s :=
  ids_set s dev _ h1 h2

theorem ids_rx (o : AllocOutcome) (s s1 : Devs) (dev : DevIdx) (p : snull_packet)
    (h : snull_rx o s dev p = .ok s1) : packet_ids s1 = packet_ids s := by
  cases o <;> simp only [snull_rx, Except.ok.injEq] at h
  · subst h; exact ids_set _ _ _ rfl rfl
  · subst h; exact ids_setPriv _ _ _ rfl rfl
  · cases h

theorem ids_interrupt (o : AllocOutcome) (s s1 : Devs) (dev_id : Option DevIdx)
    (h : snull_regular_interrupt o s dev_id = .ok s1) : packet_ids s1 = packet_ids s := by
  unfold snull_regular_interrupt at h
  cases dev_id with
  | none => cases h; rfl
  | some dev =>
    simp only at h
    have h0 : packet_ids (s.setPriv dev { (s.get dev).priv with status := 0 }) = packet_ids s :=
      ids_setPriv _ _ _ rfl rfl
    split at h
    · cases h
    · rename_i pkt s2 hr
      have h2 : (match pkt with
          | some p => p.id ::ₘ packet_ids s2
          | none => packet_ids s2) = packet_ids s := by
        split at hr
        · unfold interrupt_rx at hr
          split at hr
          · cases hr; exact h0
          · rename_i q next hq
            split at hr
            · cases hr
            · rename_i s3 h3
              cases hr
              simp only
              rw [ids_rx _ _ _ _ _ h3, ← h0]
              generalize s.setPriv dev { (s.get dev).priv with status := 0 } = t at hq ⊢
              cases dev <;> simp only [Devs.get] at hq <;>
                simp only [packet_ids, Devs.setPriv, Devs.set, Devs.get, hq, ids_of_cons,
                  ← Multiset.singleton_add] <;> abel
        · cases hr; exact h0
      have h3 : packet_ids (if (s.get dev).priv.status &&& SNULL_TX_INTR ≠ 0
          then interrupt_tx s2 dev else s2) = packet_ids s2 := by
        split
        · exact ids_set _ _ _ rfl rfl
        · rfl
      cases pkt with
      | none => cases h; rw [h3]; exact h2
      | some p => cases h; rw [ids_release, h3]; exact h2

theorem ids_hw_tx (env : csum_env) (o_rx o_tx : AllocOutcome) (buf : List Nat) (len : Nat) (dev : DevIdx)
    (s s1 : Devs) (h : snull_hw_tx env o_rx o_tx buf len dev s = .ok s1) :
    packet_ids s1 = packet_ids s := by
  unfold snull_hw_tx at h
  split at h
  · cases h; rfl
  · simp only at h
    split at h
    · cases h
    · rename_i tx_buffer s2 hg
      have hg2 := ids_get _ _ _ _ hg
      split at h
      · cases h
      · split at h
        · cases h
        · rename_i s3 hr
          have h3 : packet_ids s3 = packet_ids s := by
            split at hr
            · rw [ids_interrupt _ _ _ _ hr, ids_setPriv, ids_enqueue, hg2]
              · rfl
              · rfl
            · cases hr; rw [ids_enqueue, hg2]
          rw [ids_interrupt _ _ _ _ h, ids_setPriv, h3] <;> rfl

theorem ids_step (s s1 : Devs) (op : Op) (h : step s op = .ok s1) :
    packet_ids s1 = packet_ids s := by
  cases op with
  | dev_open dev =>
    simp only [step, snull_open, netif_start_queue, Except.ok.injEq] at h
    subst h
    rw [ids_set, ids_set] <;> simp [get_set]
  | dev_close dev =>
    simp only [step, snull_release, netif_stop_queue, Except.ok.injEq] at h
    subst h
    rw [ids_set] <;> rfl
  | rx_ints dev enable =>
    simp only [step, snull_rx_ints, Except.ok.injEq] at h
    subst h
    rw [ids_setPriv] <;> rfl
  | tx o_rx o_tx skb dev =>
    simp only [step, snull_tx] at h
    split at h
    · cases h
    · rename_i r hr
      cases h
      split at hr
      · cases hr
      · rename_i s2 h2
        cases hr
        rw [ids_hw_tx _ _ _ _ _ _ _ _ h2, ids_setPriv] <;> rfl
  | interrupt o dev => exact ids_interrupt o s s1 (some dev) h
  | tx_timeout o dev =>
    simp only [step, snull_tx_timeout] at h
    split at h
    · cases h
    · rename_i s2 h2
      cases h
      unfold snull_interrupt at h2
      have h3 := ids_interrupt _ _ _ _ h2
      rw [ids_setPriv] at h3
      · rw [← h3]
        unfold netif_wake_queue
        rw [ids_set, ids_setPriv] <;> simp [get_setPriv]
      · rfl
      · rfl

theorem setup_pool_loop_ids (dev : DevIdx) (k b : Nat) (l : List snull_packet) :
    (setup_pool_loop dev k b l).map snull_packet.id
      = (List.range' b k).reverse ++ l.map snull_packet.id := by
  induction k generalizing b l with
  | zero => simp [setup_pool_loop]
  | succ k ih => simp [setup_pool_loop, ih, List.range'_succ]

theorem ids_init (n : Nat) : packet_ids (snull_init_module n) = Multiset.range (2 * n) := by
  have h0 : (snull_init_module n).sn0.priv.ppool = setup_pool_loop DevIdx.sn0 n 0 [] := rfl
  have h1 : (snull_init_module n).sn1.priv.ppool = setup_pool_loop DevIdx.sn1 n n [] := rfl
  have h2 : (snull_init_module n).sn0.priv.rx_queue = [] := rfl
  have h3 : (snull_init_module n).sn1.priv.rx_queue = [] := rfl
  simp only [packet_ids, ids_of, h0, h1, h2, h3, setup_pool_loop_ids, List.map_nil,
    List.append_nil, Multiset.coe_reverse, Multiset.coe_add, Multiset.coe_nil, add_zero]
  rw [← Multiset.coe_range, List.range_eq_range']
  congr 1
  have := List.range'_append 0 n n 1
  simp only [Nat.one_mul, Nat.zero_add] at this
  rw [this]
  congr 1
  omega

theorem ids_of_reachable (n : Nat) (s : Devs) (h : Reachable n s) :
    packet_ids s = Multiset.range (2 * n) := by
  induction h with
  | init => exact ids_init n
  | step s s1 op _ hs ih => exact (ids_step _ _ _ hs).trans ih


/-! ## Claims on open and close, the pool, the statistics and ownership -/

/-- C11 (open and close).  `snull_open` on the device of index `i` returns 0,
sets the hardware address to the six bytes of `"\0SNUL0"` with the last byte
increased by `i`, and clears the stopped bit of the queue; `snull_release`
returns 0 and sets the stopped bit.  Both leave the private area of the
device (free list, receive list, statistics) and the other device as they
were; close also leaves the address.  The addresses of the two devices
differ and begin with the even byte 0. -/
theorem open_sets_address_close_stops_queue (s : Devs) (dev : DevIdx) :
    ((snull_open s dev).1 = 0 ∧
     ((snull_open s dev).2.get dev).dev_addr = [0, 83, 78, 85, 76, 48 + dev.index] ∧
     ((snull_open s dev).2.get dev).dev_addr.length = ETH_ALEN ∧
     ((snull_open s dev).2.get dev).queue_stopped = false ∧
     ((snull_open s dev).2.get dev).priv = (s.get dev).priv ∧
     (snull_open s dev).2.get dev.twin = s.get dev.twin) ∧
    (((snull_open s DevIdx.sn0).2.get DevIdx.sn0).dev_addr
        ≠ ((snull_open s DevIdx.sn1).2.get DevIdx.sn1).dev_addr ∧
     (((snull_open s dev).2.get dev).dev_addr.getD 0 1) % 2 = 0) ∧
    ((snull_release s dev).1 = 0 ∧
     ((snull_release s dev).2.get dev).queue_stopped = true ∧
     ((snull_release s dev).2.get dev).priv = (s.get dev).priv ∧
     ((snull_release s dev).2.get dev).dev_addr = (s.get dev).dev_addr ∧
     (snull_release s dev).2.get dev.twin = s.get dev.twin) := by
  refine ⟨⟨rfl, ?_, ?_, ?_, ?_, ?_⟩, ⟨?_, ?_⟩, ⟨rfl, ?_, ?_, ?_, ?_⟩⟩
  · cases dev <;> simp [snull_open, netif_start_queue, get_set, addr_SNUL0, ETH_ALEN,
      DevIdx.index]
  · cases dev <;> simp [snull_open, netif_start_queue, get_set, addr_SNUL0, ETH_ALEN]
  · simp [snull_open, netif_start_queue, get_set]
  · simp [snull_open, netif_start_queue, get_set]
  · simp [snull_open, netif_start_queue, get_set]
  · simp [snull_open, netif_start_queue, get_set, addr_SNUL0, ETH_ALEN]
  · cases dev <;> simp [snull_open, netif_start_queue, get_set, addr_SNUL0, ETH_ALEN]
  · simp [snull_release, netif_stop_queue, get_set]
  · simp [snull_release, netif_stop_queue, get_set]
  · simp [snull_release, netif_stop_queue, get_set]
  · simp [snull_release, netif_stop_queue, get_set]

/-- C14 (edge-triggered stopped bit).  On a free list `p :: rest`,
`snull_get_tx_buffer` returns the head `p`, leaves `rest` on the list and
sets the stopped bit of the queue exactly when `rest` is empty; nothing else
changes.  `snull_release_buffer` pushes the packet on the free list of the
device the packet belongs to and clears the stopped bit of that device
exactly when the bit was set and the list was empty before the push; nothing
else changes. -/
theorem pool_operations_edge_triggered (s : Devs) (dev : DevIdx) (p : snull_packet)
    (rest : List snull_packet) (pkt : snull_packet)
    (h : (s.get dev).priv.ppool = p :: rest) :
    (∃ s1, snull_get_tx_buffer s dev = .ok (p, s1) ∧
      s1.get dev = { s.get dev with
        queue_stopped := if rest = [] then true else (s.get dev).queue_stopped
        priv := { (s.get dev).priv with ppool := rest } } ∧
      s1.get dev.twin = s.get dev.twin) ∧
    (snull_release_buffer s pkt).get pkt.dev = { s.get pkt.dev with
        queue_stopped :=
          if (s.get pkt.dev).queue_stopped = true ∧ (s.get pkt.dev).priv.ppool = [] then false
          else (s.get pkt.dev).queue_stopped
        priv := { (s.get pkt.dev).priv with ppool := pkt :: (s.get pkt.dev).priv.ppool } } ∧
    (snull_release_buffer s pkt).get pkt.dev.twin = s.get pkt.dev.twin := by
  refine ⟨get_tx_buffer_ok s dev p rest h, ?_, ?_⟩
  · rw [release_get]
    cases hq : (s.get pkt.dev).queue_stopped <;>
      by_cases hp : (s.get pkt.dev).priv.ppool = [] <;> simp [hq, hp]
  · rw [release_get]; simp

/-- Witness for C14: the pool of `sn0` after module initialisation, and a
packet of `sn0` given back. -/
theorem pool_operations_edge_triggered_witness :
    ((snull_init_module 8).get DevIdx.sn0).priv.ppool
      = { id := 7, dev := DevIdx.sn0, datalen := 0, data := List.replicate ETH_DATA_LEN 0 }
        :: ((snull_init_module 8).get DevIdx.sn0).priv.ppool.tail ∧
    ∃ s1, snull_get_tx_buffer (snull_init_module 8) DevIdx.sn0
        = .ok ({ id := 7, dev := DevIdx.sn0, datalen := 0,
                 data := List.replicate ETH_DATA_LEN 0 }, s1) ∧
      (s1.get DevIdx.sn0).priv.ppool = ((snull_init_module 8).get DevIdx.sn0).priv.ppool.tail :=
  ⟨rfl, (pool_operations_edge_triggered (snull_init_module 8) DevIdx.sn0
      { id := 7, dev := DevIdx.sn0, datalen := 0, data := List.replicate ETH_DATA_LEN 0 }
      ((snull_init_module 8).get DevIdx.sn0).priv.ppool.tail (sample_packet 7 0) rfl).1.imp
      (fun _ h => ⟨h.1, by rw [h.2.1]⟩)⟩

/-- C15 (statistics are monotone).  For every state and every operation
(open, close, setting the receive interrupts, transmit, interrupt with
whatever status word the state holds, transmit timeout) that returns, each
of the six counters of both devices is afterwards at least what it was. -/
theorem statistics_monotone (s s' : Devs) (op : Op) (h : step s op = .ok s') (i : DevIdx) :
    (s.get i).priv.stats.rx_packets ≤ (s'.get i).priv.stats.rx_packets ∧
    (s.get i).priv.stats.tx_packets ≤ (s'.get i).priv.stats.tx_packets ∧
    (s.get i).priv.stats.rx_bytes ≤ (s'.get i).priv.stats.rx_bytes ∧
    (s.get i).priv.stats.tx_bytes ≤ (s'.get i).priv.stats.tx_bytes ∧
    (s.get i).priv.stats.rx_dropped ≤ (s'.get i).priv.stats.rx_dropped ∧
    (s.get i).priv.stats.tx_errors ≤ (s'.get i).priv.stats.tx_errors :=
  statsLe_step s s' op h i

/-- Witness for C15: a transmission on `sn0` right after module
initialisation, seen from `sn1`. -/
theorem statistics_monotone_witness :
    step (snull_init_module 8)
        (Op.tx AllocOutcome.ok AllocOutcome.ok (sample_skb 100 64) DevIdx.sn0)
      = .ok (run_state (snull_init_module 8)
        [Op.tx AllocOutcome.ok AllocOutcome.ok (sample_skb 100 64) DevIdx.sn0]) ∧
    ((snull_init_module 8).get DevIdx.sn1).priv.stats.rx_packets ≤
      ((run_state (snull_init_module 8)
        [Op.tx AllocOutcome.ok AllocOutcome.ok (sample_skb 100 64) DevIdx.sn0]).get
          DevIdx.sn1).priv.stats.rx_packets :=
  ⟨rfl, (statistics_monotone (snull_init_module 8) _
    (Op.tx AllocOutcome.ok AllocOutcome.ok (sample_skb 100 64) DevIdx.sn0) rfl DevIdx.sn1).1⟩

theorem packet_ids_eq (s : Devs) :
    packet_ids s = Multiset.ofList ((all_packets s).map snull_packet.id) := by
  simp [packet_ids, ids_of, all_packets, Multiset.coe_add]

/-- C16 (single ownership).  In every state reachable from module
initialisation with `n` packets per pool, the addresses of the packets on the
two free lists and the two receive lists, taken together, are pairwise
different, and they are exactly the `2 * n` addresses handed out at
initialisation: every packet is on exactly one list, once. -/
theorem single_ownership (n : Nat) (s : Devs) (h : Reachable n s) :
    ((all_packets s).map snull_packet.id).Nodup ∧
    (∀ k, k ∈ (all_packets s).map snull_packet.id ↔ k < 2 * n) ∧
    ((all_packets s).map snull_packet.id).length = 2 * n := by
  have e := ids_of_reachable n s h
  rw [packet_ids_eq] at e
  refine ⟨?_, ?_, ?_⟩
  · rw [← Multiset.coe_nodup, e]; exact Multiset.nodup_range _
  · intro k
    rw [← Multiset.mem_coe, e, Multiset.mem_range]
  · rw [← Multiset.coe_card, e, Multiset.card_range]

/-- Witness for C16: three transmissions on `sn0` with the receive
interrupts of `sn1` off. -/
theorem single_ownership_witness :
    Reachable 8 (run_state (snull_init_module 8) (fill_ops DevIdx.sn0 3)) ∧
    ((all_packets (run_state (snull_init_module 8) (fill_ops DevIdx.sn0 3))).map
      snull_packet.id).Nodup :=
  ⟨reachable_run_state 8 _ _ Reachable.init,
   (single_ownership 8 _ (reachable_run_state 8 _ _ Reachable.init)).1⟩


/-! ## The interrupt handler on an arbitrary status word -/

theorem devs_ext_all (s t : Devs) (h : ∀ j, s.get j = t.get j) : s = t :=
  devs_ext s t DevIdx.sn0 (h _) (h _)

theorem interrupt_tx_get (s : Devs) (dev j : DevIdx) :
    (interrupt_tx s dev).get j =
      if j = dev then
        { s.get dev with
          priv := { (s.get dev).priv with
            stats := { (s.get dev).priv.stats with
              tx_packets := (s.get dev).priv.stats.tx_packets + 1
              tx_bytes := (s.get dev).priv.stats.tx_bytes + (s.get dev).priv.tx_packetlen } }
          kfree_skb_log := (s.get dev).kfree_skb_log ++ [(s.get dev).priv.skb] }
      else s.get j := by
  simp [interrupt_tx, get_set]

theorem and_rx_rx (v : Nat) : (v &&& SNULL_RX_INTR) &&& SNULL_RX_INTR = v &&& SNULL_RX_INTR := by
  rw [Nat.and_assoc, Nat.and_self]

theorem and_rx_tx (v : Nat) : (v &&& SNULL_RX_INTR) &&& SNULL_TX_INTR = 0 := by
  rw [Nat.and_assoc]; simp [SNULL_RX_INTR, SNULL_TX_INTR]

theorem and_tx_rx (v : Nat) : (v &&& SNULL_TX_INTR) &&& SNULL_RX_INTR = 0 := by
  rw [Nat.and_assoc]; simp [SNULL_RX_INTR, SNULL_TX_INTR]

theorem and_tx_tx (v : Nat) : (v &&& SNULL_TX_INTR) &&& SNULL_TX_INTR = v &&& SNULL_TX_INTR := by
  rw [Nat.and_assoc, Nat.and_self]

theorem fire_split (o o' : AllocOutcome) (s : Devs) (dev : DevIdx) (v : Nat) :
    fire o s dev v =
      match fire o s dev (v &&& SNULL_RX_INTR) with
      | .error e => .error e
      | .ok s1 => fire o' s1 dev (v &&& SNULL_TX_INTR) := by
  simp only [fire, snull_regular_interrupt, get_setPriv, if_true, and_rx_rx, and_rx_tx,
    and_tx_rx, and_tx_tx, ne_eq, not_true_eq_false, if_false]
  by_cases hrx : v &&& SNULL_RX_INTR = 0
  · simp only [hrx, not_true_eq_false, if_false, get_setPriv, if_true]
    by_cases htx : v &&& SNULL_TX_INTR = 0
    · simp only [htx, not_true_eq_false, if_false]
      congr 1
      apply devs_ext_all
      intro j
      by_cases hj : j = dev <;> simp [get_setPriv, hj]
    · simp only [htx, not_false_eq_true, if_true]
      congr 1
      apply devs_ext_all
      intro j
      by_cases hj : j = dev <;> simp [get_setPriv, interrupt_tx_get, hj]
  · simp only [hrx, not_false_eq_true, if_true, interrupt_rx, get_setPriv]
    cases hq : (s.get dev).priv.rx_queue with
    | nil =>
      by_cases htx : v &&& SNULL_TX_INTR = 0
      · simp [htx, get_setPriv, hq]
        apply devs_ext_all
        intro j
        by_cases hj : j = dev <;> simp [get_setPriv, hj]
      · simp [htx, get_setPriv, hq]
        apply devs_ext_all
        intro j
        by_cases hj : j = dev <;> simp [get_setPriv, interrupt_tx_get, hj]
    | cons p next =>
      cases o with
      | fail_silent => simp [get_setPriv, hq, snull_rx]
      | ok =>
        by_cases htx : v &&& SNULL_TX_INTR = 0
        · simp [htx, get_setPriv, hq, snull_rx]
          apply devs_ext_all
          intro j
          rcases eq_or_twin dev p.dev with hp | hp <;> rcases eq_or_twin dev j with hj | hj <;>
            simp [get_setPriv, get_set, release_get, hp, hj]
        · simp [htx, get_setPriv, hq, snull_rx]
          apply devs_ext_all
          intro j
          rcases eq_or_twin dev p.dev with hp | hp <;> rcases eq_or_twin dev j with hj | hj <;>
            simp [get_setPriv, get_set, release_get, interrupt_tx_get, hp, hj]
      | fail_logged =>
        by_cases htx : v &&& SNULL_TX_INTR = 0
        · simp [htx, get_setPriv, hq, snull_rx]
          apply devs_ext_all
          intro j
          rcases eq_or_twin dev p.dev with hp | hp <;> rcases eq_or_twin dev j with hj | hj <;>
            simp [get_setPriv, get_set, release_get, hp, hj]
        · simp [htx, get_setPriv, hq, snull_rx]
          apply devs_ext_all
          intro j
          rcases eq_or_twin dev p.dev with hp | hp <;> rcases eq_or_twin dev j with hj | hj <;>
            simp [get_setPriv, get_set, release_get, interrupt_tx_get, hp, hj]


theorem interrupt_clears_status (o : AllocOutcome) (s s1 : Devs) (dev : DevIdx)
    (h : snull_regular_interrupt o s (some dev) = .ok s1) : (s1.get dev).priv.status = 0 := by
  simp only [snull_regular_interrupt] at h
  split at h
  · cases h
  · rename_i pkt s2 hr
    have h2 : (s2.get dev).priv.status = 0 := by
      split at hr
      · unfold interrupt_rx at hr
        split at hr
        · cases hr; simp [get_setPriv]
        · split at hr
          · cases hr
          · rename_i s3 h3
            cases hr
            cases o <;> simp only [snull_rx, Except.ok.injEq] at h3
            · subst h3; simp [get_set, get_setPriv]
            · subst h3; simp [get_setPriv]
            · cases h3
      · cases hr; simp [get_setPriv]
    have h3 : ((if (s.get dev).priv.status &&& SNULL_TX_INTR ≠ 0
        then interrupt_tx s2 dev else s2).get dev).priv.status = 0 := by
      split
      · simpa [interrupt_tx_get] using h2
      · exact h2
    cases pkt with
    | none => cases h; exact h3
    | some p =>
      cases h
      rw [release_get]
      split
      · rename_i hp; rw [← hp]; simpa using h3
      · exact h3

theorem interrupt_returns (o : AllocOutcome) (s : Devs) (dev : DevIdx)
    (ho : o ≠ AllocOutcome.fail_silent) :
    ∃ s1, snull_regular_interrupt o s (some dev) = .ok s1 := by
  simp only [snull_regular_interrupt]
  by_cases hrx : (s.get dev).priv.status &&& SNULL_RX_INTR = 0
  · simp [hrx]
  · cases hq : (s.get dev).priv.rx_queue with
    | nil => simp [hrx, interrupt_rx, get_setPriv, hq]
    | cons p next =>
      cases o with
      | fail_silent => exact absurd rfl ho
      | ok => simp [hrx, interrupt_rx, get_setPriv, hq, snull_rx]
      | fail_logged => simp [hrx, interrupt_rx, get_setPriv, hq, snull_rx]

theorem fire_neither (o : AllocOutcome) (s : Devs) (dev : DevIdx) (v : Nat)
    (h1 : v &&& SNULL_RX_INTR = 0) (h2 : v &&& SNULL_TX_INTR = 0) :
    fire o s dev v = .ok (s.setPriv dev { (s.get dev).priv with status := 0 }) := by
  simp only [fire, snull_regular_interrupt, get_setPriv, if_true, h1, h2, ne_eq,
    not_true_eq_false, if_false]
  congr 1
  apply devs_ext_all
  intro j
  by_cases hj : j = dev <;> simp [get_setPriv, hj]

/-- C17 (status word and cause bits).  Every run of
`snull_regular_interrupt` that returns leaves the status word of the device
at 0, and every run returns unless the allocation in `snull_rx` fails without
a log line.  A run on a status word `v` gives the same result (state with
its `netif_rx` log, or fault) as a run on the receive bit of `v` alone
followed by a run on the transmit-done bit of `v` alone; in particular for
`v = SNULL_RX_INTR | SNULL_TX_INTR`.  A run on a status word `v0` with
neither bit set changes nothing but the status word. -/
theorem interrupt_clears_status_and_splits (o o' : AllocOutcome) (s : Devs) (dev : DevIdx)
    (v v0 : Nat) (ho : o ≠ AllocOutcome.fail_silent)
    (h1 : v0 &&& SNULL_RX_INTR = 0) (h2 : v0 &&& SNULL_TX_INTR = 0) :
    (∃ s1, fire o s dev v = .ok s1 ∧ (s1.get dev).priv.status = 0) ∧
    (∀ u : AllocOutcome, match fire u s dev v with
      | .ok s1 => (s1.get dev).priv.status = 0
      | .error _ => True) ∧
    (∀ u : AllocOutcome, fire u s dev v =
      match fire u s dev (v &&& SNULL_RX_INTR) with
      | .error e => .error e
      | .ok s1 => fire o' s1 dev (v &&& SNULL_TX_INTR)) ∧
    (∀ u : AllocOutcome, fire u s dev (SNULL_RX_INTR ||| SNULL_TX_INTR) =
      match fire u s dev SNULL_RX_INTR with
      | .error e => .error e
      | .ok s1 => fire o' s1 dev SNULL_TX_INTR) ∧
    fire o s dev v0 = .ok (s.setPriv dev { (s.get dev).priv with status := 0 }) := by
  refine ⟨?_, ?_, fun u => fire_split u o' s dev v, ?_, fire_neither o s dev v0 h1 h2⟩
  · obtain ⟨s1, e⟩ := interrupt_returns o
      (s.setPriv dev { (s.get dev).priv with status := v }) dev ho
    exact ⟨s1, e, interrupt_clears_status _ _ _ _ e⟩
  · intro u
    split
    · rename_i s1 e; exact interrupt_clears_status _ _ _ _ e
    · trivial
  · intro u
    exact fire_split u o' s dev (SNULL_RX_INTR ||| SNULL_TX_INTR)

/-- Witness for C17: the receive list of `sn1` holds one packet (one
transmission on `sn0` with the receive interrupts of `sn1` off); `sn1` runs
its handler on the status word 3, and on the status word 4 with neither
bit. -/
theorem interrupt_clears_status_and_splits_witness :
    AllocOutcome.ok ≠ AllocOutcome.fail_silent ∧ 4 &&& SNULL_RX_INTR = 0 ∧
    4 &&& SNULL_TX_INTR = 0 ∧
    (∃ s1, fire AllocOutcome.ok (run_state (snull_init_module 8) (fill_ops DevIdx.sn0 1))
        DevIdx.sn1 3 = .ok s1 ∧ (s1.get DevIdx.sn1).priv.status = 0) ∧
    fire AllocOutcome.ok (run_state (snull_init_module 8) (fill_ops DevIdx.sn0 1))
        DevIdx.sn1 4 =
      .ok ((run_state (snull_init_module 8) (fill_ops DevIdx.sn0 1)).setPriv DevIdx.sn1
        { ((run_state (snull_init_module 8) (fill_ops DevIdx.sn0 1)).get DevIdx.sn1).priv with
          status := 0 }) :=
  ⟨by decide, by decide, by decide,
    (interrupt_clears_status_and_splits AllocOutcome.ok AllocOutcome.ok
      (run_state (snull_init_module 8) (fill_ops DevIdx.sn0 1)) DevIdx.sn1 3 4
      (by decide) (by decide) (by decide)).1,
    (interrupt_clears_status_and_splits AllocOutcome.ok AllocOutcome.ok
      (run_state (snull_init_module 8) (fill_ops DevIdx.sn0 1)) DevIdx.sn1 3 4
      (by decide) (by decide) (by decide)).2.2.2.2⟩


theorem tx_step_enabled (o_tx : AllocOutcome) (skb : sk_buff) (A : DevIdx) (s : Devs)
    (hs : Inv s) (hpool : (s.get A).priv.ppool ≠ [])
    (hen : (s.get A.twin).priv.rx_int_enabled ≠ 0) (hfit : skb.len ≤ ETH_DATA_LEN) :
    ∃ s', snull_tx AllocOutcome.ok o_tx skb A s = .ok (0, s') ∧ Inv s' ∧
      (s'.get A).priv.ppool.length = (s.get A).priv.ppool.length ∧
      (s'.get A.twin).priv.ppool = (s.get A.twin).priv.ppool ∧
      (s'.get A.twin).priv.rx_int_enabled = (s.get A.twin).priv.rx_int_enabled ∧
      (s'.get A.twin).netif_rx_log = (s.get A.twin).netif_rx_log ++ [wire_frame skb] := by
  cases hp : (s.get A).priv.ppool with
  | nil => exact absurd hp hpool
  | cons p rest =>
    have hown : p.dev = A := (hs A).2 p (by simp [hp])
    obtain ⟨s2, e2, gA, gB⟩ := snull_tx_enabled .ok o_tx skb A s p rest (by decide) hp hown
      (hs A).1 (hs A.twin).1 hen (tx_frame_len_le _ hfit)
    have hstep : step s (Op.tx AllocOutcome.ok o_tx skb A) = .ok s2 := by
      simp only [step, e2]
    exact ⟨s2, e2, inv_step _ _ _ hs hstep, by simp [gA], by simp [gB], by simp [gB],
      by simp [gB, take_memcpy _ _ _ (wire_frame_length skb)]⟩

theorem inv_open (s : Devs) (dev : DevIdx) (hs : Inv s) : Inv (snull_open s dev).2 :=
  inv_step s _ (Op.dev_open dev) hs rfl

/-- C13 (scenario with two packets per pool), as amended.  Module
initialisation with two packets per pool, both devices opened; three socket
buffers of at most `ETH_DATA_LEN` bytes are submitted back to back on device
`A`, every socket buffer allocation in `snull_rx` succeeding.  All three
submissions are accepted with result 0 and the three rewritten frames are
passed to `netif_rx` of the twin in the order of submission; the free list of
`A` holds two packets after each submission, because each packet buffer is
given back by the receive interrupt of the twin during the transmission, and
the free list of the twin is untouched. -/
theorem scenario_three_submissions (A : DevIdx) (k1 k2 k3 : sk_buff) (o1 o2 o3 : AllocOutcome)
    (h1 : k1.len ≤ ETH_DATA_LEN) (h2 : k2.len ≤ ETH_DATA_LEN) (h3 : k3.len ≤ ETH_DATA_LEN) :
    ∃ s1 s2 s3,
      snull_tx AllocOutcome.ok o1 k1 A
        (snull_open (snull_open (snull_init_module 2) DevIdx.sn0).2 DevIdx.sn1).2 = .ok (0, s1) ∧
      snull_tx AllocOutcome.ok o2 k2 A s1 = .ok (0, s2) ∧
      snull_tx AllocOutcome.ok o3 k3 A s2 = .ok (0, s3) ∧
      (s3.get A.twin).netif_rx_log = [wire_frame k1, wire_frame k2, wire_frame k3] ∧
      (s1.get A).priv.ppool.length = 2 ∧ (s2.get A).priv.ppool.length = 2 ∧
      (s3.get A).priv.ppool.length = 2 ∧
      (s3.get A.twin).priv.ppool =
        ((snull_open (snull_open (snull_init_module 2) DevIdx.sn0).2
          DevIdx.sn1).2.get A.twin).priv.ppool := by
  have hs0 : Inv (snull_open (snull_open (snull_init_module 2) DevIdx.sn0).2 DevIdx.sn1).2 :=
    inv_open _ _ (inv_open _ _ (inv_init 2))
  have hlen0 : ((snull_open (snull_open (snull_init_module 2) DevIdx.sn0).2
      DevIdx.sn1).2.get A).priv.ppool.length = 2 := by cases A <;> rfl
  have hen0 : ((snull_open (snull_open (snull_init_module 2) DevIdx.sn0).2
      DevIdx.sn1).2.get A.twin).priv.rx_int_enabled = 1 := by cases A <;> rfl
  have hlog0 : ((snull_open (snull_open (snull_init_module 2) DevIdx.sn0).2
      DevIdx.sn1).2.get A.twin).netif_rx_log = [] := by cases A <;> rfl
  obtain ⟨s1, e1, i1, l1, p1, n1, g1⟩ := tx_step_enabled o1 k1 A _ hs0
    (by intro h; rw [h] at hlen0; cases hlen0) (by rw [hen0]; decide) h1
  obtain ⟨s2, e2, i2, l2, p2, n2, g2⟩ := tx_step_enabled o2 k2 A s1 i1
    (by intro h; rw [h, hlen0] at l1; cases l1) (by rw [n1, hen0]; decide) h2
  obtain ⟨s3, e3, i3, l3, p3, n3, g3⟩ := tx_step_enabled o3 k3 A s2 i2
    (by intro h; rw [h, l1, hlen0] at l2; cases l2) (by rw [n2, n1, hen0]; decide) h3
  refine ⟨s1, s2, s3, e1, e2, e3, ?_, ?_, ?_, ?_, ?_⟩
  · rw [g3, g2, g1, hlog0]; rfl
  · rw [l1, hlen0]
  · rw [l2, l1, hlen0]
  · rw [l3, l2, l1, hlen0]
  · rw [p3, p2, p1]

/-- Witness for C13: payloads of 64, 10 and 1500 bytes on `sn0`. -/
theorem scenario_three_submissions_witness :
    (sample_skb 1 64).len ≤ ETH_DATA_LEN ∧ (sample_skb 2 10).len ≤ ETH_DATA_LEN ∧
    (sample_skb 3 1500).len ≤ ETH_DATA_LEN ∧
    ∃ s1 s2 s3,
      snull_tx AllocOutcome.ok AllocOutcome.ok (sample_skb 1 64) DevIdx.sn0
        (snull_open (snull_open (snull_init_module 2) DevIdx.sn0).2 DevIdx.sn1).2 = .ok (0, s1) ∧
      snull_tx AllocOutcome.ok AllocOutcome.ok (sample_skb 2 10) DevIdx.sn0 s1 = .ok (0, s2) ∧
      snull_tx AllocOutcome.ok AllocOutcome.ok (sample_skb 3 1500) DevIdx.sn0 s2 = .ok (0, s3) ∧
      (s3.get DevIdx.sn0.twin).netif_rx_log =
        [wire_frame (sample_skb 1 64), wire_frame (sample_skb 2 10),
         wire_frame (sample_skb 3 1500)] :=
  ⟨by rw [sample_skb_len]; decide, by rw [sample_skb_len]; decide,
   by rw [sample_skb_len]; decide,
   (scenario_three_submissions DevIdx.sn0 (sample_skb 1 64) (sample_skb 2 10)
      (sample_skb 3 1500) AllocOutcome.ok AllocOutcome.ok AllocOutcome.ok
      (by rw [sample_skb_len]; decide) (by rw [sample_skb_len]; decide)
      (by rw [sample_skb_len]; decide)).imp
    (fun _ h => h.imp (fun _ h => h.imp (fun _ h => ⟨h.1, h.2.1, h.2.2.1, h.2.2.2.1⟩)))⟩

/-- C13, counterexample to the claim as stated: in the scenario (two packets
per pool, both devices open) the third submission on `sn0` does not return
Blocked: it returns 0 like the first two, its frame is delivered to `sn1` as
the third delivery, and the free list of `sn0` still holds two packets. -/
theorem scenario_third_submission_accepted :
    snull_tx AllocOutcome.ok AllocOutcome.ok (sample_skb 3 64) DevIdx.sn0
        (run_state (snull_init_module 2)
          [Op.dev_open DevIdx.sn0, Op.dev_open DevIdx.sn1,
           Op.tx AllocOutcome.ok AllocOutcome.ok (sample_skb 1 64) DevIdx.sn0,
           Op.tx AllocOutcome.ok AllocOutcome.ok (sample_skb 2 64) DevIdx.sn0])
      = .ok (0, run_state (snull_init_module 2)
          [Op.dev_open DevIdx.sn0, Op.dev_open DevIdx.sn1,
           Op.tx AllocOutcome.ok AllocOutcome.ok (sample_skb 1 64) DevIdx.sn0,
           Op.tx AllocOutcome.ok AllocOutcome.ok (sample_skb 2 64) DevIdx.sn0,
           Op.tx AllocOutcome.ok AllocOutcome.ok (sample_skb 3 64) DevIdx.sn0]) ∧
    ((run_state (snull_init_module 2)
          [Op.dev_open DevIdx.sn0, Op.dev_open DevIdx.sn1,
           Op.tx AllocOutcome.ok AllocOutcome.ok (sample_skb 1 64) DevIdx.sn0,
           Op.tx AllocOutcome.ok AllocOutcome.ok (sample_skb 2 64) DevIdx.sn0]).get
        DevIdx.sn0).priv.ppool.length = 2 ∧
    ((run_state (snull_init_module 2)
          [Op.dev_open DevIdx.sn0, Op.dev_open DevIdx.sn1,
           Op.tx AllocOutcome.ok AllocOutcome.ok (sample_skb 1 64) DevIdx.sn0,
           Op.tx AllocOutcome.ok AllocOutcome.ok (sample_skb 2 64) DevIdx.sn0,
           Op.tx AllocOutcome.ok AllocOutcome.ok (sample_skb 3 64) DevIdx.sn0]).get
        DevIdx.sn1).netif_rx_log =
      [wire_frame (sample_skb 1 64), wire_frame (sample_skb 2 64),
       wire_frame (sample_skb 3 64)] := by
  refine ⟨rfl, by decide, by decide⟩


/-! ## The rewritten frame and its checksum -/

theorem csum_fold_spec (x : Nat) (hx : x < 4294967296) :
    csum_fold x ≤ 65535 ∧ (0 < x → 0 < csum_fold x) ∧
    csum_fold x + 65535 * (x / 65536 + (x % 65536 + x / 65536) / 65536) = x := by
  simp only [csum_fold]
  omega

theorem csum_fold_verifies (x : Nat) (hx : x < 4294901760) :
    csum_fold (x + (65535 - csum_fold x)) = 65535 := by
  obtain ⟨a1, a2, a3⟩ := csum_fold_spec x (by omega)
  obtain ⟨b1, b2, b3⟩ := csum_fold_spec (x + (65535 - csum_fold x)) (by omega)
  generalize csum_fold (x + (65535 - csum_fold x)) = g at *
  generalize csum_fold x = f at *
  omega

theorem csum_words_le : ∀ l : List Nat, (∀ b ∈ l, b < 256) → csum_words l ≤ 65536 * l.length
  | [], _ => by simp [csum_words]
  | [b], h => by
    have := h b (by simp)
    simp [csum_words]; omega
  | b0 :: b1 :: rest, h => by
    have h0 := h b0 (by simp)
    have h1 := h b1 (by simp)
    have ih := csum_words_le rest (fun b hb => h b (by simp [hb]))
    simp [csum_words]; omega

theorem csum_words_set_pair : ∀ (k : Nat) (l : List Nat) (a b : Nat),
    2 * k + 1 < l.length → l.getD (2 * k) 0 = 0 → l.getD (2 * k + 1) 0 = 0 →
    csum_words ((l.set (2 * k) a).set (2 * k + 1) b) = csum_words l + (a * 256 + b)
  | _, [], _, _, h, _, _ => by simp at h
  | _, [_], _, _, h, _, _ => by simp at h
  | 0, x :: y :: rest, a, b, _, h0, h1 => by
    simp at h0 h1
    subst h0 h1
    simp [csum_words]; omega
  | k + 1, x :: y :: rest, a, b, h, h0, h1 => by
    have e0 : 2 * (k + 1) = (2 * k) + 1 + 1 := by omega
    have e1 : 2 * (k + 1) + 1 = (2 * k + 1) + 1 + 1 := by omega
    rw [e0] at h0
    rw [e1] at h1 h
    have ih := csum_words_set_pair k rest a b (by simpa using h) (by simpa using h0)
      (by simpa using h1)
    rw [e1, e0]
    simp only [List.set_cons_succ, csum_words, ih]
    omega

theorem range_map_getD_eq_take (l : List Nat) (f : Nat → Nat) (n : Nat) (h : n ≤ l.length) :
    (List.range n).map (fun k => l.getD k (f k)) = l.take n := by
  apply List.ext_getElem
  · simp [Nat.min_eq_left h]
  · intro i h1 h2
    simp at h1 h2
    have : i < l.length := by omega
    simp [List.getElem?_eq_getElem this]

theorem hw_tx_rewrite_eq (env : csum_env) (buf : List Nat) :
    hw_tx_rewrite env buf =
      ((hw_tx_zeroed buf).set (sizeof_ethhdr + 10)
        (ip_fast_csum env ((hw_tx_zeroed buf).drop sizeof_ethhdr)
          ((hw_tx_zeroed buf).getD sizeof_ethhdr 0 % 16) / 256)).set (sizeof_ethhdr + 11)
        (ip_fast_csum env ((hw_tx_zeroed buf).drop sizeof_ethhdr)
          ((hw_tx_zeroed buf).getD sizeof_ethhdr 0 % 16) % 256) := rfl

theorem hw_tx_zeroed_length (buf : List Nat) : (hw_tx_zeroed buf).length = buf.length := by
  simp [hw_tx_zeroed, flip_low_bit]

theorem hw_tx_zeroed_getD (buf : List Nat) (k : Nat) (h1 : k ≠ 24) (h2 : k ≠ 25)
    (h3 : k ≠ 28) (h4 : k ≠ 32) : (hw_tx_zeroed buf).getD k 0 = buf.getD k 0 := by
  simp only [hw_tx_zeroed, flip_low_bit, sizeof_ethhdr, List.getD_eq_getElem?_getD]
  rw [List.getElem?_set_ne (by omega), List.getElem?_set_ne (by omega),
    List.getElem?_set_ne (by omega), List.getElem?_set_ne (by omega)]

theorem hw_tx_zeroed_check (buf : List Nat) :
    (hw_tx_zeroed buf).getD 24 0 = 0 ∧ (hw_tx_zeroed buf).getD 25 0 = 0 := by
  simp only [hw_tx_zeroed, flip_low_bit, sizeof_ethhdr, List.getD_eq_getElem?_getD]
  constructor
  · rw [List.getElem?_set_ne (by omega), List.getElem?_set]
    split_ifs <;> simp_all
  · rw [List.getElem?_set]
    split_ifs <;> simp_all

theorem getD_lt_of_all (l : List Nat) (k : Nat) (h : ∀ b ∈ l, b < 256) : l.getD k 0 < 256 := by
  rw [List.getD_eq_getElem?_getD]
  cases hk : l[k]? with
  | none => simp
  | some v => simpa using h v (List.getElem?_mem hk)

theorem set_all_lt (l : List Nat) (k v : Nat) (h : ∀ b ∈ l, b < 256) (hv : v < 256) :
    ∀ b ∈ l.set k v, b < 256 := by
  intro b hb
  rcases List.mem_or_eq_of_mem_set hb with h1 | h1
  · exact h b h1
  · rw [h1]; exact hv

theorem hw_tx_zeroed_bytes (buf : List Nat) (h : ∀ b ∈ buf, b < 256) :
    ∀ b ∈ hw_tx_zeroed buf, b < 256 := by
  have hx : ∀ l : List Nat, ∀ k, (∀ b ∈ l, b < 256) → Nat.xor (l.getD k 0) 1 < 256 := by
    intro l k hl
    exact Nat.xor_lt_two_pow (n := 8) (getD_lt_of_all l k hl) (by decide)
  unfold hw_tx_zeroed flip_low_bit
  apply set_all_lt _ _ _ _ (by decide)
  apply set_all_lt _ _ _ _ (by decide)
  apply set_all_lt _ _ _ _ (hx _ _ _)
  · apply set_all_lt _ _ _ h (hx _ _ h)
  · apply set_all_lt _ _ _ h (hx _ _ h)

theorem rewrite_checksum_ok (env : csum_env) (buf : List Nat) (hbytes : ∀ b ∈ buf, b < 256)
    (h5 : 5 ≤ buf.getD sizeof_ethhdr 0 % 16)
    (hin : sizeof_ethhdr + 4 * (buf.getD sizeof_ethhdr 0 % 16) ≤ buf.length) :
    header_checksum_ok
      (ip_header (hw_tx_rewrite env buf) (4 * (buf.getD sizeof_ethhdr 0 % 16))) := by
  have h14 : (hw_tx_zeroed buf).getD sizeof_ethhdr 0 = buf.getD sizeof_ethhdr 0 :=
    hw_tx_zeroed_getD buf 14 (by decide) (by decide) (by decide) (by decide)
  generalize hihl : buf.getD sizeof_ethhdr 0 % 16 = ihl at h5 hin
  have hihl16 : ihl < 16 := by rw [← hihl]; exact Nat.mod_lt _ (by decide)
  have hzlen := hw_tx_zeroed_length buf
  have hzb := hw_tx_zeroed_bytes buf hbytes
  obtain ⟨hz24, hz25⟩ := hw_tx_zeroed_check buf
  simp only [sizeof_ethhdr] at hin
  -- the header at the moment the checksum is computed
  have hH0len : (ip_header (hw_tx_zeroed buf) (4 * ihl)).length = 4 * ihl := by
    simp [ip_header, sizeof_ethhdr]; omega
  have hH0b : ∀ b ∈ ip_header (hw_tx_zeroed buf) (4 * ihl), b < 256 := by
    intro b hb
    exact hzb b (List.mem_of_mem_drop (List.mem_of_mem_take hb))
  have hH0get : ∀ k, k < 4 * ihl →
      (ip_header (hw_tx_zeroed buf) (4 * ihl)).getD k 0 = (hw_tx_zeroed buf).getD (14 + k) 0 := by
    intro k hk
    simp [ip_header, sizeof_ethhdr, List.getElem?_take, hk, List.getElem?_drop]
  have hc : ip_fast_csum env ((hw_tx_zeroed buf).drop sizeof_ethhdr) ihl
      = 65535 - csum_fold (csum_words (ip_header (hw_tx_zeroed buf) (4 * ihl))) := by
    unfold ip_fast_csum
    rw [if_neg (by omega), range_map_getD_eq_take _ _ _ (by simp [sizeof_ethhdr]; omega)]
    rfl
  have hS := csum_words_le _ hH0b
  rw [hH0len] at hS
  have hrew : ip_header (hw_tx_rewrite env buf) (4 * ihl)
      = ((ip_header (hw_tx_zeroed buf) (4 * ihl)).set (2 * 5)
          ((65535 - csum_fold (csum_words (ip_header (hw_tx_zeroed buf) (4 * ihl)))) / 256)).set
          (2 * 5 + 1)
          ((65535 - csum_fold (csum_words (ip_header (hw_tx_zeroed buf) (4 * ihl)))) % 256) := by
    rw [hw_tx_rewrite_eq, h14, hihl, hc]
    simp only [ip_header, sizeof_ethhdr, List.drop_set]
    simp
    rw [List.set_take, List.set_take]
  rw [header_checksum_ok, hrew, csum_words_set_pair 5 _ _ _ (by rw [hH0len]; omega)
    (by rw [hH0get _ (by omega)]; exact hz24) (by rw [hH0get _ (by omega)]; exact hz25)]
  have hdiv : (65535 - csum_fold (csum_words (ip_header (hw_tx_zeroed buf) (4 * ihl)))) / 256 * 256
      + (65535 - csum_fold (csum_words (ip_header (hw_tx_zeroed buf) (4 * ihl)))) % 256
      = 65535 - csum_fold (csum_words (ip_header (hw_tx_zeroed buf) (4 * ihl))) := by
    omega
  rw [hdiv]
  exact csum_fold_verifies _ (by omega)



/-! ## The fabric hands the rewritten frame to the peer -/

theorem snull_hw_tx_disabled (env : csum_env) (o_rx o_tx : AllocOutcome) (buf : List Nat) (len : Nat)
    (A : DevIdx) (s : Devs) (p : snull_packet) (rest : List snull_packet)
    (hpool : (s.get A).priv.ppool = p :: rest)
    (hsA : (s.get A).priv.status = 0)
    (hen : (s.get A.twin).priv.rx_int_enabled = 0)
    (h34 : sizeof_ethhdr + sizeof_iphdr ≤ len) (hlen : len ≤ ETH_DATA_LEN) :
    ∃ s', snull_hw_tx env o_rx o_tx buf len A s = .ok s'
      ∧ (s'.get A.twin).priv.rx_queue =
          { p with datalen := len, data := memcpy p.data (hw_tx_rewrite env buf) len }
            :: (s.get A.twin).priv.rx_queue
      ∧ (s'.get A.twin).netif_rx_log = (s.get A.twin).netif_rx_log := by
  have h34 : ¬ len < sizeof_ethhdr + sizeof_iphdr := by omega
  have hle : ¬ len > ETH_DATA_LEN := by omega
  simp only [snull_hw_tx, if_neg h34, snull_interrupt]
  obtain ⟨s1, e1, g1A, g1B⟩ := get_tx_buffer_ok s A p rest hpool
  rw [e1]
  simp only [if_neg hle]
  set p' : snull_packet := ⟨p.id, p.dev, len, memcpy p.data (hw_tx_rewrite env buf) len⟩ with hp'
  have hen2 : ¬ ((snull_enqueue_buf s1 A.twin p').get A.twin).priv.rx_int_enabled ≠ 0 := by
    simp [enqueue_get, g1B, hen]
  rw [if_neg hen2]
  simp only
  obtain ⟨s4, e4, _, g4B⟩ := interrupt_tx_only o_tx
    ((snull_enqueue_buf s1 A.twin p').setPriv A
      { ((snull_enqueue_buf s1 A.twin p').get A).priv with
        tx_packetlen := len
        tx_packetdata := hw_tx_rewrite env buf
        status := ((snull_enqueue_buf s1 A.twin p').get A).priv.status ||| SNULL_TX_INTR }) A
    (by simp [get_setPriv, enqueue_get, g1A, hsA, SNULL_TX_INTR])
  rw [e4]
  refine ⟨s4, rfl, ?_, ?_⟩
  · rw [g4B]
    simp [get_setPriv, enqueue_get, g1B, hp']
  · rw [g4B]
    simp [get_setPriv, enqueue_get, g1B, hp']

theorem snull_hw_tx_enabled (env : csum_env) (o_rx o_tx : AllocOutcome) (buf : List Nat) (len : Nat)
    (A : DevIdx) (s : Devs) (p : snull_packet) (rest : List snull_packet)
    (ho : o_rx ≠ .fail_silent)
    (hpool : (s.get A).priv.ppool = p :: rest) (hown : p.dev = A)
    (hsA : (s.get A).priv.status = 0) (hsB : (s.get A.twin).priv.status = 0)
    (hen : (s.get A.twin).priv.rx_int_enabled ≠ 0)
    (h34 : sizeof_ethhdr + sizeof_iphdr ≤ len) (hlen : len ≤ ETH_DATA_LEN) :
    ∃ s', snull_hw_tx env o_rx o_tx buf len A s = .ok s'
      ∧ (s'.get A).priv.ppool =
          { p with datalen := len, data := memcpy p.data (hw_tx_rewrite env buf) len } :: rest
      ∧ (s'.get A.twin).netif_rx_log = (s.get A.twin).netif_rx_log ++
          (if o_rx = .ok then [(memcpy p.data (hw_tx_rewrite env buf) len).take len] else []) := by
  have h34 : ¬ len < sizeof_ethhdr + sizeof_iphdr := by omega
  have hle : ¬ len > ETH_DATA_LEN := by omega
  simp only [snull_hw_tx, if_neg h34, snull_interrupt]
  obtain ⟨s1, e1, g1A, g1B⟩ := get_tx_buffer_ok s A p rest hpool
  rw [e1]
  simp only [if_neg hle]
  set p' : snull_packet := ⟨p.id, p.dev, len, memcpy p.data (hw_tx_rewrite env buf) len⟩ with hp'
  have hen2 : ((snull_enqueue_buf s1 A.twin p').get A.twin).priv.rx_int_enabled ≠ 0 := by
    simp [enqueue_get, g1B, hen]
  rw [if_pos hen2]
  obtain ⟨s3, e3, g3B, g3A⟩ := interrupt_rx_only o_rx
    ((snull_enqueue_buf s1 A.twin p').setPriv A.twin
      { ((snull_enqueue_buf s1 A.twin p').get A.twin).priv with
        status := ((snull_enqueue_buf s1 A.twin p').get A.twin).priv.status ||| SNULL_RX_INTR })
    A.twin p' (s.get A.twin).priv.rx_queue ho
    (by simp [get_setPriv, enqueue_get, g1B, hsB, SNULL_RX_INTR])
    (by simp [get_setPriv, enqueue_get, g1B]) (by simp [hp', hown])
  rw [e3]
  simp only [get_setPriv, enqueue_get, if_true, if_false, twin_ne, ne_twin, twin_twin, g1A, g1B]
    at g3A g3B
  simp only
  obtain ⟨s4, e4, g4A, g4B⟩ := interrupt_tx_only o_tx
    (s3.setPriv A { (s3.get A).priv with
        tx_packetlen := len
        tx_packetdata := hw_tx_rewrite env buf
        status := (s3.get A).priv.status ||| SNULL_TX_INTR }) A
    (by simp [get_setPriv, g3A, hsA, SNULL_TX_INTR])
  rw [e4]
  refine ⟨s4, rfl, ?_, ?_⟩
  · rw [g4A]
    simp [get_setPriv, g3A, hp']
  · rw [g4B]
    simp [get_setPriv, g3B, hp']

theorem hw_tx_rewrite_getD (env : csum_env) (buf : List Nat) (k : Nat) (h1 : k ≠ 24) (h2 : k ≠ 25)
    (h3 : k ≠ 28) (h4 : k ≠ 32) : (hw_tx_rewrite env buf).getD k 0 = buf.getD k 0 := by
  rw [← hw_tx_zeroed_getD buf k h1 h2 h3 h4, hw_tx_rewrite_eq]
  simp only [sizeof_ethhdr, List.getD_eq_getElem?_getD]
  rw [List.getElem?_set_ne (by omega), List.getElem?_set_ne (by omega)]

theorem hw_tx_rewrite_saddr (env : csum_env) (buf : List Nat) (h : 28 < buf.length) :
    (hw_tx_rewrite env buf).getD 28 0 = Nat.xor (buf.getD 28 0) 1 := by
  rw [hw_tx_rewrite_eq]
  simp only [hw_tx_zeroed, flip_low_bit, sizeof_ethhdr, List.getD_eq_getElem?_getD]
  rw [List.getElem?_set_ne (by omega), List.getElem?_set_ne (by omega),
    List.getElem?_set_ne (by omega), List.getElem?_set_ne (by omega),
    List.getElem?_set_ne (by omega), List.getElem?_set]
  simp [h]

theorem hw_tx_rewrite_daddr (env : csum_env) (buf : List Nat) (h : 32 < buf.length) :
    (hw_tx_rewrite env buf).getD 32 0 = Nat.xor (buf.getD 32 0) 1 := by
  rw [hw_tx_rewrite_eq]
  simp only [hw_tx_zeroed, flip_low_bit, sizeof_ethhdr, List.getD_eq_getElem?_getD]
  rw [List.getElem?_set_ne (by omega), List.getElem?_set_ne (by omega),
    List.getElem?_set_ne (by omega), List.getElem?_set_ne (by omega),
    List.getElem?_set]
  simp only [List.length_set, h, if_true, if_pos, Option.getD_some]
  rw [List.getElem?_set_ne (by omega)]

theorem xor_one_twice (x : Nat) : Nat.xor (Nat.xor x 1) 1 = x := by
  show (x ^^^ 1) ^^^ 1 = x
  rw [Nat.xor_assoc, Nat.xor_self, Nat.xor_zero]

theorem hw_tx_rewrite_twice (env env2 : csum_env) (buf : List Nat) (h34 : sizeof_ethhdr + sizeof_iphdr ≤ buf.length)
    (k : Nat) (h1 : 26 ≤ k) (h2 : k < 34) :
    (hw_tx_rewrite env2 (hw_tx_rewrite env buf)).getD k 0 = buf.getD k 0 := by
  simp only [sizeof_ethhdr, sizeof_iphdr] at h34
  by_cases h28 : k = 28
  · subst h28
    rw [hw_tx_rewrite_saddr _ _ (by rw [hw_tx_rewrite_length]; omega),
      hw_tx_rewrite_saddr _ _ (by omega), xor_one_twice]
  · by_cases h32 : k = 32
    · subst h32
      rw [hw_tx_rewrite_daddr _ _ (by rw [hw_tx_rewrite_length]; omega),
        hw_tx_rewrite_daddr _ _ (by omega), xor_one_twice]
    · rw [hw_tx_rewrite_getD _ _ k (by omega) (by omega) h28 h32,
        hw_tx_rewrite_getD _ _ k (by omega) (by omega) h28 h32]


/-! ## C20: address mutation and checksum -/

/-- C20 (address mutation and checksum), as amended.  Let `buf` be a frame of
octets, at least 34 and at most `ETH_DATA_LEN` bytes long, whose byte 14
declares an IPv4 header length of at least five words that lies inside the
frame.  In a state satisfying the invariant, with a buffer on the sender's
free list and an allocation in `snull_rx` that does not take the silent
failure path, `snull_hw_tx` returns, and the packet `q` it fills holds
`hw_tx_rewrite env buf`: `q` is left at the head of the twin's receive list when
the twin's receive interrupts are off, and otherwise it is handed to
`netif_rx` when the allocation succeeds and is back at the head of the
sender's free list.  The rewritten frame has the length of `buf`, agrees
with `buf` on every byte other than 24, 25, 28 and 32, has the lowest bit of
bytes 28 and 32 flipped, and its header of `4 * IHL` bytes sums to `0xFFFF`
in one's complement, that is, bytes 24-25 hold the correct header checksum.
Rewriting twice restores bytes 26 to 33, the two addresses.  All this holds
whatever lies behind the frame and whatever the routine of the architecture
does below its contract (`env`, and `env2` for the second pass). -/
theorem fabric_rewrites_addresses_and_checksum (env env2 : csum_env) (s : Devs) (hs : Inv s)
    (o_rx o_tx : AllocOutcome) (buf : List Nat) (A : DevIdx)
    (ho : o_rx ≠ AllocOutcome.fail_silent)
    (hpool : (s.get A).priv.ppool ≠ [])
    (h34 : sizeof_ethhdr + sizeof_iphdr ≤ buf.length) (hle : buf.length ≤ ETH_DATA_LEN)
    (hbytes : ∀ b ∈ buf, b < 256)
    (h5 : 5 ≤ buf.getD sizeof_ethhdr 0 % 16)
    (hin : sizeof_ethhdr + 4 * (buf.getD sizeof_ethhdr 0 % 16) ≤ buf.length) :
    (∃ s' q, snull_hw_tx env o_rx o_tx buf buf.length A s = .ok s' ∧
      q.datalen = buf.length ∧ q.data.take q.datalen = hw_tx_rewrite env buf ∧
      (if (s.get A.twin).priv.rx_int_enabled ≠ 0 then
        (s'.get A).priv.ppool.head? = some q ∧
        (s'.get A.twin).netif_rx_log = (s.get A.twin).netif_rx_log ++
          (if o_rx = AllocOutcome.ok then [hw_tx_rewrite env buf] else [])
       else
        (s'.get A.twin).priv.rx_queue = q :: (s.get A.twin).priv.rx_queue ∧
        (s'.get A.twin).netif_rx_log = (s.get A.twin).netif_rx_log)) ∧
    (hw_tx_rewrite env buf).length = buf.length ∧
    (∀ k, k ≠ 24 → k ≠ 25 → k ≠ 28 → k ≠ 32 →
      (hw_tx_rewrite env buf).getD k 0 = buf.getD k 0) ∧
    (hw_tx_rewrite env buf).getD 28 0 = Nat.xor (buf.getD 28 0) 1 ∧
    (hw_tx_rewrite env buf).getD 32 0 = Nat.xor (buf.getD 32 0) 1 ∧
    header_checksum_ok
      (ip_header (hw_tx_rewrite env buf) (4 * (buf.getD sizeof_ethhdr 0 % 16))) ∧
    (∀ k, 26 ≤ k → k < 34 →
      (hw_tx_rewrite env2 (hw_tx_rewrite env buf)).getD k 0 = buf.getD k 0) := by
  have hl : 34 ≤ buf.length := by simpa [sizeof_ethhdr, sizeof_iphdr] using h34
  refine ⟨?_, hw_tx_rewrite_length env buf, hw_tx_rewrite_getD env buf,
    hw_tx_rewrite_saddr env buf (by omega), hw_tx_rewrite_daddr env buf (by omega),
    rewrite_checksum_ok env buf hbytes h5 hin, hw_tx_rewrite_twice env env2 buf h34⟩
  cases hp : (s.get A).priv.ppool with
  | nil => exact absurd hp hpool
  | cons p rest =>
    have hown : p.dev = A := (hs A).2 p (by simp [hp])
    have htake : (memcpy p.data (hw_tx_rewrite env buf) buf.length).take buf.length
        = hw_tx_rewrite env buf := take_memcpy _ _ _ (hw_tx_rewrite_length env buf)
    by_cases hen : (s.get A.twin).priv.rx_int_enabled = 0
    · obtain ⟨s', e, gq, gl⟩ := snull_hw_tx_disabled env o_rx o_tx buf buf.length A s p rest hp
        (hs A).1 hen h34 hle
      refine ⟨s', { p with datalen := buf.length,
                           data := memcpy p.data (hw_tx_rewrite env buf) buf.length },
        e, rfl, htake, ?_⟩
      rw [if_neg (by simpa using hen)]
      exact ⟨gq, gl⟩
    · obtain ⟨s', e, gp, gl⟩ := snull_hw_tx_enabled env o_rx o_tx buf buf.length A s p rest ho hp
        hown (hs A).1 (hs A.twin).1 hen h34 hle
      refine ⟨s', { p with datalen := buf.length,
                           data := memcpy p.data (hw_tx_rewrite env buf) buf.length },
        e, rfl, htake, ?_⟩
      rw [if_pos hen]
      refine ⟨by rw [gp]; rfl, ?_⟩
      rw [gl, htake]

/-- Witness for C20: the 60-byte IPv4 frame `sample_ipv4_frame` (header
length five words) sent on `sn0` right after module initialisation, on x86
for the first pass and with the generic routine for the second. -/
theorem fabric_rewrites_addresses_and_checksum_witness :
    Inv (snull_init_module 8) ∧
    ((snull_init_module 8).get DevIdx.sn0).priv.ppool ≠ [] ∧
    sizeof_ethhdr + sizeof_iphdr ≤ sample_ipv4_frame.length ∧
    sample_ipv4_frame.length ≤ ETH_DATA_LEN ∧
    (∀ b ∈ sample_ipv4_frame, b < 256) ∧
    5 ≤ sample_ipv4_frame.getD sizeof_ethhdr 0 % 16 ∧
    sizeof_ethhdr + 4 * (sample_ipv4_frame.getD sizeof_ethhdr 0 % 16)
      ≤ sample_ipv4_frame.length ∧
    (hw_tx_rewrite x86_env sample_ipv4_frame).getD 28 0
      = Nat.xor (sample_ipv4_frame.getD 28 0) 1 ∧
    (hw_tx_rewrite x86_env sample_ipv4_frame).getD 32 0
      = Nat.xor (sample_ipv4_frame.getD 32 0) 1 ∧
    header_checksum_ok (ip_header (hw_tx_rewrite x86_env sample_ipv4_frame)
      (4 * (sample_ipv4_frame.getD sizeof_ethhdr 0 % 16))) :=
  ⟨inv_of_reachable 8 _ Reachable.init, by decide, by decide, by decide, by decide, by decide,
    by decide,
    (fabric_rewrites_addresses_and_checksum x86_env generic_env (snull_init_module 8)
      (inv_of_reachable 8 _ Reachable.init) AllocOutcome.ok AllocOutcome.ok sample_ipv4_frame
      DevIdx.sn0 (by decide) (by decide) (by decide) (by decide) (by decide) (by decide)
      (by decide)).2.2.2.1,
    (fabric_rewrites_addresses_and_checksum x86_env generic_env (snull_init_module 8)
      (inv_of_reachable 8 _ Reachable.init) AllocOutcome.ok AllocOutcome.ok sample_ipv4_frame
      DevIdx.sn0 (by decide) (by decide) (by decide) (by decide) (by decide) (by decide)
      (by decide)).2.2.2.2.1,
    (fabric_rewrites_addresses_and_checksum x86_env generic_env (snull_init_module 8)
      (inv_of_reachable 8 _ Reachable.init) AllocOutcome.ok AllocOutcome.ok sample_ipv4_frame
      DevIdx.sn0 (by decide) (by decide) (by decide) (by decide) (by decide) (by decide)
      (by decide)).2.2.2.2.2.1⟩

/-- C20, counterexample to the claim as stated: the 60-byte frame
`sample_ipv6_frame`, whose byte 14 is `0x60`, sent on `sn0` right after
module initialisation reaches `sn1` with bytes 24-25 set to `0xFFFF`, the
checksum of an empty header, when the routine is that of `lib/checksum.c`,
and set to `0x6000`, the first two bytes of the header, on x86, whereas
the checksum of its 20 header bytes is `0x9DFF`; with either routine the 20
bytes at offset 14 of the delivered frame do not sum to `0xFFFF`. -/
theorem non_ipv4_frame_gets_wrong_checksum :
    sizeof_ethhdr + sizeof_iphdr ≤ sample_ipv6_frame.length ∧
    (∃ s', snull_hw_tx generic_env AllocOutcome.ok AllocOutcome.ok sample_ipv6_frame
        sample_ipv6_frame.length DevIdx.sn0 (snull_init_module 8) = .ok s' ∧
      (s'.get DevIdx.sn1).netif_rx_log = [hw_tx_rewrite generic_env sample_ipv6_frame]) ∧
    (hw_tx_rewrite generic_env sample_ipv6_frame).getD 24 0 = 255 ∧
    (hw_tx_rewrite generic_env sample_ipv6_frame).getD 25 0 = 255 ∧
    ip_fast_csum generic_env ((hw_tx_zeroed sample_ipv6_frame).drop sizeof_ethhdr) 5 = 40447 ∧
    ¬ header_checksum_ok
      (ip_header (hw_tx_rewrite generic_env sample_ipv6_frame) sizeof_iphdr) ∧
    (∃ s', snull_hw_tx x86_env AllocOutcome.ok AllocOutcome.ok sample_ipv6_frame
        sample_ipv6_frame.length DevIdx.sn0 (snull_init_module 8) = .ok s' ∧
      (s'.get DevIdx.sn1).netif_rx_log = [hw_tx_rewrite x86_env sample_ipv6_frame]) ∧
    (hw_tx_rewrite x86_env sample_ipv6_frame).getD 24 0 = 96 ∧
    (hw_tx_rewrite x86_env sample_ipv6_frame).getD 25 0 = 0 ∧
    ip_fast_csum x86_env ((hw_tx_zeroed sample_ipv6_frame).drop sizeof_ethhdr) 5 = 40447 ∧
    ¬ header_checksum_ok (ip_header (hw_tx_rewrite x86_env sample_ipv6_frame) sizeof_iphdr) := by
  refine ⟨by decide, ⟨_, rfl, by decide⟩, by decide, by decide, by decide, by decide,
    ⟨_, rfl, by decide⟩, by decide, by decide, by decide, by decide⟩


/-! ## C22: a timed-out transmission is counted and flagged -/

theorem list_of_length_six (l : List Nat) (h : l.length = 6) :
    ∃ a b c d e f, l = [a, b, c, d, e, f] := by
  match l, h with
  | [a, b, c, d, e, f], _ => exact ⟨a, b, c, d, e, f, rfl⟩

theorem snull_header_data (skb : sk_buff) (dev : net_device) (type : Nat)
    (daddr saddr : Option (List Nat)) (len : Nat)
    (hal : dev.addr_len = ETH_ALEN)
    (hd : (daddr.getD dev.dev_addr).length = ETH_ALEN)
    (hs : (saddr.getD dev.dev_addr).length = ETH_ALEN) :
    (snull_header skb dev type daddr saddr len).2.data =
      flip_low_bit (daddr.getD dev.dev_addr) (ETH_ALEN - 1) ++ saddr.getD dev.dev_addr ++
        [type / 256 % 256, type % 256] ++ skb.data := by
  obtain ⟨d0, d1, d2, d3, d4, d5, hD⟩ := list_of_length_six _ hd
  obtain ⟨s0, s1, s2, s3, s4, s5, hS⟩ := list_of_length_six _ hs
  simp only [snull_header, hal, hD, hS]
  simp [memcpy_at, memcpy, ETH_ALEN, ETH_HLEN, flip_low_bit, List.replicate]


/-! ## The link-layer fields change only when a device is opened -/

theorem linkEq_refl (s : Devs) : LinkEq s s := fun _ => rfl

theorem linkEq_trans {s t u : Devs} (h1 : LinkEq s t) (h2 : LinkEq t u) : LinkEq s u :=
  fun i => (h2 i).trans (h1 i)

theorem linkEq_set (s : Devs) (dev : DevIdx) (d : net_device)
    (h : link d = link (s.get dev)) : LinkEq s (s.set dev d) := by
  intro i
  by_cases hi : i = dev
  · subst hi; simpa [get_set] using h
  · simp [get_set, hi]

theorem linkEq_setPriv (s : Devs) (dev : DevIdx) (p : snull_priv) :
    LinkEq s (s.setPriv dev p) :=
  linkEq_set s dev _ rfl

theorem linkEq_release (s : Devs) (p : snull_packet) : LinkEq s (snull_release_buffer s p) := by
  intro i
  rw [release_get]
  by_cases hi : i = p.dev
  · subst hi; simp [link]
  · simp [hi]

theorem linkEq_get (s s1 : Devs) (dev : DevIdx) (p : snull_packet)
    (h : snull_get_tx_buffer s dev = .ok (p, s1)) : LinkEq s s1 := by
  cases hpool : (s.get dev).priv.ppool with
  | nil => simp [snull_get_tx_buffer, hpool] at h
  | cons q rest =>
    obtain ⟨s2, e2, gA, gB⟩ := get_tx_buffer_ok s dev q rest hpool
    rw [e2] at h
    cases h
    intro i
    rcases eq_or_twin dev i with rfl | rfl
    · rw [gA]; rfl
    · rw [gB]

theorem linkEq_rx (o : AllocOutcome) (s s1 : Devs) (dev : DevIdx) (p : snull_packet)
    (h : snull_rx o s dev p = .ok s1) : LinkEq s s1 := by
  cases o <;> simp only [snull_rx, Except.ok.injEq] at h
  · subst h
    exact linkEq_set _ _ _ rfl
  · subst h
    exact linkEq_setPriv _ _ _
  · cases h

theorem linkEq_interrupt (o : AllocOutcome) (s s1 : Devs) (dev_id : Option DevIdx)
    (h : snull_regular_interrupt o s dev_id = .ok s1) : LinkEq s s1 := by
  unfold snull_regular_interrupt at h
  cases dev_id with
  | none => cases h; exact linkEq_refl _
  | some dev =>
    simp only at h
    have h0 : LinkEq s (s.setPriv dev { (s.get dev).priv with status := 0 }) :=
      linkEq_setPriv _ _ _
    split at h
    · cases h
    · rename_i pkt s2 hr
      have h2 : LinkEq s s2 := by
        split at hr
        · unfold interrupt_rx at hr
          split at hr
          · cases hr; exact h0
          · split at hr
            · cases hr
            · rename_i s3 h3
              cases hr
              exact linkEq_trans h0 (linkEq_trans (linkEq_setPriv _ _ _)
                (linkEq_rx _ _ _ _ _ h3))
        · cases hr; exact h0
      have h3 : LinkEq s2 (if (s.get dev).priv.status &&& SNULL_TX_INTR ≠ 0
          then interrupt_tx s2 dev else s2) := by
        split
        · exact linkEq_set _ _ _ rfl
        · exact linkEq_refl _
      cases pkt with
      | none => cases h; exact linkEq_trans h2 h3
      | some p => cases h; exact linkEq_trans h2 (linkEq_trans h3 (linkEq_release _ _))

theorem linkEq_hw_tx (env : csum_env) (o_rx o_tx : AllocOutcome) (buf : List Nat) (len : Nat) (dev : DevIdx)
    (s s1 : Devs) (h : snull_hw_tx env o_rx o_tx buf len dev s = .ok s1) : LinkEq s s1 := by
  unfold snull_hw_tx at h
  split at h
  · cases h; exact linkEq_refl _
  · simp only at h
    split at h
    · cases h
    · rename_i tx_buffer s2 hg
      have h2 : LinkEq s s2 := linkEq_get _ _ _ _ hg
      split at h
      · cases h
      · split at h
        · cases h
        · rename_i s3 hr
          have hq : LinkEq s2 (snull_enqueue_buf s2 dev.twin
              { tx_buffer with datalen := len, data := memcpy tx_buffer.data (hw_tx_rewrite env buf) len }) :=
            linkEq_setPriv _ _ _
          have h3 : LinkEq s2 s3 := by
            split at hr
            · exact linkEq_trans hq (linkEq_trans (linkEq_setPriv _ _ _)
                (linkEq_interrupt _ _ _ _ hr))
            · cases hr; exact hq
          exact linkEq_trans h2 (linkEq_trans h3
            (linkEq_trans (linkEq_setPriv _ _ _) (linkEq_interrupt _ _ _ _ h)))

theorem linkEq_step (s s1 : Devs) (op : Op) (h : step s op = .ok s1)
    (hop : ∀ dev, op ≠ Op.dev_open dev) : LinkEq s s1 := by
  cases op with
  | dev_open dev => exact absurd rfl (hop dev)
  | dev_close dev =>
    simp only [step, snull_release, netif_stop_queue, Except.ok.injEq] at h
    subst h
    exact linkEq_set _ _ _ rfl
  | rx_ints dev enable =>
    simp only [step, snull_rx_ints, Except.ok.injEq] at h
    subst h
    exact linkEq_setPriv _ _ _
  | tx o_rx o_tx skb dev =>
    simp only [step, snull_tx] at h
    split at h
    · cases h
    · rename_i r hr
      cases h
      split at hr
      · cases hr
      · rename_i s2 h2
        cases hr
        exact linkEq_trans (linkEq_setPriv _ _ _) (linkEq_hw_tx _ _ _ _ _ _ _ _ h2)
  | interrupt o dev => exact linkEq_interrupt o s s1 (some dev) h
  | tx_timeout o dev =>
    simp only [step, snull_tx_timeout] at h
    split at h
    · cases h
    · rename_i s2 h2
      cases h
      unfold snull_interrupt at h2
      refine linkEq_trans (linkEq_setPriv _ _ _)
        (linkEq_trans (linkEq_interrupt _ _ _ _ h2) ?_)
      unfold netif_wake_queue
      exact linkEq_trans (linkEq_setPriv _ _ _) (linkEq_set _ _ _ rfl)

theorem open_get (s : Devs) (dev j : DevIdx) :
    link ((snull_open s dev).2.get j) =
      if j = dev then
        (((snull_open s dev).2.get dev).dev_addr, (s.get dev).addr_len,
          (s.get dev).hard_header_len)
      else link (s.get j) := by
  cases dev <;> cases j <;> simp [snull_open, netif_start_queue, get_set, link]

theorem open_addr_length (s : Devs) (dev : DevIdx) :
    ((snull_open s dev).2.get dev).dev_addr.length = ETH_ALEN := by
  cases dev <;> simp [snull_open, netif_start_queue, get_set, addr_SNUL0, ETH_ALEN]

theorem open_addr_const (s t : Devs) (dev : DevIdx) :
    ((snull_open s dev).2.get dev).dev_addr = ((snull_open t dev).2.get dev).dev_addr := by
  cases dev <;> simp [snull_open, netif_start_queue, get_set]

theorem link_of_reachable (n : Nat) (s : Devs) (h : Reachable n s) (i : DevIdx) :
    (s.get i).dev_addr.length = ETH_ALEN ∧ (s.get i).addr_len = ETH_ALEN ∧
      (s.get i).hard_header_len = ETH_HLEN := by
  induction h generalizing i with
  | init => cases i <;> simp [snull_init_module, snull_init, snull_setup_pool, snull_rx_ints,
      Devs.set, Devs.setPriv, Devs.get, zeroed_device]
  | step s s' op _ hstep ih =>
    by_cases hop : ∀ dev, op ≠ Op.dev_open dev
    · have hl := linkEq_step s s' op hstep hop i
      simp only [link, Prod.mk.injEq] at hl
      obtain ⟨h1, h2, h3⟩ := hl
      rw [h1, h2, h3]
      exact ih i
    · push_neg at hop
      obtain ⟨dev, rfl⟩ := hop
      simp only [step, Except.ok.injEq] at hstep
      subst hstep
      have hl := open_get s dev i
      by_cases hi : i = dev
      · subst hi
        simp only [link, if_true, Prod.mk.injEq] at hl
        exact ⟨open_addr_length s i, hl.2.1.trans (ih i).2.1, hl.2.2.trans (ih i).2.2⟩
      · simp only [link, if_neg hi, Prod.mk.injEq] at hl
        obtain ⟨h1, h2, h3⟩ := hl
        rw [h1, h2, h3]
        exact ih i

theorem opened_step (s s1 : Devs) (op : Op) (h : step s op = .ok s1) (i : DevIdx)
    (ho : Opened s i) : Opened s1 i := by
  unfold Opened at *
  by_cases hop : ∀ dev, op ≠ Op.dev_open dev
  · have hl := linkEq_step s s1 op h hop i
    simp only [link, Prod.mk.injEq] at hl
    rw [hl.1, ho]
    exact open_addr_const _ _ _
  · push_neg at hop
    obtain ⟨dev, rfl⟩ := hop
    simp only [step, Except.ok.injEq] at h
    subst h
    have hl := open_get s dev i
    by_cases hi : i = dev
    · subst hi
      exact open_addr_const _ _ _
    · simp only [link, if_neg hi, Prod.mk.injEq] at hl
      rw [hl.1, ho]
      exact open_addr_const _ _ _


theorem opened_addr (s : Devs) (dev : DevIdx) (h : Opened s dev) :
    (s.get dev).dev_addr = [0, 83, 78, 85, 76, if dev = DevIdx.sn1 then 49 else 48] := by
  unfold Opened at h
  rw [h]
  cases dev <;> simp [snull_open, netif_start_queue, get_set, addr_SNUL0, ETH_ALEN]

/-- C21 (header construction addresses the peer).  For every device `A` with
a 6-byte address, every protocol type below `0x10000` and optional 6-byte
source and destination addresses, `snull_header` returns
`dev->hard_header_len`, which is `ETH_HLEN` in every reachable state, and
puts 14 bytes in front of the data of the socket buffer: bytes 12-13 hold
the type, high byte first; bytes 6-11 hold `saddr` if given and the address
of the device otherwise; bytes 0-5 hold `daddr` if given and the address of
the device otherwise, with the lowest bit of the last byte flipped.  With
both devices carrying the addresses `snull_open` assigns and no `daddr`, the
destination is the hardware address of the twin. -/
theorem header_addresses_the_peer (s : Devs) (A : DevIdx) (skb : sk_buff) (type : Nat)
    (daddr saddr : Option (List Nat)) (len : Nat)
    (hal : (s.get A).addr_len = ETH_ALEN) (hdev : (s.get A).dev_addr.length = ETH_ALEN)
    (hd : ∀ a, daddr = some a → a.length = ETH_ALEN)
    (hs : ∀ a, saddr = some a → a.length = ETH_ALEN)
    (ht : type < 65536) :
    (snull_header skb (s.get A) type daddr saddr len).1 = (s.get A).hard_header_len ∧
    (∀ n, Reachable n s →
      (snull_header skb (s.get A) type daddr saddr len).1 = ETH_HLEN) ∧
    (snull_header skb (s.get A) type daddr saddr len).2.data.length = ETH_HLEN + skb.len ∧
    (snull_header skb (s.get A) type daddr saddr len).2.data.drop ETH_HLEN = skb.data ∧
    (snull_header skb (s.get A) type daddr saddr len).2.data.getD 12 0 * 256 +
      (snull_header skb (s.get A) type daddr saddr len).2.data.getD 13 0 = type ∧
    ((snull_header skb (s.get A) type daddr saddr len).2.data.drop ETH_ALEN).take ETH_ALEN
      = saddr.getD (s.get A).dev_addr ∧
    (snull_header skb (s.get A) type daddr saddr len).2.data.take ETH_ALEN
      = flip_low_bit (daddr.getD (s.get A).dev_addr) (ETH_ALEN - 1) ∧
    (daddr = none → Opened s A → Opened s A.twin →
      (snull_header skb (s.get A) type daddr saddr len).2.data.take ETH_ALEN
        = (s.get A.twin).dev_addr) := by
  have hD : (daddr.getD (s.get A).dev_addr).length = ETH_ALEN := by
    cases daddr with
    | none => exact hdev
    | some a => exact hd a rfl
  have hS : (saddr.getD (s.get A).dev_addr).length = ETH_ALEN := by
    cases saddr with
    | none => exact hdev
    | some a => exact hs a rfl
  have hdata := snull_header_data skb (s.get A) type daddr saddr len hal hD hS
  have hF : (flip_low_bit (daddr.getD (s.get A).dev_addr) (ETH_ALEN - 1)).length = ETH_ALEN := by
    simp [flip_low_bit, hD]
  have htake : (snull_header skb (s.get A) type daddr saddr len).2.data.take ETH_ALEN
      = flip_low_bit (daddr.getD (s.get A).dev_addr) (ETH_ALEN - 1) := by
    rw [hdata, List.append_assoc, List.append_assoc, List.take_left' hF]
  obtain ⟨d0, d1, d2, d3, d4, d5, e1⟩ := list_of_length_six _ hF
  obtain ⟨s0, s1, s2, s3, s4, s5, e2⟩ := list_of_length_six _ hS
  refine ⟨rfl, fun n hr => ?_, ?_, ?_, ?_, ?_, htake, ?_⟩
  · simp [snull_header, (link_of_reachable n s hr A).2.2]
  · rw [hdata, e1, e2]
    simp [ETH_HLEN, sk_buff.len]
    omega
  · rw [hdata, e1, e2]
    simp [ETH_HLEN]
  · rw [hdata, e1, e2]
    simp
    omega
  · rw [hdata, e1]
    rw [e2] at hdata ⊢
    simp [ETH_ALEN]
  · intro hnone hA hB
    rw [htake, hnone, Option.getD_none, opened_addr s A hA, opened_addr s A.twin hB]
    cases A <;> simp [flip_low_bit, ETH_ALEN, DevIdx.twin] <;> decide

/-- Witness for C21: a header of type `0x0800` built on `sn0` with no
explicit addresses once both devices are open. -/
theorem header_addresses_the_peer_witness :
    (both_open_state.get DevIdx.sn0).addr_len = ETH_ALEN ∧
    (both_open_state.get DevIdx.sn0).dev_addr.length = ETH_ALEN ∧
    Opened both_open_state DevIdx.sn0 ∧ Opened both_open_state DevIdx.sn0.twin ∧
    (snull_header (sample_skb 100 64) (both_open_state.get DevIdx.sn0) 2048 none none 64).1
      = ETH_HLEN ∧
    (snull_header (sample_skb 100 64) (both_open_state.get DevIdx.sn0) 2048 none none
        64).2.data.take ETH_ALEN
      = (both_open_state.get DevIdx.sn0.twin).dev_addr :=
  ⟨by decide, by decide, by decide, by decide,
    (header_addresses_the_peer both_open_state DevIdx.sn0 (sample_skb 100 64) 2048 none none 64
      (by decide) (by decide) (fun _ h => nomatch h) (fun _ h => nomatch h) (by decide)).2.1 8
      (reachable_run_state 8 _ _ Reachable.init),
    (header_addresses_the_peer both_open_state DevIdx.sn0 (sample_skb 100 64) 2048 none none 64
      (by decide) (by decide) (fun _ h => nomatch h) (fun _ h => nomatch h)
      (by decide)).2.2.2.2.2.2.2 rfl (by decide) (by decide)⟩

end Snull

namespace Scull

/-! ## Following the list -/

theorem follow_loop_spec : ∀ (k i a : Nat) (l : List scull_qset), i < l.length →
    (i + k + 1 - l.length ≤ a ∧
      follow_loop k i a l = (some (i + k),
        l ++ List.replicate (i + k + 1 - l.length) { data := none },
        a - (i + k + 1 - l.length))) ∨
    (∃ m, follow_loop k i a l = (none, l ++ List.replicate m { data := none }, 0))
  | 0, i, a, l, h => Or.inl ⟨by omega, by
      have : i + 0 + 1 - l.length = 0 := by omega
      simp [follow_loop, this]⟩
  | k + 1, i, a, l, h => by
    unfold follow_loop
    by_cases h1 : i + 1 < l.length
    · rw [if_pos h1]
      rcases follow_loop_spec k (i + 1) a l h1 with ⟨h4, h5⟩ | ⟨m, h5⟩
      · have e : i + 1 + k = i + (k + 1) := by omega
        rw [e] at h4 h5
        exact Or.inl ⟨h4, h5⟩
      · exact Or.inr ⟨m, h5⟩
    · rw [if_neg h1]
      cases a with
      | zero => exact Or.inr ⟨0, by simp⟩
      | succ a =>
        simp only
        have hl : i + 1 < (l ++ [({ data := none } : scull_qset)]).length := by simp; omega
        rcases follow_loop_spec k (i + 1) a (l ++ [{ data := none }]) hl with
          ⟨h4, h5⟩ | ⟨m, h5⟩
        · have e : i + 1 + k = i + (k + 1) := by omega
          have e2 : i + (k + 1) + 1 - l.length = (i + (k + 1) + 1 - (l.length + 1)) + 1 := by
            omega
          rw [e] at h4 h5
          simp only [List.length_append, List.length_singleton] at h4 h5
          refine Or.inl ⟨by omega, ?_⟩
          rw [h5, e2]
          simp only [List.append_assoc, Prod.mk.injEq, true_and]
          refine ⟨?_, by omega⟩
          rw [List.replicate_succ]; rfl
        · refine Or.inr ⟨m + 1, ?_⟩
          rw [h5]
          simp only [List.append_assoc, Prod.mk.injEq, true_and, and_true]
          rw [List.replicate_succ]; rfl

theorem follow_loop_present (k i a : Nat) (l : List scull_qset) (h : i + k < l.length) :
    follow_loop k i a l = (some (i + k), l, a) := by
  induction k generalizing i with
  | zero => simp [follow_loop]
  | succ k ih =>
    unfold follow_loop
    rw [if_pos (by omega), ih (i + 1) (by omega)]
    congr 2; omega

theorem follow_loop_enough (k i a : Nat) (l : List scull_qset) (hi : i < l.length)
    (ha : i + k + 1 ≤ l.length + a) :
    ∃ m, m ≤ a ∧ i + k < l.length + m ∧
      follow_loop k i a l = (some (i + k), l ++ List.replicate m { data := none }, a - m) := by
  induction k generalizing i a l with
  | zero => exact ⟨0, Nat.zero_le _, by simpa using hi, by simp [follow_loop]⟩
  | succ k ih =>
    unfold follow_loop
    by_cases h1 : i + 1 < l.length
    · rw [if_pos h1]
      obtain ⟨m, h2, h3, h4⟩ := ih (i + 1) a l h1 (by omega)
      exact ⟨m, h2, by omega, by rw [h4]; congr 2; omega⟩
    · rw [if_neg h1]
      cases a with
      | zero => omega
      | succ a =>
        simp only
        obtain ⟨m, h2, h3, h4⟩ := ih (i + 1) a (l ++ [{ data := none }]) (by simp; omega)
          (by simp; omega)
        refine ⟨m + 1, by omega, by simp at h3; omega, ?_⟩
        rw [h4]
        simp only [List.append_assoc, Prod.mk.injEq]
        refine ⟨by congr 1; omega, ?_, by omega⟩
        rw [List.replicate_succ]; rfl


theorem scull_follow_spec (avail : Nat) (dev : scull_dev) (n : Int) :
    ((n % 4294967296).toNat + 1 - dev.data.length ≤ avail ∧
      scull_follow avail dev n = (some (n % 4294967296).toNat,
        { dev with data := dev.data ++
            List.replicate ((n % 4294967296).toNat + 1 - dev.data.length) { data := none } },
        avail - ((n % 4294967296).toNat + 1 - dev.data.length))) ∨
    (∃ m, scull_follow avail dev n =
      (none, { dev with data := dev.data ++ List.replicate m { data := none } }, 0)) := by
  unfold scull_follow
  generalize (n % 4294967296).toNat = k
  cases hd : dev.data with
  | nil =>
    cases avail with
    | zero =>
      refine Or.inr ⟨0, ?_⟩
      simp only [List.replicate_zero, List.append_nil]
      cases dev; simp_all
    | succ a =>
      simp only
      rcases follow_loop_spec k 0 a [{ data := none }] (by simp) with ⟨h4, h5⟩ | ⟨m, h5⟩
      · refine Or.inl ⟨by simp at h4 ⊢; omega, ?_⟩
        rw [h5]
        simp only [Nat.zero_add, List.length_singleton, List.length_nil, Nat.sub_zero,
          List.nil_append, Nat.add_sub_cancel, Prod.mk.injEq, true_and]
        refine ⟨?_, by omega⟩
        rw [List.replicate_succ]; rfl
      · refine Or.inr ⟨m + 1, ?_⟩
        rw [h5]
        simp only [List.nil_append, Prod.mk.injEq, true_and, and_true]
        rw [List.replicate_succ]; rfl
  | cons q l =>
    simp only
    rcases follow_loop_spec k 0 avail (q :: l) (by simp) with ⟨h4, h5⟩ | ⟨m, h5⟩
    · simp only [Nat.zero_add] at h4 h5
      exact Or.inl ⟨h4, by rw [h5]⟩
    · exact Or.inr ⟨m, by rw [h5]⟩

theorem scull_follow_present (avail : Nat) (dev : scull_dev) (n : Int)
    (h : (n % 4294967296).toNat < dev.data.length) :
    scull_follow avail dev n = (some (n % 4294967296).toNat, dev, avail) := by
  unfold scull_follow
  cases hd : dev.data with
  | nil => rw [hd] at h; simp at h
  | cons q l =>
    simp only
    rw [follow_loop_present _ 0 avail (q :: l) (by rw [hd] at h; simpa using h)]
    simp only [Nat.zero_add, Prod.mk.injEq, true_and, and_true]
    cases dev; simp_all

theorem scull_follow_enough (avail : Nat) (dev : scull_dev) (n : Int)
    (h : (n % 4294967296).toNat + 1 ≤ dev.data.length + avail) :
    scull_follow avail dev n = (some (n % 4294967296).toNat,
      { dev with data := dev.data ++
          List.replicate ((n % 4294967296).toNat + 1 - dev.data.length) { data := none } },
      avail - ((n % 4294967296).toNat + 1 - dev.data.length)) := by
  unfold scull_follow
  revert h
  generalize (n % 4294967296).toNat = k
  intro h
  cases hd : dev.data with
  | nil =>
    cases avail with
    | zero => simp [hd] at h
    | succ a =>
      simp only
      rcases follow_loop_spec k 0 a [{ data := none }] (by simp) with ⟨h4, h5⟩ | ⟨m, h5⟩
      · rw [h5]
        simp only [Nat.zero_add, List.length_singleton, List.length_nil, Nat.sub_zero,
          List.nil_append, Nat.add_sub_cancel, Prod.mk.injEq, true_and]
        simp only [Nat.zero_add, List.length_singleton, Nat.add_sub_cancel] at h4
        refine ⟨?_, by omega⟩
        rw [List.replicate_succ]; rfl
      · obtain ⟨m', _, _, h6⟩ := follow_loop_enough k 0 a [{ data := none }] (by simp)
          (by simp [hd] at h ⊢; omega)
        rw [h6] at h5
        simp at h5
  | cons q l =>
    simp only
    rcases follow_loop_spec k 0 avail (q :: l) (by simp) with ⟨h4, h5⟩ | ⟨m, h5⟩
    · simp only [Nat.zero_add] at h4 h5
      rw [h5]
    · obtain ⟨m', _, _, h6⟩ := follow_loop_enough k 0 avail (q :: l) (by simp)
        (by rw [hd] at h; simpa using h)
      rw [h6] at h5
      simp at h5


theorem scull_follow_some (avail : Nat) (dev dev1 : scull_dev) (n : Int) (i a1 : Nat)
    (h : scull_follow avail dev n = (some i, dev1, a1)) :
    i = (n % 4294967296).toNat ∧
    dev1 = { dev with data := dev.data ++
               List.replicate ((n % 4294967296).toNat + 1 - dev.data.length) { data := none } } ∧
    (n % 4294967296).toNat + 1 - dev.data.length ≤ avail ∧
    a1 = avail - ((n % 4294967296).toNat + 1 - dev.data.length) := by
  rcases scull_follow_spec avail dev n with ⟨h1, h2⟩ | ⟨m, h2⟩
  · rw [h2] at h
    simp only [Prod.mk.injEq, Option.some.injEq] at h
    exact ⟨h.1.symm, h.2.1.symm, h1, h.2.2.symm⟩
  · rw [h2] at h
    simp at h

/-! ## What a successful write does -/

theorem write_inv (avail : Nat) (junk : List Nat) (dev : scull_dev) (buf : List Nat)
    (count p : Nat) (n : Int) (p1 : Nat) (dev' : scull_dev)
    (h : scull_write avail junk dev buf count p = .ok (n, p1, dev')) (hn : 0 ≤ n) :
    ∃ item s_pos q_pos i dev1 a1 dptr arr a2 q a3 c,
      scull_locate dev p = .ok (item, s_pos, q_pos) ∧
      scull_follow avail dev item = (some i, dev1, a1) ∧
      dev1.data[i]? = some dptr ∧
      kmalloc_qset a1 dev.qset dptr = some (arr, a2) ∧
      0 ≤ s_pos ∧ s_pos < arr.length ∧
      kmalloc_quantum a2 junk dev.quantum (arr.getD s_pos.toNat none) = some (q, a3) ∧
      c = (if count > to_ulong (dev.quantum - q_pos) then to_ulong (dev.quantum - q_pos)
            else count) ∧
      (0 < c → 0 ≤ q_pos ∧ q_pos + c ≤ q.length) ∧
      c ≤ buf.length ∧
      n = c ∧ p1 = p + c ∧
      dev' = { dev1 with
        data := dev1.data.set i { data := some (arr.set s_pos.toNat
          (some (q.take q_pos.toNat ++ buf.take c ++ q.drop (q_pos.toNat + c)))) }
        size := if dev.size < p + c then p + c else dev.size } := by
  unfold scull_write at h
  split at h
  · cases h
  · rename_i item s_pos q_pos hloc
    split at h
    · simp only [Except.ok.injEq, Prod.mk.injEq] at h
      rw [← h.1] at hn
      simp [ENOMEM] at hn
    · rename_i i dev1 a1 hfol
      split at h
      · cases h
      · rename_i dptr hd
        split at h
        · simp only [Except.ok.injEq, Prod.mk.injEq] at h
          rw [← h.1] at hn
          simp [ENOMEM] at hn
        · rename_i arr a2 hq
          split at h
          · cases h
          · rename_i hs
            split at h
            · simp only [Except.ok.injEq, Prod.mk.injEq] at h
              rw [← h.1] at hn
              simp [ENOMEM] at hn
            · rename_i q a3 hqu
              simp only at h
              generalize hc : (if count > to_ulong (dev.quantum - q_pos)
                then to_ulong (dev.quantum - q_pos) else count) = c at h
              split at h
              · cases h
              · rename_i hb
                split at h
                · simp only [Except.ok.injEq, Prod.mk.injEq] at h
                  rw [← h.1] at hn
                  simp [EFAULT] at hn
                · rename_i hlen
                  simp only [Except.ok.injEq, Prod.mk.injEq] at h
                  obtain ⟨h1, h2, h3⟩ := h
                  push_neg at hs hb hlen
                  refine ⟨item, s_pos, q_pos, i, dev1, a1, dptr, arr, a2, q, a3, c, hloc, hfol, hd,
                    hq, hs.1, hs.2, hqu, hc.symm, ?_, hlen, h1.symm, h2.symm, ?_⟩
                  · intro hc0
                    have := hb hc0
                    omega
                  · rw [← h3]
                    simp [Nat.sub_eq_zero_of_le hlen]


/-! ## C23: reading back what was written -/

theorem take_drop_middle (q src : List Nat) (a c : Nat) (hc : src.length = c)
    (ha : a + c ≤ q.length) :
    ((q.take a ++ src ++ q.drop (a + c)).drop a).take c = src := by
  have h1 : (q.take a).length = a := by simp; omega
  rw [List.append_assoc, List.drop_left' h1, List.take_left' hc]

theorem middle_length (q src : List Nat) (a c : Nat) (hc : src.length = c)
    (ha : a + c ≤ q.length) :
    (q.take a ++ src ++ q.drop (a + c)).length = q.length := by
  simp [hc]; omega

theorem read_after_write (avail : Nat) (junk : List Nat) (dev : scull_dev) (buf : List Nat)
    (count p n p1 : Nat) (dev1 : scull_dev)
    (hw : scull_write avail junk dev buf count p = .ok ((n : Int), p1, dev1)) (hn : 0 < n)
    (avail' : Nat) (ubuf : List Nat) (hu : n ≤ ubuf.length) :
    p1 = p + n ∧ n ≤ count ∧ n ≤ buf.length ∧
    scull_read avail' dev1 ubuf n p = .ok ((n : Int), p + n, buf.take n ++ ubuf.drop n, dev1) := by
  obtain ⟨item, s_pos, q_pos, i, d1, a1, dptr, arr, a2, q, a3, c, hloc, hfol, hd, hq, hs0, hs1,
    hqu, hc, hb, hlen, hnc, hp1, hdev⟩ := write_inv avail junk dev buf count p n p1 dev1 hw
      (by omega)
  have hcn : c = n := by exact_mod_cast hnc.symm
  subst hcn
  obtain ⟨hq0, hq1⟩ := hb hn
  obtain ⟨hi, hd1, _, _⟩ := scull_follow_some avail dev d1 item i a1 hfol
  have hilt : i < d1.data.length := by
    rcases Nat.lt_or_ge i d1.data.length with h | h
    · exact h
    · rw [List.getElem?_eq_none h] at hd; cases hd
  have hquant : d1.quantum = dev.quantum := by rw [hd1]
  have hqset : d1.qset = dev.qset := by rw [hd1]
  have hloc1 : scull_locate dev1 p = .ok (item, s_pos, q_pos) := by
    rw [← hloc, hdev]
    simp only [scull_locate, hquant, hqset]
  have hcle : c ≤ to_ulong (dev.quantum - q_pos) := by
    rw [hc]; split <;> omega
  have hccount : c ≤ count := by
    rw [hc]; split <;> omega
  have hsize : p + c ≤ dev1.size := by
    rw [hdev]; simp only; split <;> omega
  have hlen1 : i < dev1.data.length := by rw [hdev]; simpa using hilt
  have hfol1 : scull_follow avail' dev1 item = (some i, dev1, avail') := by
    rw [hi]; exact scull_follow_present avail' dev1 item (by rw [← hi]; exact hlen1)
  have hget : dev1.data[i]? = some { data := some (arr.set s_pos.toNat
      (some (q.take q_pos.toNat ++ buf.take c ++ q.drop (q_pos.toNat + c)))) } := by
    rw [hdev]
    exact List.getElem?_set_self hilt
  have hsn : s_pos.toNat < arr.length := by omega
  have hqn : q_pos.toNat + c ≤ q.length := by omega
  have htl : (buf.take c).length = c := by simp; omega
  refine ⟨hp1, hccount, hlen, ?_⟩
  have hsz : ¬ p ≥ dev1.size := by omega
  have hq1len : (q.take q_pos.toNat ++ buf.take c ++ q.drop (q_pos.toNat + c)).length
      = q.length := middle_length _ _ _ _ htl hqn
  have hdq : dev1.quantum = dev.quantum := by rw [hdev]; exact hquant
  clear hdev
  unfold scull_read
  rw [if_neg hsz]
  simp only [hloc1, hfol1, hget]
  rw [if_neg (by omega : ¬ p + c > dev1.size)]
  rw [if_neg (by simp only [List.length_set]; omega)]
  simp only [List.getD_eq_getElem?_getD, List.getElem?_set_self hsn, Option.getD_some]
  have hcl : (if c > to_ulong (dev.quantum - q_pos) then to_ulong (dev.quantum - q_pos) else c)
      = c := if_neg (by omega)
  rw [hdq]
  simp only [hcl]
  rw [if_neg (by rw [hq1len]; omega)]
  rw [if_neg (by omega)]
  rw [take_drop_middle _ _ _ _ htl hqn, List.take_of_length_le (by omega)]


/-! ## Positions whose item index fits in an `int` -/

theorem to_int_of_range (x : Int) (h0 : -2147483648 ≤ x) (h1 : x < 2147483648) :
    to_int x = x := by
  unfold to_int; omega

theorem to_ulong_of_range (x : Int) (h0 : 0 ≤ x) (h1 : x < 18446744073709551616) :
    to_ulong x = x.toNat := by
  unfold to_ulong
  rw [Int.emod_eq_of_lt h0 h1]

theorem locate_in_range (dev : scull_dev) (p Qn Sn : Nat)
    (hq : dev.quantum = Qn) (hs : dev.qset = Sn) (hQ : 0 < Qn) (hS : 0 < Sn)
    (hsz : Qn * Sn < 2147483648) (hit : p / (Qn * Sn) < 2147483648) :
    scull_locate dev p = .ok (((p / (Qn * Sn) : Nat) : Int),
      ((p % (Qn * Sn) / Qn : Nat) : Int), ((p % (Qn * Sn) % Qn : Nat) : Int)) := by
  have hpos : 0 < Qn * Sn := Nat.mul_pos hQ hS
  have e1 : to_int ((Qn : Int) * (Sn : Int)) = ((Qn * Sn : Nat) : Int) := by
    rw [to_int_of_range] <;> push_cast <;> [rfl; nlinarith; exact_mod_cast hsz]
  have e2 : to_int (Int.tdiv (p : Int) ((Qn * Sn : Nat) : Int)) = ((p / (Qn * Sn) : Nat) : Int) := by
    have h0 := Int.ofNat_zero_le (p / (Qn * Sn))
    rw [← Int.ofNat_tdiv, to_int_of_range] <;> omega
  have hr : p % (Qn * Sn) < 2147483648 := lt_trans (Nat.mod_lt _ hpos) hsz
  have e3 : to_int (Int.tmod (p : Int) ((Qn * Sn : Nat) : Int)) = ((p % (Qn * Sn) : Nat) : Int) := by
    have h0 := Int.ofNat_zero_le (p % (Qn * Sn))
    rw [← Int.ofNat_tmod, to_int_of_range] <;> omega
  unfold scull_locate
  simp only [hq, hs, e1, e2, e3]
  rw [if_neg (by exact_mod_cast hpos.ne'), if_neg (by exact_mod_cast hQ.ne')]
  rw [← Int.ofNat_tdiv, ← Int.ofNat_tmod]


/-! ## The bytes a write stores and the bytes it leaves alone -/

theorem splice_inside (q src : List Nat) (a c k : Nat) (hc : src.length = c)
    (ha : a + c ≤ q.length) (hk : k < c) :
    (q.take a ++ src ++ q.drop (a + c))[a + k]? = src[k]? := by
  have h1 : (q.take a).length = a := by simp; omega
  rw [List.append_assoc, List.getElem?_append_right (by omega), h1,
    List.getElem?_append_left (by omega)]
  congr 1; omega

theorem splice_outside (q src : List Nat) (a c k : Nat) (hc : src.length = c)
    (ha : a + c ≤ q.length) (hk : k < a ∨ a + c ≤ k) :
    (q.take a ++ src ++ q.drop (a + c))[k]? = q[k]? := by
  have h1 : (q.take a).length = a := by simp; omega
  rcases hk with hk | hk
  · rw [List.append_assoc, List.getElem?_append_left (by omega), List.getElem?_take_of_lt hk]
  · rw [List.getElem?_append_right (by simp; omega), List.getElem?_drop]
    congr 1
    simp only [List.length_append, h1, hc]
    omega

theorem kmalloc_qset_some (a1 a2 : Nat) (qset : Int) (dptr : scull_qset)
    (arr : List (Option (List Nat))) (h : kmalloc_qset a1 qset dptr = some (arr, a2)) :
    dptr.data = some arr ∨
      (dptr.data = none ∧ 0 ≤ qset ∧ arr = List.replicate qset.toNat none) := by
  unfold kmalloc_qset at h
  split at h
  · rename_i arr0 h0
    simp only [Option.some.injEq, Prod.mk.injEq] at h
    exact Or.inl (by rw [h0, h.1])
  · rename_i h0
    split at h
    · cases h
    · rename_i hq
      split at h
      · cases h
      · simp only [Option.some.injEq, Prod.mk.injEq] at h
        exact Or.inr ⟨h0, by omega, h.1.symm⟩

theorem kmalloc_quantum_some (a2 a3 : Nat) (junk : List Nat) (quantum : Int)
    (slot : Option (List Nat)) (q : List Nat)
    (h : kmalloc_quantum a2 junk quantum slot = some (q, a3)) :
    slot = some q ∨ (slot = none ∧ 0 ≤ quantum ∧ q.length = quantum.toNat) := by
  unfold kmalloc_quantum at h
  split at h
  · simp only [Option.some.injEq, Prod.mk.injEq] at h
    exact Or.inl (by rw [h.1])
  · split at h
    · cases h
    · rename_i hq
      split at h
      · cases h
      · simp only [Option.some.injEq, Prod.mk.injEq] at h
        exact Or.inr ⟨rfl, by omega, by rw [← h.1]; simp⟩


theorem write_effect (avail : Nat) (junk : List Nat) (dev : scull_dev) (buf : List Nat)
    (count p : Nat) (n : Int) (p1 : Nat) (dev1 : scull_dev)
    (h : scull_write avail junk dev buf count p = .ok (n, p1, dev1)) (hn : 0 ≤ n) :
    ∃ item s_pos q_pos c,
      scull_locate dev p = .ok (item, s_pos, q_pos) ∧
      c = (if count > to_ulong (dev.quantum - q_pos) then to_ulong (dev.quantum - q_pos)
            else count) ∧
      n = c ∧ p1 = p + c ∧ c ≤ buf.length ∧
      dev1.size = (if dev.size < p + c then p + c else dev.size) ∧
      dev1.quantum = dev.quantum ∧ dev1.qset = dev.qset ∧
      0 ≤ s_pos ∧ (0 < c → 0 ≤ q_pos) ∧
      (∀ k, k < c →
        stored dev1 (item % 4294967296).toNat s_pos.toNat (q_pos.toNat + k) = buf[k]?) ∧
      (∀ i s k b, ¬ (i = (item % 4294967296).toNat ∧ s = s_pos.toNat ∧
          q_pos.toNat ≤ k ∧ k < q_pos.toNat + c) →
        stored dev i s k = some b → stored dev1 i s k = some b) := by
  obtain ⟨item, s_pos, q_pos, i, d1, a1, dptr, arr, a2, q, a3, c, hloc, hfol, hd, hq, hs0, hs1,
    hqu, hc, hb, hlen, hnc, hp1, hdev⟩ := write_inv avail junk dev buf count p n p1 dev1 h hn
  obtain ⟨hi, hd1, _, _⟩ := scull_follow_some avail dev d1 item i a1 hfol
  have hilt : i < d1.data.length := by
    rcases Nat.lt_or_ge i d1.data.length with h | h
    · exact h
    · rw [List.getElem?_eq_none h] at hd; cases hd
  have hsn : s_pos.toNat < arr.length := by omega
  have htl : (buf.take c).length = c := by simp; omega
  have hget : dev1.data[i]? = some { data := some (arr.set s_pos.toNat
      (some (q.take q_pos.toNat ++ buf.take c ++ q.drop (q_pos.toNat + c)))) } := by
    rw [hdev]
    exact List.getElem?_set_self hilt
  have hgetne : ∀ j, j ≠ i → dev1.data[j]? = d1.data[j]? := by
    intro j hj
    rw [hdev]
    exact List.getElem?_set_ne (Ne.symm hj)
  have hold : ∀ (j : Nat) (qs : scull_qset), dev.data[j]? = some qs → d1.data[j]? = some qs := by
    intro j qs hj
    have hjl : j < dev.data.length := by
      rcases Nat.lt_or_ge j dev.data.length with h | h
      · exact h
      · rw [List.getElem?_eq_none h] at hj; cases hj
    rw [hd1]
    simp only
    rw [List.getElem?_append_left hjl, hj]
  refine ⟨item, s_pos, q_pos, c, hloc, hc, hnc, hp1, hlen, by rw [hdev], by rw [hdev, hd1],
    by rw [hdev, hd1], hs0, fun h0 => (hb h0).1, ?_, ?_⟩
  · intro k hk
    have hc0 : 0 < c := by omega
    obtain ⟨hq0, hq1⟩ := hb hc0
    have hqn : q_pos.toNat + c ≤ q.length := by omega
    rw [← hi]
    simp only [stored, hget, Option.some_bind, List.getElem?_set_self hsn]
    rw [splice_inside _ _ _ _ _ htl hqn hk, List.getElem?_take_of_lt hk]
  · intro j s k b hne hst
    by_cases hj : j = i
    · subst hj
      cases hdj : dev.data[j]? with
      | none => simp [stored, hdj] at hst
      | some qs =>
        have e := hold j qs hdj
        rw [hd] at e
        cases e
        cases hda : dptr.data with
        | none => simp [stored, hdj, hda] at hst
        | some arr0 =>
          have harr : arr = arr0 := by
            rcases kmalloc_qset_some _ _ _ _ _ hq with h1 | h1
            · rw [hda] at h1; cases h1; rfl
            · rw [hda] at h1; cases h1.1
          subst harr
          simp only [stored, hdj, hda, Option.some_bind] at hst
          simp only [stored, hget, Option.some_bind]
          by_cases hs : s = s_pos.toNat
          · subst hs
            rw [List.getElem?_set_self hsn]
            cases hsl : arr[s_pos.toNat]? with
            | none => simp [hsl] at hst
            | some slot =>
              cases slot with
              | none => simp [hsl] at hst
              | some q0 =>
                simp only [hsl, Option.some_bind] at hst
                have hqq : q = q0 := by
                  have e2 : arr.getD s_pos.toNat none = some q0 := by
                    simp [List.getD_eq_getElem?_getD, hsl]
                  rw [e2] at hqu
                  rcases kmalloc_quantum_some _ _ _ _ _ _ hqu with h1 | h1
                  · cases h1; rfl
                  · cases h1.1
                subst hqq
                simp only [Option.some_bind]
                rw [← hst]
                by_cases hc0 : 0 < c
                · obtain ⟨hq0, hq1⟩ := hb hc0
                  apply splice_outside _ _ _ _ _ htl (by omega)
                  rw [← hi] at hne
                  simp only [true_and] at hne
                  omega
                · have hc00 : c = 0 := by omega
                  subst hc00
                  simp
          · rw [List.getElem?_set_ne (Ne.symm hs)]
            exact hst
    · cases hdj : dev.data[j]? with
      | none => simp [stored, hdj] at hst
      | some qs =>
        simp only [stored, hdj, Option.some_bind] at hst
        simp only [stored, hgetne j hj, hold j qs hdj, Option.some_bind]
        exact hst


/-! ## Well-formed devices -/

theorem wellFormed_init (scull_quantum scull_qset : Int) :
    WellFormed (scull_init_dev scull_quantum scull_qset) := by
  intro qs hqs
  simp [scull_init_dev] at hqs

theorem wellFormed_follow (avail : Nat) (dev dev1 : scull_dev) (n : Int) (i a1 : Nat)
    (h : scull_follow avail dev n = (some i, dev1, a1)) (hwf : WellFormed dev) :
    WellFormed dev1 := by
  obtain ⟨_, hd1, _, _⟩ := scull_follow_some avail dev dev1 n i a1 h
  intro qs hqs arr harr
  rw [hd1] at hqs
  simp only [List.mem_append, List.mem_replicate] at hqs
  rcases hqs with hqs | ⟨_, hqs⟩
  · have := hwf qs hqs arr harr
    rw [hd1]
    exact this
  · rw [hqs] at harr
    cases harr

theorem wellFormed_write (avail : Nat) (junk : List Nat) (dev : scull_dev) (buf : List Nat)
    (count p : Nat) (n : Int) (p1 : Nat) (dev1 : scull_dev)
    (h : scull_write avail junk dev buf count p = .ok (n, p1, dev1)) (hn : 0 ≤ n)
    (hwf : WellFormed dev) : WellFormed dev1 := by
  obtain ⟨item, s_pos, q_pos, i, d1, a1, dptr, arr, a2, q, a3, c, hloc, hfol, hd, hq, hs0, hs1,
    hqu, hc, hb, hlen, hnc, hp1, hdev⟩ := write_inv avail junk dev buf count p n p1 dev1 h hn
  have hwf1 := wellFormed_follow avail dev d1 item i a1 hfol hwf
  obtain ⟨_, hd1, _, _⟩ := scull_follow_some avail dev d1 item i a1 hfol
  have hquant : d1.quantum = dev.quantum := by rw [hd1]
  have hqset : d1.qset = dev.qset := by rw [hd1]
  have hdmem : dptr ∈ d1.data := List.getElem?_mem hd
  have harr : (arr.length : Int) = dev.qset ∧ ∀ q0, some q0 ∈ arr → (q0.length : Int) = dev.quantum := by
    rcases kmalloc_qset_some _ _ _ _ _ hq with h1 | ⟨_, h2, h3⟩
    · have := hwf1 dptr hdmem arr h1
      rw [hquant, hqset] at this
      exact this
    · rw [h3]
      refine ⟨by simp; omega, ?_⟩
      intro q0 hq0
      simp [List.mem_replicate] at hq0
  have hsn : s_pos.toNat < arr.length := by omega
  have hql : (q.length : Int) = dev.quantum := by
    rcases kmalloc_quantum_some _ _ _ _ _ _ hqu with h1 | ⟨_, h2, h3⟩
    · apply harr.2
      rw [List.getD_eq_getElem?_getD] at h1
      cases hsl : arr[s_pos.toNat]? with
      | none => simp [hsl] at h1
      | some slot =>
        simp only [hsl, Option.getD_some] at h1
        rw [h1] at hsl
        exact List.getElem?_mem hsl
    · omega
  have hq1l : (q.take q_pos.toNat ++ buf.take c ++ q.drop (q_pos.toNat + c)).length
      = q.length := by
    by_cases hc0 : 0 < c
    · obtain ⟨hq0, hq1⟩ := hb hc0
      exact middle_length _ _ _ _ (by simp; omega) (by omega)
    · have : c = 0 := by omega
      subst this
      simp
  intro qs hqs arr1 harr1
  rw [hdev] at hqs ⊢
  simp only at hqs ⊢
  rw [hquant, hqset]
  rcases List.mem_or_eq_of_mem_set hqs with hm | hm
  · have := hwf1 qs hm arr1 harr1
    rw [hquant, hqset] at this
    exact this
  · rw [hm] at harr1
    simp only [Option.some.injEq] at harr1
    subst harr1
    refine ⟨by simpa using harr.1, ?_⟩
    intro q0 hq0
    rcases List.mem_or_eq_of_mem_set hq0 with hm2 | hm2
    · exact harr.2 q0 hm2
    · simp only [Option.some.injEq] at hm2
      rw [hm2, hq1l]
      exact hql


/-! ## A write with enough memory succeeds -/

theorem write_succeeds (avail : Nat) (junk : List Nat) (dev : scull_dev) (buf : List Nat)
    (count p Qn Sn : Nat)
    (hq : dev.quantum = Qn) (hs : dev.qset = Sn) (hQ : 0 < Qn) (hS : 0 < Sn)
    (hsz : Qn * Sn < 2147483648) (hit : p / (Qn * Sn) < 2147483648)
    (hwf : WellFormed dev) (hbuf : count ≤ buf.length) (hav : p / (Qn * Sn) + 3 ≤ avail) :
    ∃ n p1 dev1, scull_write avail junk dev buf count p = .ok (n, p1, dev1) ∧ 0 ≤ n := by
  have hloc := locate_in_range dev p Qn Sn hq hs hQ hS hsz hit
  have hpos : 0 < Qn * Sn := Nat.mul_pos hQ hS
  have hI : (((p / (Qn * Sn) : Nat) : Int) % 4294967296).toNat = p / (Qn * Sn) := by
    generalize p / (Qn * Sn) = I at hit
    omega
  have hfol := scull_follow_enough avail dev ((p / (Qn * Sn) : Nat) : Int) (by rw [hI]; omega)
  rw [hI] at hfol
  have hslt : p % (Qn * Sn) / Qn < Sn := by
    apply Nat.div_lt_of_lt_mul
    exact Nat.mod_lt _ hpos
  have hqlt : p % (Qn * Sn) % Qn < Qn := Nat.mod_lt _ hQ
  unfold scull_write
  rw [hloc]
  simp only
  rw [hfol]
  simp only
  have hwf1 := wellFormed_follow avail dev _ _ _ _ hfol hwf
  have hLwf : ∀ qs ∈ dev.data ++
      List.replicate (p / (Qn * Sn) + 1 - dev.data.length) ({ data := none } : scull_qset),
      ∀ arr, qs.data = some arr →
        (arr.length : Int) = Sn ∧ ∀ q0, some q0 ∈ arr → (q0.length : Int) = Qn := by
    intro qs hqs arr harr
    have := hwf1 qs hqs arr harr
    simp only [hq, hs] at this
    exact this
  have hilt : p / (Qn * Sn) < (dev.data ++
      List.replicate (p / (Qn * Sn) + 1 - dev.data.length)
        ({ data := none } : scull_qset)).length := by
    simp; omega
  clear hwf1 hfol
  generalize dev.data ++
    List.replicate (p / (Qn * Sn) + 1 - dev.data.length) ({ data := none } : scull_qset) = L
    at hLwf hilt ⊢
  rw [List.getElem?_eq_getElem hilt]
  simp only
  have hmem : L[p / (Qn * Sn)] ∈ L := List.getElem_mem hilt
  generalize L[p / (Qn * Sn)] = dptr at hmem ⊢
  generalize ha1 : avail - (p / (Qn * Sn) + 1 - dev.data.length) = a1
  have ha1' : 2 ≤ a1 := by omega
  -- the quantum array
  have hqs : ∃ arr a2, kmalloc_qset a1 dev.qset dptr = some (arr, a2) ∧ 1 ≤ a2 ∧
      arr.length = Sn ∧ ∀ q0, some q0 ∈ arr → q0.length = Qn := by
    cases hda : dptr.data with
    | some arr =>
      have := hLwf dptr hmem arr hda
      refine ⟨arr, a1, by simp [kmalloc_qset, hda], by omega, by exact_mod_cast this.1, ?_⟩
      intro q0 hq0
      exact_mod_cast this.2 q0 hq0
    | none =>
      obtain ⟨a, rfl⟩ : ∃ a, a1 = a + 1 := ⟨a1 - 1, by omega⟩
      refine ⟨List.replicate Sn none, a, ?_, by omega, by simp, ?_⟩
      · simp [kmalloc_qset, hda, hs]
      · intro q0 hq0
        simp [List.mem_replicate] at hq0
  obtain ⟨arr, a2, hk1, ha2, harrl, harrq⟩ := hqs
  rw [hk1]
  simp only
  rw [if_neg (by rw [harrl]; push_neg; exact ⟨Int.ofNat_zero_le _, by exact_mod_cast hslt⟩)]
  have hqu : ∃ q a3, kmalloc_quantum a2 junk dev.quantum
      (arr.getD ((p % (Qn * Sn) / Qn : Nat) : Int).toNat none) = some (q, a3) ∧
      q.length = Qn := by
    cases hsl : arr.getD ((p % (Qn * Sn) / Qn : Nat) : Int).toNat none with
    | some q0 =>
      refine ⟨q0, a2, by simp [kmalloc_quantum], ?_⟩
      apply harrq
      rw [← hsl, List.getD_eq_getElem?_getD, Int.toNat_ofNat,
        List.getElem?_eq_getElem (by omega), Option.getD_some]
      exact List.getElem_mem _
    | none =>
      obtain ⟨a, rfl⟩ : ∃ a, a2 = a + 1 := ⟨a2 - 1, by omega⟩
      exact ⟨(List.range Qn).map (fun k => junk.getD k 0), a, by simp [kmalloc_quantum, hq],
        by simp⟩
  obtain ⟨q, a3, hk2, hql⟩ := hqu
  rw [hk2]
  simp only
  have hroom : to_ulong (dev.quantum - ((p % (Qn * Sn) % Qn : Nat) : Int))
      = Qn - p % (Qn * Sn) % Qn := by
    have hQlt : Qn < 2147483648 := lt_of_le_of_lt (Nat.le_mul_of_pos_right Qn hS) hsz
    generalize p % (Qn * Sn) % Qn = r at hqlt
    rw [hq, to_ulong_of_range _ (by omega) (by omega)]
    omega
  rw [hroom]
  generalize p % (Qn * Sn) % Qn = r at hqlt ⊢
  generalize hc : (if count > Qn - r then Qn - r else count) = c
  have hcle : c ≤ Qn - r := by rw [← hc]; split <;> omega
  have hcc : c ≤ count := by rw [← hc]; split <;> omega
  rw [if_neg (by rw [hql]; push_neg; intro _; exact ⟨by omega, by omega⟩)]
  rw [if_neg (by omega)]
  exact ⟨_, _, _, rfl, by omega⟩


/-! ## C23: byte-store round trip -/

/-- C23 (byte-store round trip).  For every device `dev`, position `p` and
user data `buf`: if `scull_write` of the whole of `buf` at `p` returns
`n > 0`, then it leaves the position at `p + n`, and a `scull_read` of `n`
bytes at `p` on the device it leaves, into a user buffer `ubuf` that can
take `n` bytes, returns `n`, leaves the position at `p + n` and the device as
it is, and puts the first `n` bytes of `buf` at the start of `ubuf`.  This
holds whatever memory the calls may allocate (`avail`, `avail'`) and
whatever a fresh quantum contains (`junk`). -/
theorem byte_store_round_trip (avail : Nat) (junk : List Nat) (dev : scull_dev)
    (buf : List Nat) (p n p1 : Nat) (dev1 : scull_dev)
    (hw : scull_write avail junk dev buf buf.length p = .ok ((n : Int), p1, dev1))
    (hn : 0 < n) (avail' : Nat) (ubuf : List Nat) (hu : n ≤ ubuf.length) :
    p1 = p + n ∧ n ≤ buf.length ∧
    ∃ ubuf1, scull_read avail' dev1 ubuf n p = .ok ((n : Int), p + n, ubuf1, dev1) ∧
      ubuf1.length = ubuf.length ∧ ubuf1.take n = buf.take n := by
  obtain ⟨h1, _, h3, h4⟩ := read_after_write avail junk dev buf buf.length p n p1 dev1 hw hn
    avail' ubuf hu
  refine ⟨h1, h3, _, h4, ?_, ?_⟩
  · simp; omega
  · rw [List.take_left' (by simp; omega)]

/-- Witness for C23: six bytes written two bytes before the end of the
second quantum of the sample device; the write stores two of them, and they
are read back. -/
theorem byte_store_round_trip_witness :
    scull_write 5 [] sample_dev sample_buf sample_buf.length 7998 =
      .ok (((2 : Nat) : Int), 8000, write_state sample_dev
        (scull_write 5 [] sample_dev sample_buf sample_buf.length 7998)) ∧
    ∃ ubuf1, scull_read 0 (write_state sample_dev
        (scull_write 5 [] sample_dev sample_buf sample_buf.length 7998)) [0, 0, 0] 2 7998
      = .ok (((2 : Nat) : Int), 7998 + 2, ubuf1, write_state sample_dev
        (scull_write 5 [] sample_dev sample_buf sample_buf.length 7998)) ∧
      ubuf1.length = [0, 0, 0].length ∧ ubuf1.take 2 = sample_buf.take 2 :=
  ⟨by decide!,
    (byte_store_round_trip 5 [] sample_dev sample_buf 7998 2 8000 _ (by decide!) (by decide) 0
      [0, 0, 0] (by decide)).2.2⟩


/-! ## C24: a write stays inside one quantum -/

theorem split_position (p Qn Sn : Nat) :
    p = p / (Qn * Sn) * (Qn * Sn) + p % (Qn * Sn) / Qn * Qn + p % (Qn * Sn) % Qn := by
  have h1 := Nat.div_add_mod p (Qn * Sn)
  have h2 := Nat.div_add_mod (p % (Qn * Sn)) Qn
  rw [Nat.mul_comm] at h1 h2
  omega

/-- Writes whose item index fits in an `int` stay inside one quantum and
only grow the size.  Let `dev` be a well-formed device with positive `quantum` and
`qset` whose product is below `2^31`, and `p` a position with
`p / (quantum * qset)` below `2^31`.  Then the `item`, `s_pos` and `q_pos`
the code computes are naturals with
`p = item * (quantum * qset) + s_pos * quantum + q_pos`, `s_pos < qset` and
`q_pos < quantum`; a write of `count` bytes that the user buffer holds
succeeds when `item + 3` allocations succeed; and every write that returns
`n ≥ 0` returns `n = min count (quantum - q_pos)`, leaves the position at
`p + n` and the size at the larger of the old size and `p + n`, keeps
`quantum`, `qset` and well-formedness, stores the first `n` bytes of `buf`
at offsets `q_pos ..` of quantum `s_pos` of item `item`, and leaves every
byte stored anywhere else as it was. -/
theorem write_stays_in_one_quantum (avail : Nat) (junk : List Nat) (dev : scull_dev)
    (buf : List Nat) (count p : Nat)
    (hwf : WellFormed dev) (hQ : 0 < dev.quantum) (hS : 0 < dev.qset)
    (hsz : dev.quantum * dev.qset < 2147483648)
    (hit : (p : Int) / (dev.quantum * dev.qset) < 2147483648) :
    ∃ item s_pos q_pos : Nat,
      scull_locate dev p = .ok ((item : Int), (s_pos : Int), (q_pos : Int)) ∧
      (p : Int) = item * (dev.quantum * dev.qset) + s_pos * dev.quantum + q_pos ∧
      (s_pos : Int) < dev.qset ∧ (q_pos : Int) < dev.quantum ∧
      (count ≤ buf.length → item + 3 ≤ avail →
        ∃ n p1 dev1, scull_write avail junk dev buf count p = .ok (n, p1, dev1) ∧ 0 ≤ n) ∧
      (∀ n p1 dev1, scull_write avail junk dev buf count p = .ok (n, p1, dev1) → 0 ≤ n →
        n = min (count : Int) (dev.quantum - q_pos) ∧
        (p1 : Int) = p + n ∧
        dev1.size = max dev.size p1 ∧
        dev1.quantum = dev.quantum ∧ dev1.qset = dev.qset ∧ WellFormed dev1 ∧
        (∀ k : Nat, (k : Int) < n →
          stored dev1 item s_pos (q_pos + k) = buf[k]? ∧ k < buf.length) ∧
        (∀ i s k b, ¬ (i = item ∧ s = s_pos ∧ q_pos ≤ k ∧ (k : Int) < q_pos + n) →
          stored dev i s k = some b → stored dev1 i s k = some b)) := by
  obtain ⟨Qn, hq⟩ := Int.eq_ofNat_of_zero_le (le_of_lt hQ)
  obtain ⟨Sn, hs⟩ := Int.eq_ofNat_of_zero_le (le_of_lt hS)
  rw [hq] at hQ
  rw [hs] at hS
  have hQ' : 0 < Qn := by exact_mod_cast hQ
  have hS' : 0 < Sn := by exact_mod_cast hS
  have hsz' : Qn * Sn < 2147483648 := by rw [hq, hs] at hsz; exact_mod_cast hsz
  have hit' : p / (Qn * Sn) < 2147483648 := by rw [hq, hs] at hit; exact_mod_cast hit
  have hpos : 0 < Qn * Sn := Nat.mul_pos hQ' hS'
  have hloc := locate_in_range dev p Qn Sn hq hs hQ' hS' hsz' hit'
  have hslt : p % (Qn * Sn) / Qn < Sn := by
    apply Nat.div_lt_of_lt_mul
    exact Nat.mod_lt _ hpos
  have hqlt : p % (Qn * Sn) % Qn < Qn := Nat.mod_lt _ hQ'
  have hQlt : Qn < 2147483648 := lt_of_le_of_lt (Nat.le_mul_of_pos_right Qn hS') hsz'
  refine ⟨p / (Qn * Sn), p % (Qn * Sn) / Qn, p % (Qn * Sn) % Qn, hloc, ?_, ?_, ?_, ?_, ?_⟩
  · rw [hq, hs]
    exact_mod_cast split_position p Qn Sn
  · rw [hs]; exact_mod_cast hslt
  · rw [hq]; exact_mod_cast hqlt
  · intro hbuf hav
    exact write_succeeds avail junk dev buf count p Qn Sn hq hs hQ' hS' hsz' hit' hwf hbuf hav
  · intro n p1 dev1 hw hn
    obtain ⟨item, s_pos, q_pos, c, hloc2, hc, hnc, hp1, hlen, hsize, hdq, hds, _, _, hst, hun⟩ :=
      write_effect avail junk dev buf count p n p1 dev1 hw hn
    rw [hloc] at hloc2
    simp only [Except.ok.injEq, Prod.mk.injEq] at hloc2
    obtain ⟨e1, e2, e3⟩ := hloc2
    subst e1 e2 e3
    have hI : (((p / (Qn * Sn) : Nat) : Int) % 4294967296).toNat = p / (Qn * Sn) := by
      generalize p / (Qn * Sn) = I at hit'
      omega
    rw [hI] at hst hun
    simp only [Int.toNat_ofNat] at hst hun
    have hroom : to_ulong (dev.quantum - ((p % (Qn * Sn) % Qn : Nat) : Int))
        = Qn - p % (Qn * Sn) % Qn := by
      generalize p % (Qn * Sn) % Qn = r at hqlt
      rw [hq, to_ulong_of_range _ (by omega) (by omega)]
      omega
    rw [hroom] at hc
    generalize p % (Qn * Sn) % Qn = r at hqlt hc hst hun ⊢
    generalize p % (Qn * Sn) / Qn = s at hslt hst hun ⊢
    generalize p / (Qn * Sn) = I at hit' hst hun ⊢
    have hcmin : (c : Int) = min (count : Int) (dev.quantum - r) := by
      rw [hq, hc]
      split <;> omega
    refine ⟨by rw [hnc, hcmin], by rw [hnc, hp1]; push_cast; rfl, ?_, hdq, hds,
      wellFormed_write avail junk dev buf count p n p1 dev1 hw hn hwf, ?_, ?_⟩
    · rw [hsize, hp1]
      split <;> omega
    · intro k hk
      rw [hnc] at hk
      have hk' : k < c := by exact_mod_cast hk
      exact ⟨hst k hk', by omega⟩
    · intro i s' k b hne hold
      apply hun i s' k b ?_ hold
      intro hcon
      apply hne
      refine ⟨hcon.1, hcon.2.1, hcon.2.2.1, ?_⟩
      rw [hnc]
      exact_mod_cast hcon.2.2.2


/-- An instance of `write_stays_in_one_quantum`: six bytes written at
position 7998 of the sample device, two bytes before the end of a quantum. -/
theorem write_stays_in_one_quantum_witness :
    WellFormed sample_dev ∧ 0 < sample_dev.quantum ∧ 0 < sample_dev.qset ∧
    sample_dev.quantum * sample_dev.qset < 2147483648 ∧
    ((7998 : Nat) : Int) / (sample_dev.quantum * sample_dev.qset) < 2147483648 ∧
    scull_write 5 [] sample_dev sample_buf 6 7998 = .ok (2, 8000,
      write_state sample_dev (scull_write 5 [] sample_dev sample_buf 6 7998)) ∧
    (write_state sample_dev (scull_write 5 [] sample_dev sample_buf 6 7998)).size
      = max sample_dev.size 8000 ∧
    WellFormed (write_state sample_dev (scull_write 5 [] sample_dev sample_buf 6 7998)) := by
  obtain ⟨_, _, _, _, _, _, _, _, h6⟩ := write_stays_in_one_quantum 5 [] sample_dev sample_buf 6
    7998 (wellFormed_init _ _) (by decide) (by decide) (by decide) (by decide)
  have h := h6 2 8000 (write_state sample_dev (scull_write 5 [] sample_dev sample_buf 6 7998))
    (by decide!) (by decide)
  exact ⟨wellFormed_init _ _, by decide, by decide, by decide, by decide, by decide!,
    h.2.2.1, h.2.2.2.2.2.1⟩

/-- C24 (a write never crosses a quantum boundary and only grows the size),
evaluated where the code departs from it: on the sample device
(quantum 4000, qset 1000) holding the byte 5 at position 0, a write of the
byte 7 at position `2^32 * 4000000` succeeds.  The item index of that
position is `2^32`; stored in the `int item` it is 0, so that the code's
`item`, `s_pos` and `q_pos` are all 0 and do not add up to the position, and
the byte stored at position 0, outside the written range, becomes 7.  On a
device with `quantum = qset = 65536` the product stored in `int itemsize` is
0 and the write divides by zero. -/
theorem write_far_position_hits_item_zero :
    0 < dev_with_byte.quantum ∧ 0 < dev_with_byte.qset ∧
    (far_position : Int) / (dev_with_byte.quantum * dev_with_byte.qset) = 4294967296 ∧
    scull_locate dev_with_byte far_position = .ok (0, 0, 0) ∧
    (far_position : Int) ≠ 0 * (dev_with_byte.quantum * dev_with_byte.qset)
      + 0 * dev_with_byte.quantum + 0 ∧
    scull_write 3 [] dev_with_byte [7] 1 far_position = .ok (1, far_position + 1,
      write_state dev_with_byte (scull_write 3 [] dev_with_byte [7] 1 far_position)) ∧
    stored dev_with_byte 0 0 0 = some 5 ∧
    stored (write_state dev_with_byte (scull_write 3 [] dev_with_byte [7] 1 far_position))
      0 0 0 = some 7 ∧
    (scull_read 0 dev_with_byte [0] 1 0).toOption.map (fun r => (r.1, r.2.2.1))
      = some (1, [5]) ∧
    (scull_read 0 (write_state dev_with_byte (scull_write 3 [] dev_with_byte [7] 1 far_position))
      [0] 1 0).toOption.map (fun r => (r.1, r.2.2.1)) = some (1, [7]) ∧
    scull_write 3 [] (scull_init_dev 65536 65536) [7] 1 0 = .error Fault.div_by_zero := by
  refine ⟨by decide!, by decide!, by decide!, by decide!, by decide!, by decide!, by decide!,
    by decide!, by decide!, by decide!, by decide⟩

end Scull
